import Mathlib

/-!
GenomicsDB, `src/variant/src/json_config.cc`.

A shallow embedding of the configuration loader `JSONConfigBase::read_from_file`, the
accessors `get_workspace`, `get_array_name`, `get_column_partition`, and the per-rank
assembler `JSONBasicQueryConfig::read_from_file`, followed by theorems about them.

Conventions of the embedding.

* The parsed document `m_json` is a `JValue` (what rapidjson hands to the code).
* `int64_t` values are `Int`; arithmetic that can leave the int64 range goes through
  `wrap64`, and `static_cast<size_t>` is `to_size_t`.
* `std::vector` is `List`; `resize` is `vector_resize`; an unchecked `operator[]` outside the
  vector is the error `RunError.out_of_bounds`.
* A failed `VERIFY_OR_THROW` is an `Except.error` naming the failed check; a failed
  `RAPIDJSON_ASSERT` (asserts are switched on at the top of the source file) is
  `RunError.json_assert`.
* Memory. The vectors that hold the values of the document have the size of the document and
  are taken to get their storage. The `resize` of line 288 is different: its size comes from
  the values of a row interval, so two numbers in the document can ask for any amount of
  memory. Whether that `resize` gets its storage is not decided by the program; it is a
  parameter of the model, the `Allocator`, and a refusal is `RunError.bad_alloc`.
-/

namespace GenomicsDB

/-! ## Machine integers -/

def INT64_MAX : Int := 9223372036854775807

def INT64_MIN : Int := -9223372036854775808

/-- Two's-complement reduction of an integer to the int64 range. -/
def wrap64 (x : Int) : Int := (x + 9223372036854775808) % 18446744073709551616 - 9223372036854775808

/-- The conversion `static_cast<size_t>(x)` of a signed integer (64-bit `size_t`). -/
def to_size_t (x : Int) : Nat := (x % 18446744073709551616).toNat

/-- Reduction of a natural number to the range of `size_t`. -/
def wrap_size_t (n : Nat) : Nat := n % 18446744073709551616

/-- The range of the C type `int`, the type of the `rank` argument. -/
def is_int (r : Int) : Prop := -2147483648 ≤ r ∧ r ≤ 2147483647

instance is_int_decidable (r : Int) : Decidable (is_int r) :=
  inferInstanceAs (Decidable (-2147483648 ≤ r ∧ r ≤ 2147483647))

/-! ## The JSON document tree (rapidjson `Value`) -/

/-- A parsed JSON value. `int i` is a number written without fraction or exponent; it is an
int64 for rapidjson when `i` lies in the int64 range. `real` stands for every other number. -/
inductive JValue where
  | null
  | bool (b : Bool)
  | real
  | int (i : Int)
  | str (s : String)
  | arr (elems : List JValue)
  | obj (members : List (String × JValue))

/-- The errors a load can end with. -/
inductive RunError where
  /-- A `RAPIDJSON_ASSERT` failed (typed getter on a value of another type). -/
  | json_assert
  /-- Lines 34 and 40: `workspace[i].IsString()`, `workspace.IsString()`. -/
  | workspace_not_string
  /-- Lines 54 and 60: `array_name[i].IsString()`, `array_name.IsString()`. -/
  | array_not_string
  /-- Line 65: none of the three column selectors is present. -/
  | no_column_selector
  /-- Line 71: both `query_column_ranges` and `column_partitions`. -/
  | ranges_and_partitions
  /-- Lines 81, 88, 180, 187, 215: `q1.IsArray()`, `q2.IsArray()`. -/
  | not_array
  /-- Lines 96 and 195: `q3.Size() == 2`. -/
  | interval_size
  /-- Lines 97, 98, 104, 196, 197, 203: `IsInt64()`. -/
  | interval_not_int64
  /-- Line 118: `column_partitions_dict.IsObject()`. -/
  | partitions_not_object
  /-- Line 130: `curr_partition_info_dict.IsObject()`. -/
  | partition_not_object
  /-- Line 131: `curr_partition_info_dict.HasMember("begin")`. -/
  | partition_no_begin
  /-- Line 163: two column partitions with the same begin value. -/
  | duplicate_begin
  /-- Line 220: `q2.IsString()`. -/
  | attribute_not_string
  /-- Lines 228 and 258: no workspace for the rank. -/
  | workspace_rank
  /-- Lines 237 and 264: no array for the rank. -/
  | array_rank
  /-- Lines 247 and 248 of `get_column_partition`. -/
  | column_partition_index
  /-- Line 257: `m_workspaces.size()`. -/
  | no_workspace
  /-- Line 261: `workspace != ""`. -/
  | empty_workspace
  /-- Line 263: `m_array_names.size()`. -/
  | no_array
  /-- Line 267: `array_name != ""`. -/
  | empty_array_name
  /-- Line 269: `m_column_ranges.size() || m_scan_whole_array`. -/
  | no_column_ranges
  /-- Line 272: rank beyond the column ranges vector. -/
  | column_ranges_rank
  /-- Line 281: rank beyond the row ranges vector. -/
  | row_ranges_rank
  /-- Line 295: `m_attributes.size()`. -/
  | no_attributes
  /-- The exception `std::length_error` of `std::vector::resize`. -/
  | length_error
  /-- The exception `std::bad_alloc` of `std::vector::resize`: no memory for the new size. -/
  | bad_alloc
  /-- An unchecked `operator[]` outside the vector (undefined behaviour in C++). -/
  | out_of_bounds
  /-- The model of the loop of line 289 ran out of steps; `fill_rows_fuel` shows that this is
  never the outcome for the number of steps `expand_range` gives it. -/
  | fuel_exhausted
  deriving DecidableEq, Repr

/-- The pair `std::pair<int64_t,int64_t>` named `ColumnRange` in the source. -/
abbrev ColumnRange := Int × Int

namespace JValue

def IsInt64 : JValue → Bool
  | int i => decide (INT64_MIN ≤ i ∧ i ≤ INT64_MAX)
  | _ => false

def IsString : JValue → Bool
  | str _ => true
  | _ => false

def IsArray : JValue → Bool
  | arr _ => true
  | _ => false

def IsObject : JValue → Bool
  | obj _ => true
  | _ => false

/-- The getter `GetInt64()`: asserts that the value is an int64. -/
def GetInt64 : JValue → Except RunError Int
  | int i => if INT64_MIN ≤ i ∧ i ≤ INT64_MAX then .ok i else .error .json_assert
  | _ => .error .json_assert

/-- The getter `GetString()`: asserts that the value is a string. -/
def GetString : JValue → Except RunError String
  | str s => .ok s
  | _ => .error .json_assert

end JValue

/-- The member lookup `FindMember(name)` on the member list of an object: the first member with
that name. `operator[]` returns its value and `HasMember` tests that it exists. -/
def FindMember : List (String × JValue) → String → Option JValue
  | [], _ => none
  | (k, v) :: rest, name => if k = name then some v else FindMember rest name

def HasMember (members : List (String × JValue)) (name : String) : Bool :=
  (FindMember members name).isSome

/-! ## The configuration object -/

/-- The data members of `JSONConfigBase` that `json_config.cc` reads and writes. -/
structure JSONConfigBase where
  m_single_workspace_path : Bool
  m_single_array_name : Bool
  m_single_query_column_ranges_vector : Bool
  m_column_partitions_specified : Bool
  m_single_query_row_ranges_vector : Bool
  m_scan_whole_array : Bool
  m_workspaces : List String
  m_array_names : List String
  m_column_ranges : List (List ColumnRange)
  m_sorted_column_partitions : List ColumnRange
  m_row_ranges : List (List ColumnRange)
  m_attributes : List String
  deriving DecidableEq, Repr

/-- Modelled from the spec: the constructor of `JSONConfigBase` is in `json_config.h`, which is
not among the sources. The spec has the configuration built once, at load time, from the
document alone, so a fresh object has every flag off and every vector empty. -/
def JSONConfigBase.fresh : JSONConfigBase :=
  { m_single_workspace_path := false
    m_single_array_name := false
    m_single_query_column_ranges_vector := false
    m_column_partitions_specified := false
    m_single_query_row_ranges_vector := false
    m_scan_whole_array := false
    m_workspaces := []
    m_array_names := []
    m_column_ranges := []
    m_sorted_column_partitions := []
    m_row_ranges := []
    m_attributes := [] }

/-- The method `JSONConfigBase::clear` (lines 10-17): the five vectors are emptied, the flags and
`m_sorted_column_partitions` are left alone. -/
def JSONConfigBase.clear (s : JSONConfigBase) : JSONConfigBase :=
  { s with
    m_workspaces := []
    m_array_names := []
    m_column_ranges := []
    m_row_ranges := []
    m_attributes := [] }

/-- The call `v.resize(n, fill)` of `std::vector`. -/
def vector_resize {α : Type} (v : List α) (n : Nat) (fill : α) : List α :=
  v.take n ++ List.replicate (n - v.length) fill

/-! ## `JSONConfigBase::read_from_file`, lines 25-64: workspace and array -/

/-- The loops of lines 32-36 and 52-56: every element must be a string and is pushed back. -/
def push_strings (e : RunError) : List JValue → List String → Except RunError (List String)
  | [], acc => .ok acc
  | v :: rest, acc =>
    if v.IsString then
      match v.GetString with
      | .ok x => push_strings e rest (acc ++ [x])
      | .error err => .error err
    else .error e

/-- Lines 26-44. -/
def read_workspace (s : JSONConfigBase) (m_json : List (String × JValue)) :
    Except RunError JSONConfigBase :=
  match FindMember m_json "workspace" with
  | none => .ok s
  | some workspace =>
    match workspace with
    | .arr elems =>
      match push_strings .workspace_not_string elems s.m_workspaces with
      | .ok ws => .ok { s with m_workspaces := ws }
      | .error err => .error err
    | _ =>
      if workspace.IsString then
        match workspace.GetString with
        | .ok x => .ok { s with m_workspaces := s.m_workspaces ++ [x], m_single_workspace_path := true }
        | .error err => .error err
      else .error .workspace_not_string

/-- Lines 46-64. -/
def read_array (s : JSONConfigBase) (m_json : List (String × JValue)) :
    Except RunError JSONConfigBase :=
  match FindMember m_json "array" with
  | none => .ok s
  | some array_name =>
    match array_name with
    | .arr elems =>
      match push_strings .array_not_string elems s.m_array_names with
      | .ok ns => .ok { s with m_array_names := ns }
      | .error err => .error err
    | _ =>
      if array_name.IsString then
        match array_name.GetString with
        | .ok x => .ok { s with m_array_names := s.m_array_names ++ [x], m_single_array_name := true }
        | .error err => .error err
      else .error .array_not_string

/-! ## Lines 92-109 and 191-208: one query interval -/

/-- The swap of lines 108-109, 137-138 and 207-208. -/
def swap_if_greater (r : ColumnRange) : ColumnRange :=
  if r.1 > r.2 then (r.2, r.1) else r

/-- Lines 92-109 (columns) and 191-208 (rows), which are the same code: `q3` is a list of two
int64 values or a single int64 position; the pair is stored with its smaller value first. -/
def read_range (q3 : JValue) : Except RunError ColumnRange :=
  match q3 with
  | .arr elems =>
    match elems with
    | [q30, q31] =>
      if q30.IsInt64 then
        if q31.IsInt64 then
          match q30.GetInt64, q31.GetInt64 with
          | .ok a, .ok b => .ok (swap_if_greater (a, b))
          | .error err, _ => .error err
          | _, .error err => .error err
        else .error .interval_not_int64
      else .error .interval_not_int64
    | _ => .error .interval_size
  | _ =>
    if q3.IsInt64 then
      match q3.GetInt64 with
      | .ok v => .ok (swap_if_greater (v, v))
      | .error err => .error err
    else .error .interval_not_int64

/-- The inner loop over `j` (lines 90-110, 189-209): the intervals of one rank. The vector is
resized to `q2.Size()` and every slot is then assigned, so it ends as the list of the intervals
read. -/
def read_range_list : List JValue → Except RunError (List ColumnRange)
  | [] => .ok []
  | q3 :: rest =>
    match read_range q3 with
    | .error err => .error err
    | .ok r =>
      match read_range_list rest with
      | .error err => .error err
      | .ok rs => .ok (r :: rs)

/-- The outer loop over `i` (lines 85-111, 184-210): one interval list per outer element. -/
def read_range_lists : List JValue → Except RunError (List (List ColumnRange))
  | [] => .ok []
  | q2 :: rest =>
    match q2 with
    | .arr inner =>
      match read_range_list inner with
      | .error err => .error err
      | .ok rs =>
        match read_range_lists rest with
        | .error err => .error err
        | .ok rss => .ok (rs :: rss)
    | _ => .error .not_array

/-! ## Lines 113-170: column partitions -/

/-- The local `std::unordered_map<int64_t, unsigned> begin_to_idx`: the newest entry for a key is
the one found. -/
abbrev BeginToIdx := List (Int × Nat)

/-- The read `begin_to_idx[key]` (line 167); a missing key is value-initialised to 0. -/
def begin_to_idx_get : BeginToIdx → Int → Nat
  | [], _ => 0
  | (k, v) :: m, key => if k = key then v else begin_to_idx_get m key

/-- The assignment `begin_to_idx[key] = idx` (line 154). -/
def begin_to_idx_set (m : BeginToIdx) (key : Int) (idx : Nat) : BeginToIdx :=
  (key, idx) :: m

/-- The assignment `m_column_ranges[idx][0].second = v` (line 168). -/
def set_second (column_ranges : List (List ColumnRange)) (idx : Nat) (v : Int) :
    List (List ColumnRange) :=
  match column_ranges.get? idx with
  | some (p :: rest) => column_ranges.set idx ((p.1, v) :: rest)
  | _ => column_ranges

/-- Lines 133-138: `first` is the `begin` member, `second` is `INT64_MAX` or the `end` member when
there is one, and the two are swapped when `first > second`. -/
def read_partition_range (info : List (String × JValue)) : Except RunError ColumnRange :=
  match FindMember info "begin" with
  | none => .error .json_assert
  | some b =>
    match b.GetInt64 with
    | .error err => .error err
    | .ok first =>
      match FindMember info "end" with
      | none => .ok (swap_if_greater (first, INT64_MAX))
      | some e =>
        match e.GetInt64 with
        | .error err => .error err
        | .ok second => .ok (swap_if_greater (first, second))

/-- Lines 139-145: the `workspace` override of one partition. -/
def override_workspace (count : Nat) (workspace_string : String) (partition_idx : Nat)
    (info : List (String × JValue)) (s : JSONConfigBase) : Except RunError JSONConfigBase :=
  match FindMember info "workspace" with
  | none => .ok s
  | some w =>
    let ws := if count > s.m_workspaces.length
      then vector_resize s.m_workspaces count workspace_string else s.m_workspaces
    match w.GetString with
    | .error err => .error err
    | .ok x => .ok { s with m_workspaces := ws.set partition_idx x, m_single_workspace_path := false }

/-- Lines 146-152: the `array` override of one partition (the size test is `>=` here). -/
def override_array (count : Nat) (array_name_string : String) (partition_idx : Nat)
    (info : List (String × JValue)) (s : JSONConfigBase) : Except RunError JSONConfigBase :=
  match FindMember info "array" with
  | none => .ok s
  | some a =>
    let ns := if count ≥ s.m_array_names.length
      then vector_resize s.m_array_names count array_name_string else s.m_array_names
    match a.GetString with
    | .error err => .error err
    | .ok x => .ok { s with m_array_names := ns.set partition_idx x, m_single_array_name := false }

/-- The body of the loop of lines 125-157 for the partition at position `partition_idx`. -/
def read_partition (count : Nat) (workspace_string array_name_string : String)
    (partition_idx : Nat) (curr_partition_info_dict : JValue)
    (s : JSONConfigBase) (begin_to_idx : BeginToIdx) :
    Except RunError (JSONConfigBase × BeginToIdx) :=
  match curr_partition_info_dict with
  | .obj info =>
    if HasMember info "begin" then
      match read_partition_range info with
      | .error err => .error err
      | .ok range =>
        let s1 := { s with m_column_ranges := s.m_column_ranges.set partition_idx [range] }
        match override_workspace count workspace_string partition_idx info s1 with
        | .error err => .error err
        | .ok s2 =>
          match override_array count array_name_string partition_idx info s2 with
          | .error err => .error err
          | .ok s3 =>
            .ok ({ s3 with m_sorted_column_partitions :=
                            s3.m_sorted_column_partitions.set partition_idx range },
                 begin_to_idx_set begin_to_idx range.1 partition_idx)
    else .error .partition_no_begin
  | _ => .error .partition_not_object

/-- The loop of lines 125-157 over the members of `column_partitions`, in declaration order. -/
def read_partitions (count : Nat) (workspace_string array_name_string : String) :
    List (String × JValue) → Nat → JSONConfigBase → BeginToIdx →
    Except RunError (JSONConfigBase × BeginToIdx)
  | [], _, s, begin_to_idx => .ok (s, begin_to_idx)
  | curr_obj :: rest, partition_idx, s, begin_to_idx =>
    match read_partition count workspace_string array_name_string partition_idx curr_obj.2
        s begin_to_idx with
    | .error err => .error err
    | .ok (s1, m1) =>
      read_partitions count workspace_string array_name_string rest (partition_idx + 1) s1 m1

/-- Modelled from the spec: `ColumnRangeCompare` is declared in `json_config.h`, which is not
among the sources. The spec orders the sorted copy "ascending by `begin`". -/
def ColumnRangeCompare (x y : ColumnRange) : Bool := decide (x.1 < y.1)

/-- The order `std::sort` must produce for `ColumnRangeCompare`: `y` does not come before `x`. -/
def column_range_le (x y : ColumnRange) : Prop := ColumnRangeCompare y x = false

instance column_range_le_decidable : DecidableRel column_range_le :=
  fun x y => inferInstanceAs (Decidable (ColumnRangeCompare y x = false))

instance column_range_le_total : IsTotal ColumnRange column_range_le :=
  ⟨fun x y => by
    simp only [column_range_le, ColumnRangeCompare, decide_eq_false_iff_not, not_lt]
    exact le_total x.1 y.1⟩

instance column_range_le_trans : IsTrans ColumnRange column_range_le :=
  ⟨fun x y z hxy hyz => by
    simp only [column_range_le, ColumnRangeCompare, decide_eq_false_iff_not, not_lt] at *
    exact le_trans hxy hyz⟩

/-- Line 159: `std::sort(..., ColumnRangeCompare)`. The result of `std::sort` is a permutation
of its input that is ordered for the comparison; insertion sort computes one. -/
def sort_column_partitions (v : List ColumnRange) : List ColumnRange :=
  List.insertionSort column_range_le v

/-- The loop of lines 161-169 from position `i` on, where the list argument is
`m_sorted_column_partitions[i..]`: the check of line 163, the clamp of lines 165-166 (the
subtraction is an int64 subtraction), and the write-back of lines 167-168. It returns the new
`m_sorted_column_partitions[i..]` and the new `m_column_ranges`. -/
def clamp_partitions (begin_to_idx : BeginToIdx) :
    List ColumnRange → List (List ColumnRange) →
    Except RunError (List ColumnRange × List (List ColumnRange))
  | curr :: next :: rest, column_ranges =>
    if curr.1 ≠ next.1 then
      let second := if curr.2 ≥ next.1 then wrap64 (next.1 - 1) else curr.2
      let idx := begin_to_idx_get begin_to_idx curr.1
      match clamp_partitions begin_to_idx (next :: rest) (set_second column_ranges idx second) with
      | .error err => .error err
      | .ok (sorted, column_ranges1) => .ok ((curr.1, second) :: sorted, column_ranges1)
    else .error .duplicate_begin
  | sorted, column_ranges => .ok (sorted, column_ranges)

/-- Lines 123 and 124: `single ? v[0] : ""`, where `v[0]` is an unchecked access. -/
def first_or_empty (single : Bool) (v : List String) : Except RunError String :=
  if single then
    match v.get? 0 with
    | some x => .ok x
    | none => .error .out_of_bounds
  else .ok ""

/-- Lines 115-169: the `column_partitions` branch. -/
def read_column_partitions (s : JSONConfigBase) (column_partitions_dict : JValue) :
    Except RunError JSONConfigBase :=
  let s0 := { s with m_column_partitions_specified := true }
  match column_partitions_dict with
  | .obj members =>
    let count := members.length
    let s1 := { s0 with
      m_sorted_column_partitions := vector_resize s0.m_sorted_column_partitions count (0, 0)
      m_column_ranges := vector_resize s0.m_column_ranges count [] }
    match first_or_empty s1.m_single_workspace_path s1.m_workspaces,
          first_or_empty s1.m_single_array_name s1.m_array_names with
    | .error err, _ => .error err
    | _, .error err => .error err
    | .ok workspace_string, .ok array_name_string =>
      match read_partitions count workspace_string array_name_string members 0 s1 [] with
      | .error err => .error err
      | .ok (s2, begin_to_idx) =>
        match clamp_partitions begin_to_idx (sort_column_partitions s2.m_sorted_column_partitions)
            s2.m_column_ranges with
        | .error err => .error err
        | .ok (sorted, column_ranges) =>
          .ok { s2 with m_sorted_column_partitions := sorted, m_column_ranges := column_ranges }
  | _ => .error .partitions_not_object

/-- Lines 78-112: the `query_column_ranges` branch. The outer vector is resized to `q1.Size()`
and every slot is assigned, so it ends as the list of the lists read. -/
def read_query_column_ranges (s : JSONConfigBase) (q1 : JValue) : Except RunError JSONConfigBase :=
  match q1 with
  | .arr outer =>
    match read_range_lists outer with
    | .error err => .error err
    | .ok column_ranges =>
      .ok { s with
        m_single_query_column_ranges_vector :=
          if outer.length = 1 then true else s.m_single_query_column_ranges_vector
        m_column_ranges := column_ranges }
  | _ => .error .not_array

/-- Lines 65-171: the column selection. -/
def read_column_selection (s : JSONConfigBase) (m_json : List (String × JValue)) :
    Except RunError JSONConfigBase :=
  if HasMember m_json "query_column_ranges" || HasMember m_json "column_partitions"
      || HasMember m_json "scan_full" then
    if HasMember m_json "scan_full" then
      .ok { s with m_scan_whole_array := true }
    else if !HasMember m_json "query_column_ranges" || !HasMember m_json "column_partitions" then
      match FindMember m_json "query_column_ranges" with
      | some q1 => read_query_column_ranges s q1
      | none =>
        match FindMember m_json "column_partitions" with
        | some column_partitions_dict => read_column_partitions s column_partitions_dict
        | none => .error .json_assert
    else .error .ranges_and_partitions
  else .error .no_column_selector

/-- Lines 177-211: `query_row_ranges`. -/
def read_query_row_ranges (s : JSONConfigBase) (m_json : List (String × JValue)) :
    Except RunError JSONConfigBase :=
  match FindMember m_json "query_row_ranges" with
  | none => .ok s
  | some q1 =>
    match q1 with
    | .arr outer =>
      match read_range_lists outer with
      | .error err => .error err
      | .ok row_ranges =>
        .ok { s with
          m_single_query_row_ranges_vector :=
            if outer.length = 1 then true else s.m_single_query_row_ranges_vector
          m_row_ranges := row_ranges }
    | _ => .error .not_array

/-- The loop of lines 217-222: every element must be a string. -/
def read_attribute_list : List JValue → Except RunError (List String)
  | [] => .ok []
  | q2 :: rest =>
    if q2.IsString then
      match q2.GetString, read_attribute_list rest with
      | .ok x, .ok xs => .ok (x :: xs)
      | .error err, _ => .error err
      | _, .error err => .error err
    else .error .attribute_not_string

/-- Lines 212-223: `query_attributes`. -/
def read_query_attributes (s : JSONConfigBase) (m_json : List (String × JValue)) :
    Except RunError JSONConfigBase :=
  match FindMember m_json "query_attributes" with
  | none => .ok s
  | some q1 =>
    match q1 with
    | .arr elems =>
      match read_attribute_list elems with
      | .error err => .error err
      | .ok attributes => .ok { s with m_attributes := attributes }
    | _ => .error .not_array

/-- The method `JSONConfigBase::read_from_file` (lines 19-224) from the parsed document on. The
member tests on `m_json` assert that it is an object. -/
def JSONConfigBase.read_from_file (s : JSONConfigBase) (m_json : JValue) :
    Except RunError JSONConfigBase :=
  match m_json with
  | .obj members =>
    match read_workspace s members with
    | .error err => .error err
    | .ok s1 =>
      match read_array s1 members with
      | .error err => .error err
      | .ok s2 =>
        match read_column_selection s2 members with
        | .error err => .error err
        | .ok s3 =>
          match read_query_row_ranges s3 members with
          | .error err => .error err
          | .ok s4 => read_query_attributes s4 members
  | _ => .error .json_assert

/-! ## The accessors, lines 226-250 -/

/-- The method `get_workspace` (lines 226-233). -/
def JSONConfigBase.get_workspace (s : JSONConfigBase) (rank : Int) : Except RunError String :=
  if s.m_single_workspace_path || decide (to_size_t rank < s.m_workspaces.length) then
    match s.m_workspaces.get? (if s.m_single_workspace_path then 0 else to_size_t rank) with
    | some w => .ok w
    | none => .error .out_of_bounds
  else .error .workspace_rank

/-- The method `get_array_name` (lines 235-242). -/
def JSONConfigBase.get_array_name (s : JSONConfigBase) (rank : Int) : Except RunError String :=
  if s.m_single_array_name || decide (to_size_t rank < s.m_array_names.length) then
    match s.m_array_names.get? (if s.m_single_array_name then 0 else to_size_t rank) with
    | some a => .ok a
    | none => .error .out_of_bounds
  else .error .array_rank

/-- The method `get_column_partition` (lines 244-250). -/
def JSONConfigBase.get_column_partition (s : JSONConfigBase) (rank : Int) (idx : Nat) :
    Except RunError ColumnRange :=
  let fixed_rank : Int := if s.m_single_query_column_ranges_vector then 0 else rank
  match s.m_column_ranges.get? (to_size_t fixed_rank) with
  | none => .error .column_partition_index
  | some ranges =>
    match ranges.get? idx with
    | none => .error .column_partition_index
    | some r => .ok r

/-! ## `JSONBasicQueryConfig::read_from_file`, lines 252-297 -/

/-- One call made on the caller's `VariantQueryConfig`. -/
inductive QueryConfigCall where
  | add_column_interval_to_query (colBegin colEnd : Int)
  | set_rows_to_query (row_idxs : List Int)
  | set_attributes_to_query (attributes : List String)
  deriving DecidableEq, Repr

/-- Modelled from the spec: the class `VariantQueryConfig` is defined outside the sources; the
spec only names what the assembler hands to it (column intervals, an expanded row list, the
attribute list). The object is represented by the calls it has received, oldest first, so it is
"as it was before" exactly when no call has been made on it. -/
abbrev VariantQueryConfig := List QueryConfigCall

/-- The bound `max_size()` of `std::vector<int64_t>` beyond which `resize` throws
`std::length_error`: `PTRDIFF_MAX / sizeof(int64_t)` on an LP64 platform. -/
def vector_max_size : Nat := 1152921504606846975

/-- The loop of lines 289-290, `for(auto i=range.first;i<=range.second;++i,++j) row_idxs[j] = i;`
with `++i` an int64 increment. Every turn that does not leave the vector uses one of the
`row_idxs.size() - j` slots left, which is the number of steps given to the model. -/
def fill_rows (second : Int) : Nat → Int → Nat → List Int → Except RunError (List Int)
  | 0, i, j, row_idxs =>
    if i ≤ second then
      if j < row_idxs.length then .error .fuel_exhausted else .error .out_of_bounds
    else .ok row_idxs
  | fuel + 1, i, j, row_idxs =>
    if i ≤ second then
      if j < row_idxs.length then
        fill_rows second fuel (wrap64 (i + 1)) (j + 1) (row_idxs.set j i)
      else .error .out_of_bounds
    else .ok row_idxs

/-- The memory the process can get, as line 288 sees it: `alloc n` tells whether a `resize` of
`row_idxs` that grows it to `n` elements gets its storage. The program has no say in it. -/
abbrev Allocator := Nat → Bool

/-- The body of the loop of lines 285-291 for one range: the size is computed as
`size_t + (int64 - int64 + 1ll)`, the vector is resized, and the new slots are filled. A
`resize` that grows the vector throws `std::length_error` beyond `max_size()` and
`std::bad_alloc` when the allocator has no storage for the new size. -/
def expand_range (alloc : Allocator) (row_idxs : List Int) (range : ColumnRange) :
    Except RunError (List Int) :=
  let j := row_idxs.length
  let n := wrap_size_t (row_idxs.length + to_size_t (wrap64 (wrap64 (range.2 - range.1) + 1)))
  if n > vector_max_size then .error .length_error
  else if n > row_idxs.length ∧ alloc n = false then .error .bad_alloc
  else
    let resized := vector_resize row_idxs n 0
    fill_rows range.2 (resized.length - j) range.1 j resized

/-- The loop of lines 285-291 over the ranges of the rank. -/
def expand_ranges (alloc : Allocator) : List ColumnRange → List Int → Except RunError (List Int)
  | [], row_idxs => .ok row_idxs
  | range :: rest, row_idxs =>
    match expand_range alloc row_idxs range with
    | .error err => .error err
    | .ok row_idxs1 => expand_ranges alloc rest row_idxs1

/-- Lines 257-267: the workspace and the array name of the rank must exist and be non-empty. -/
def check_workspace_and_array (s : JSONConfigBase) (rank : Int) : Except RunError Unit :=
  if s.m_workspaces.length = 0 then .error .no_workspace
  else if !(s.m_single_workspace_path || decide (to_size_t rank < s.m_workspaces.length)) then
    .error .workspace_rank
  else
    match s.m_workspaces.get? (if s.m_single_workspace_path then 0 else to_size_t rank) with
    | none => .error .out_of_bounds
    | some workspace =>
      if workspace = "" then .error .empty_workspace
      else if s.m_array_names.length = 0 then .error .no_array
      else if !(s.m_single_array_name || decide (to_size_t rank < s.m_array_names.length)) then
        .error .array_rank
      else
        match s.m_array_names.get? (if s.m_single_array_name then 0 else to_size_t rank) with
        | none => .error .out_of_bounds
        | some array_name =>
          if array_name = "" then .error .empty_array_name else .ok ()

/-- Lines 269-277: the column intervals of the rank are added to `query_config` one by one. -/
def add_query_columns (s : JSONConfigBase) (rank : Int) (query_config : VariantQueryConfig) :
    Except RunError VariantQueryConfig :=
  if !(decide (s.m_column_ranges.length ≠ 0) || s.m_scan_whole_array) then
    .error .no_column_ranges
  else if !s.m_scan_whole_array then
    if !(s.m_single_query_column_ranges_vector
          || decide (to_size_t rank < s.m_column_ranges.length)) then
      .error .column_ranges_rank
    else
      match s.m_column_ranges.get?
          (if s.m_single_query_column_ranges_vector then 0 else to_size_t rank) with
      | none => .error .out_of_bounds
      | some column_ranges_vector =>
        .ok (column_ranges_vector.foldl
          (fun qc range => qc ++ [QueryConfigCall.add_column_interval_to_query range.1 range.2])
          query_config)
  else .ok query_config

/-- Lines 279-293: the row ranges of the rank are expanded and handed to `query_config`. -/
def set_query_rows (alloc : Allocator) (s : JSONConfigBase) (rank : Int)
    (query_config : VariantQueryConfig) : Except RunError VariantQueryConfig :=
  if s.m_row_ranges.length ≠ 0 then
    if !(s.m_single_query_row_ranges_vector
          || decide (to_size_t rank < s.m_row_ranges.length)) then
      .error .row_ranges_rank
    else
      match s.m_row_ranges.get?
          (if s.m_single_query_row_ranges_vector then 0 else to_size_t rank) with
      | none => .error .out_of_bounds
      | some row_ranges_vector =>
        match expand_ranges alloc row_ranges_vector [] with
        | .error err => .error err
        | .ok row_idxs => .ok (query_config ++ [QueryConfigCall.set_rows_to_query row_idxs])
  else .ok query_config

/-- The method `JSONBasicQueryConfig::read_from_file` (lines 252-297) from the parsed document
on. The second component is the caller's `query_config` when the call returns or throws. -/
def JSONBasicQueryConfig.read_from_file (alloc : Allocator) (s : JSONConfigBase)
    (m_json : JValue) (query_config : VariantQueryConfig) (rank : Int) :
    Except RunError JSONConfigBase × VariantQueryConfig :=
  match JSONConfigBase.read_from_file s m_json with
  | .error err => (.error err, query_config)
  | .ok s1 =>
    match check_workspace_and_array s1 rank with
    | .error err => (.error err, query_config)
    | .ok _ =>
      match add_query_columns s1 rank query_config with
      | .error err => (.error err, query_config)
      | .ok query_config1 =>
        match set_query_rows alloc s1 rank query_config1 with
        | .error err => (.error err, query_config1)
        | .ok query_config2 =>
          if s1.m_attributes.length ≠ 0 then
            (.ok s1, query_config2 ++ [QueryConfigCall.set_attributes_to_query s1.m_attributes])
          else (.error .no_attributes, query_config2)

/-! ## Vocabulary of the statements -/

def is_int64 (i : Int) : Prop := INT64_MIN ≤ i ∧ i ≤ INT64_MAX

instance is_int64_decidable (i : Int) : Decidable (is_int64 i) :=
  inferInstanceAs (Decidable (INT64_MIN ≤ i ∧ i ≤ INT64_MAX))

/-- A column partition as the document declares it: its `begin` and, when given, its `end`. -/
abbrev Declaration := Int × Option Int

/-- The interval of a declaration after the swap: the smaller of `begin` and `end` first, where
a missing `end` counts as `INT64_MAX`. -/
def normalized (d : Declaration) : ColumnRange :=
  (min d.1 (d.2.getD INT64_MAX), max d.1 (d.2.getD INT64_MAX))

/-- The member `member` of `column_partitions` is an object that declares `d`: an int64 `begin`,
an int64 `end` or none, and string overrides where there are overrides. -/
def DeclaresPartition (member : String × JValue) (d : Declaration) : Prop :=
  ∃ info, member.2 = JValue.obj info ∧
    FindMember info "begin" = some (JValue.int d.1) ∧ is_int64 d.1 ∧
    (match d.2 with
      | none => FindMember info "end" = none
      | some e => FindMember info "end" = some (JValue.int e) ∧ is_int64 e) ∧
    (∀ w, FindMember info "workspace" = some w → w.IsString = true) ∧
    (∀ a, FindMember info "array" = some a → a.IsString = true)

/-- The shape of `workspace` and `array`: a string or an array of strings. -/
def strings_shape : JValue → Bool
  | .str _ => true
  | .arr elems => elems.all JValue.IsString
  | _ => false

/-- The shape of one query interval: an int64 or an array of two int64. -/
def interval_shape : JValue → Bool
  | .arr [a, b] => a.IsInt64 && b.IsInt64
  | .arr _ => false
  | v => v.IsInt64

/-- The shape of `query_column_ranges` and `query_row_ranges`: an array of arrays of intervals. -/
def range_lists_shape : JValue → Bool
  | .arr outer => outer.all (fun q2 =>
      match q2 with
      | .arr inner => inner.all interval_shape
      | _ => false)
  | _ => false

/-- The shape of `query_attributes`: an array of strings. -/
def string_array_shape : JValue → Bool
  | .arr elems => elems.all JValue.IsString
  | _ => false

/-- The fields other than the column selector have, where present, the shape the interface
table of the specification gives them. -/
def other_fields_shape (m_json : List (String × JValue)) : Bool :=
  (FindMember m_json "workspace").all strings_shape
    && (FindMember m_json "array").all strings_shape
    && (FindMember m_json "query_row_ranges").all range_lists_shape
    && (FindMember m_json "query_attributes").all string_array_shape

/-- A document whose column selector is `column_partitions`, with the members `parts` declaring
`decls` in declaration order, and whose other fields are well shaped. -/
structure PartitionDocument (m_json parts : List (String × JValue))
    (decls : List Declaration) : Prop where
  other_fields : other_fields_shape m_json = true
  no_scan_full : HasMember m_json "scan_full" = false
  no_ranges : HasMember m_json "query_column_ranges" = false
  partitions : FindMember m_json "column_partitions" = some (JValue.obj parts)
  declared : List.Forall₂ DeclaresPartition parts decls

/-- No normalised begin of `decls` is greater than `b`: `b` is last in begin-order. -/
def IsLastBegin (decls : List Declaration) (b : Int) : Prop :=
  ∀ d ∈ decls, (normalized d).1 ≤ b

/-- The begin `b'` is the smallest normalised begin of `decls` greater than `b`. -/
def IsNextBegin (decls : List Declaration) (b b' : Int) : Prop :=
  (∃ d ∈ decls, (normalized d).1 = b') ∧ b < b' ∧
    ∀ d ∈ decls, b < (normalized d).1 → b' ≤ (normalized d).1

/-- No partition of the document overrides the field `name` (`workspace` or `array`). -/
def NoOverride (m_json : List (String × JValue)) (name : String) : Prop :=
  ∀ parts, FindMember m_json "column_partitions" = some (JValue.obj parts) →
    ∀ p ∈ parts, ∀ info, p.2 = JValue.obj info → FindMember info name = none

/-- The smallest first component of `l` greater than `b`, when there is one. -/
def next_begin : List ColumnRange → Int → Option Int
  | [], _ => none
  | q :: l, b =>
    match next_begin l b with
    | none => if b < q.1 then some q.1 else none
    | some x => if b < q.1 ∧ q.1 < x then some q.1 else some x

/-- The end of `p` once every interval of `l` that begins after `p` has been taken into
account: `p.2`, or one less than the next begin when `p.2` reaches it. -/
def resolved_end (l : List ColumnRange) (p : ColumnRange) : Int :=
  match next_begin l p.1 with
  | none => p.2
  | some b => if p.2 ≥ b then b - 1 else p.2

/-- The rows `begin, begin+1, ..., end` of one interval. -/
def interval_rows (r : ColumnRange) : List Int :=
  (List.range (r.2 - r.1 + 1).toNat).map (fun (k : Nat) => r.1 + (k : Int))

/-- The rows of a list of intervals: the rows of each, in input order. -/
def expanded_rows (ranges : List ColumnRange) : List Int :=
  (ranges.map interval_rows).flatten

/-- The number of rows of a list of intervals: the sum of `end - begin + 1`. -/
def total_rows (ranges : List ColumnRange) : Int :=
  (ranges.map (fun r => r.2 - r.1 + 1)).sum

/-- The sizes the `resize` of line 288 asks for while the intervals of `ranges` are expanded in
turn into a vector that holds `size` elements: after each interval, the rows so far. -/
def resize_sizes : List ColumnRange → Nat → List Nat
  | [], _ => []
  | r :: rest, size =>
    (size + (r.2 - r.1 + 1).toNat) :: resize_sizes rest (size + (r.2 - r.1 + 1).toNat)

/-- An allocator that has storage for a vector of up to `limit` elements and for none beyond. -/
def memory_of (limit : Nat) : Allocator := fun n => decide (n ≤ limit)

/-- The column intervals of the rank: none with `scan_full`, else the list of the rank (the
single list when there is only one). -/
def rank_columns (s : JSONConfigBase) (rank : Int) : List ColumnRange :=
  if s.m_scan_whole_array then []
  else (s.m_column_ranges.get?
    (if s.m_single_query_column_ranges_vector then 0 else to_size_t rank)).getD []

/-- The row intervals of the rank: the list of the rank (the single list when there is only
one). -/
def rank_rows (s : JSONConfigBase) (rank : Int) : List ColumnRange :=
  (s.m_row_ranges.get?
    (if s.m_single_query_row_ranges_vector then 0 else to_size_t rank)).getD []

/-- The calls of line 276 for a list of column intervals, one for each, in order. -/
def column_calls (l : List ColumnRange) : List QueryConfigCall :=
  l.map (fun range => QueryConfigCall.add_column_interval_to_query range.1 range.2)

/-- The content of `begin_to_idx` after the loop of lines 125-157 has gone through `decls` from
position `k` on, starting from `m`. -/
def index_entries : Nat → List Declaration → BeginToIdx → BeginToIdx
  | _, [], m => m
  | k, d :: ds, m => index_entries (k + 1) ds (begin_to_idx_set m (normalized d).1 k)

/-- The unchecked accesses `m_workspaces[0]` and `m_array_names[0]` are inside the vectors: a
single-value flag that is set comes with a non-empty vector. -/
def flags_in_bounds (s : JSONConfigBase) : Prop :=
  (s.m_single_workspace_path = true → s.m_workspaces ≠ []) ∧
  (s.m_single_array_name = true → s.m_array_names ≠ [])

/-- The normalised intervals of the declarations, in declaration order. -/
def normalized_all (decls : List Declaration) : List ColumnRange := decls.map normalized

/-- The interval a declared partition resolves to among `decls`. -/
def resolved (decls : List Declaration) (p : ColumnRange) : ColumnRange :=
  (p.1, resolved_end (normalized_all decls) p)

/-! ## Documents used as examples -/

/-- Three partitions declared out of order, two of them overlapping and one open-ended. -/
def overlapping_parts : List (String × JValue) :=
  [("p0", .obj [("begin", .int 200), ("end", .int 300)]),
   ("p1", .obj [("begin", .int 0), ("end", .int 250)]),
   ("p2", .obj [("begin", .int 120)])]

def overlapping_document : List (String × JValue) :=
  [("workspace", .str "ws"), ("array", .str "arr"),
   ("column_partitions", .obj overlapping_parts),
   ("query_attributes", .arr [.str "REF"])]

def overlapping_decls : List Declaration := [(200, some 300), (0, some 250), (120, none)]

/-- Two partitions whose `begin` members are both 100; the first has its `end` below. -/
def same_begin_field_document : List (String × JValue) :=
  [("column_partitions", .obj
    [("0", .obj [("begin", .int 100), ("end", .int 50)]),
     ("1", .obj [("begin", .int 100)])])]

/-- Three partitions, the first and the last with the same begin. -/
def repeated_begin_parts : List (String × JValue) :=
  [("0", .obj [("begin", .int 7), ("end", .int 30)]),
   ("1", .obj [("begin", .int 9)]),
   ("2", .obj [("begin", .int 7)])]

def repeated_begin_document : List (String × JValue) :=
  [("column_partitions", .obj repeated_begin_parts)]

def repeated_begin_decls : List Declaration := [(7, some 30), (9, none), (7, none)]

/-- Scenario A of the specification: `{"0":{"begin":0},"1":{"begin":50}}`. -/
def scenario_a_parts : List (String × JValue) :=
  [("0", .obj [("begin", .int 0)]), ("1", .obj [("begin", .int 50)])]

def scenario_a_document : List (String × JValue) :=
  [("column_partitions", .obj scenario_a_parts)]

def scenario_a_decls : List Declaration := [(0, none), (50, none)]

/-- A partition with a gap after it and a partition that reaches into the next one. -/
def gap_parts : List (String × JValue) :=
  [("0", .obj [("begin", .int 0), ("end", .int 10)]),
   ("1", .obj [("begin", .int 20), ("end", .int 45)]),
   ("2", .obj [("begin", .int 40), ("end", .int 60)])]

def gap_document : List (String × JValue) :=
  [("column_partitions", .obj gap_parts)]

def gap_decls : List Declaration := [(0, some 10), (20, some 45), (40, some 60)]

/-- The state the load of `gap_document` into a fresh object ends in. -/
def gap_resolved : JSONConfigBase :=
  { JSONConfigBase.fresh with
    m_column_partitions_specified := true
    m_column_ranges := [[(0, 10)], [(20, 39)], [(40, 60)]]
    m_sorted_column_partitions := [(0, 10), (20, 39), (40, 60)] }

/-- Scenario B of the specification: `{"0":{"begin":100,"end":50}}`. -/
def scenario_b_document : List (String × JValue) :=
  [("column_partitions", .obj [("0", .obj [("begin", .int 100), ("end", .int 50)])])]

/-- The members that the `column_partitions` branch never writes are the same in `s2` as in
`s`. -/
def partition_frame (s s2 : JSONConfigBase) : Prop :=
  s2.m_single_query_column_ranges_vector = s.m_single_query_column_ranges_vector ∧
  s2.m_single_query_row_ranges_vector = s.m_single_query_row_ranges_vector ∧
  s2.m_scan_whole_array = s.m_scan_whole_array ∧
  s2.m_row_ranges = s.m_row_ranges ∧
  s2.m_attributes = s.m_attributes

/-- The two errors of the column-selector check, lines 65 and 71. -/
def selector_error : RunError → Bool
  | .no_column_selector => true
  | .ranges_and_partitions => true
  | _ => false

/-- A document with `scan_full` next to `query_column_ranges`. -/
def scan_and_ranges_document : List (String × JValue) :=
  [("scan_full", .bool true), ("query_column_ranges", .arr [.arr [.int 0]])]

/-- A document with all three column selectors. -/
def three_selectors_document : List (String × JValue) :=
  [("workspace", .str "ws"), ("scan_full", .bool true),
   ("query_column_ranges", .arr [.arr [.int 0]]),
   ("column_partitions", .obj [("0", .obj [("begin", .int 0)])])]

/-- A document with per-rank `workspace` and `array` lists and two partitions that override
neither. -/
def per_rank_document : List (String × JValue) :=
  [("workspace", .arr [.str "w0", .str "w1"]), ("array", .arr [.str "a0"]),
   ("column_partitions", .obj
     [("0", .obj [("begin", .int 0)]), ("1", .obj [("begin", .int 10)])])]

/-- The state the load of `per_rank_document` into a fresh object ends in. -/
def per_rank_loaded : JSONConfigBase :=
  { JSONConfigBase.fresh with
    m_workspaces := ["w0", "w1"]
    m_array_names := ["a0"]
    m_column_partitions_specified := true
    m_column_ranges := [[(0, 9)], [(10, INT64_MAX)]]
    m_sorted_column_partitions := [(0, 9), (10, INT64_MAX)] }

/-- Scenario C of the specification: `query_column_ranges = [[[0,5],45]]`, one outer element,
with a single workspace and array name and one row list. -/
def scenario_c_document : List (String × JValue) :=
  [("workspace", .str "ws"), ("array", .str "arr"),
   ("query_column_ranges", .arr [.arr [.arr [.int 0, .int 5], .int 45]]),
   ("query_row_ranges", .arr [.arr [.arr [.int 2, .int 4]]]),
   ("query_attributes", .arr [.str "REF"])]

/-- The state the load of `scenario_c_document` into a fresh object ends in. -/
def scenario_c_loaded : JSONConfigBase :=
  { JSONConfigBase.fresh with
    m_single_workspace_path := true
    m_single_array_name := true
    m_single_query_column_ranges_vector := true
    m_single_query_row_ranges_vector := true
    m_workspaces := ["ws"]
    m_array_names := ["arr"]
    m_column_ranges := [[(0, 5), (45, 45)]]
    m_row_ranges := [[(2, 4)]]
    m_attributes := ["REF"] }

/-- A single workspace string `"W"` and one partition that overrides it with `"X"`. -/
def override_document : List (String × JValue) :=
  [("workspace", .str "W"),
   ("column_partitions", .obj [("0", .obj [("begin", .int 0), ("workspace", .str "X")])])]

/-- The state the load of `override_document` into a fresh object ends in. -/
def override_loaded : JSONConfigBase :=
  { JSONConfigBase.fresh with
    m_workspaces := ["X"]
    m_column_partitions_specified := true
    m_column_ranges := [[(0, INT64_MAX)]]
    m_sorted_column_partitions := [(0, INT64_MAX)] }

/-- Scenario D of the specification: `query_row_ranges = [[0,2],[76,77]]`, two outer elements,
in an otherwise complete document. -/
def scenario_d_document : List (String × JValue) :=
  [("workspace", .str "ws"), ("array", .str "arr"), ("scan_full", .bool true),
   ("query_row_ranges", .arr [.arr [.int 0, .int 2], .arr [.int 76, .int 77]]),
   ("query_attributes", .arr [.str "REF"])]

/-- The state the load of `scenario_d_document` into a fresh object ends in. -/
def scenario_d_loaded : JSONConfigBase :=
  { JSONConfigBase.fresh with
    m_single_workspace_path := true
    m_single_array_name := true
    m_scan_whole_array := true
    m_workspaces := ["ws"]
    m_array_names := ["arr"]
    m_row_ranges := [[(0, 0), (2, 2)], [(76, 76), (77, 77)]]
    m_attributes := ["REF"] }

/-- A complete document whose only row interval is `[0, 2^61]`. -/
def huge_rows_document : List (String × JValue) :=
  [("workspace", .str "ws"), ("array", .str "arr"), ("scan_full", .bool true),
   ("query_row_ranges", .arr [.arr [.arr [.int 0, .int 2305843009213693952]]]),
   ("query_attributes", .arr [.str "REF"])]

/-- A complete document whose only row is `INT64_MAX`. -/
def last_row_document : List (String × JValue) :=
  [("workspace", .str "ws"), ("array", .str "arr"), ("scan_full", .bool true),
   ("query_row_ranges", .arr [.arr [.int 9223372036854775807]]),
   ("query_attributes", .arr [.str "REF"])]

/-- A document that is complete but for `query_attributes`. -/
def no_attributes_document : List (String × JValue) :=
  [("workspace", .str "ws"), ("array", .str "arr"),
   ("query_column_ranges", .arr [.arr [.arr [.int 0, .int 5], .int 45]])]

/-- A document with column ranges for one rank and row ranges for two. -/
def two_row_ranks_document : List (String × JValue) :=
  [("workspace", .str "ws"), ("array", .str "arr"),
   ("query_column_ranges", .arr [.arr [.int 7]]),
   ("query_row_ranges", .arr [.arr [.int 0], .arr [.int 1]]),
   ("query_attributes", .arr [.str "REF"])]

/-- The witness of C16: `{"begin":100,"end":50}` and `{"begin":50}`, whose declared begins
differ and whose begins after the swap are both 50. -/
def swapped_duplicate_parts : List (String × JValue) :=
  [("0", .obj [("begin", .int 100), ("end", .int 50)]),
   ("1", .obj [("begin", .int 50)])]

def swapped_duplicate_document : List (String × JValue) :=
  [("column_partitions", .obj swapped_duplicate_parts)]

def swapped_duplicate_decls : List Declaration := [(100, some 50), (50, none)]

/-- Three partitions, declared in descending order of begin, the middle one with an `end` that
reaches into its successor in begin-order. -/
def descending_parts : List (String × JValue) :=
  [("a", .obj [("begin", .int 500)]),
   ("b", .obj [("begin", .int 300), ("end", .int 900)]),
   ("c", .obj [("begin", .int 100), ("end", .int 150)])]

def descending_document : List (String × JValue) :=
  [("column_partitions", .obj descending_parts)]

def descending_decls : List Declaration := [(500, none), (300, some 900), (100, some 150)]

/-- The state the load of `descending_document` into a fresh object ends in. -/
def descending_loaded : JSONConfigBase :=
  { JSONConfigBase.fresh with
    m_column_partitions_specified := true
    m_column_ranges := [[(500, INT64_MAX)], [(300, 499)], [(100, 150)]]
    m_sorted_column_partitions := [(100, 150), (300, 499), (500, INT64_MAX)] }

/-- The partitions of `descending_document` declared in ascending order. -/
def ascending_parts : List (String × JValue) :=
  [("x", .obj [("begin", .int 100), ("end", .int 150)]),
   ("y", .obj [("begin", .int 300), ("end", .int 900)]),
   ("z", .obj [("begin", .int 500)])]

def ascending_document : List (String × JValue) :=
  [("column_partitions", .obj ascending_parts)]

def ascending_decls : List Declaration := [(100, some 150), (300, some 900), (500, none)]

/-- A partition set that starts at `INT64_MIN` and one that is declared `[INT64_MAX, 0]`. -/
def extreme_parts : List (String × JValue) :=
  [("0", .obj [("begin", .int 9223372036854775807), ("end", .int 0)]),
   ("1", .obj [("begin", .int (-9223372036854775808))])]

def extreme_document : List (String × JValue) :=
  [("column_partitions", .obj extreme_parts)]

def extreme_decls : List Declaration :=
  [(9223372036854775807, some 0), (-9223372036854775808, none)]

/-- A complete document whose `query_row_ranges` holds a three-element array as an interval. -/
def three_element_interval_document : List (String × JValue) :=
  [("scan_full", .bool true),
   ("query_row_ranges", .arr [.arr [.arr [.int 1, .int 2, .int 3]]])]

/-- A document with well-shaped column and row ranges: a pair and a scalar. -/
def shaped_ranges_document : List (String × JValue) :=
  [("query_column_ranges", .arr [.arr [.arr [.int 9, .int 3], .int 4]]),
   ("query_row_ranges", .arr [.arr [.int 8]])]

/-- A partition whose `begin` is a string. -/
def string_begin_document : List (String × JValue) :=
  [("column_partitions", .obj [("0", .obj [("begin", .str "chr1")])])]

/-- A partition whose `end` is a number that is not an integer. -/
def real_end_document : List (String × JValue) :=
  [("column_partitions", .obj [("0", .obj [("begin", .int 0), ("end", .real)])])]

/-- A document with a single workspace string and a single array name. -/
def single_values_document : List (String × JValue) :=
  [("workspace", .str "W"), ("array", .str "A"), ("scan_full", .bool true)]

/-- The state the load of `single_values_document` into a fresh object ends in. -/
def single_values_loaded : JSONConfigBase :=
  { JSONConfigBase.fresh with
    m_single_workspace_path := true
    m_single_array_name := true
    m_scan_whole_array := true
    m_workspaces := ["W"]
    m_array_names := ["A"] }

/-- The states a configuration object can be in: freshly constructed, or after a successful
`read_from_file` or a `clear` on such a state. -/
inductive Reachable : JSONConfigBase → Prop where
  | fresh : Reachable JSONConfigBase.fresh
  | read_from_file (s s2 : JSONConfigBase) (m_json : JValue) :
      Reachable s → JSONConfigBase.read_from_file s m_json = .ok s2 → Reachable s2
  | clear (s : JSONConfigBase) : Reachable s → Reachable s.clear

/-- A complete document whose only row interval is the whole int64 range. -/
def all_rows_document : List (String × JValue) :=
  [("workspace", .str "ws"), ("array", .str "arr"), ("scan_full", .bool true),
   ("query_row_ranges", .arr [.arr [.arr
     [.int (-9223372036854775808), .int 9223372036854775807]]]),
   ("query_attributes", .arr [.str "REF"])]

/-- The member `member` of `column_partitions` is an object whose member `name` (`workspace` or
`array`) is the string `o`, or which has no such member when `o` is `none`. -/
def DeclaresOverride (name : String) (member : String × JValue) (o : Option String) : Prop :=
  ∃ info, member.2 = JValue.obj info ∧ FindMember info name = o.map JValue.str

/-- A vector grown to `count` elements with `fill` when it is shorter, left alone otherwise. -/
def padded (v : List String) (count : Nat) (fill : String) : List String :=
  v ++ List.replicate (count - v.length) fill

/-- What the overrides `ovs` of the partitions from position `k` on do to a vector and its
single-value flag: an override grows the vector to `count` elements, writes slot `k` and
clears the flag. -/
def apply_overrides (count : Nat) (fill : String) :
    List (Option String) → Nat → List String × Bool → List String × Bool
  | [], _, st => st
  | none :: ovs, k, st => apply_overrides count fill ovs (k + 1) st
  | some x :: ovs, k, st =>
    apply_overrides count fill ovs (k + 1) ((padded st.1 count fill).set k x, false)

/-- A single workspace `"W"` and array `"A"`, and three partitions of which the second overrides
the workspace and the first the array. -/
def default_fill_parts : List (String × JValue) :=
  [("0", .obj [("begin", .int 0), ("array", .str "B")]),
   ("1", .obj [("begin", .int 10), ("workspace", .str "X")]),
   ("2", .obj [("begin", .int 20)])]

def default_fill_document : List (String × JValue) :=
  [("workspace", .str "W"), ("array", .str "A"),
   ("column_partitions", .obj default_fill_parts)]

/-- The state the load of `default_fill_document` into a fresh object ends in. -/
def default_fill_loaded : JSONConfigBase :=
  { JSONConfigBase.fresh with
    m_workspaces := ["W", "X", "W"]
    m_array_names := ["B", "A", "A"]
    m_column_partitions_specified := true
    m_column_ranges := [[(0, 9)], [(10, 19)], [(20, INT64_MAX)]]
    m_sorted_column_partitions := [(0, 9), (10, 19), (20, INT64_MAX)] }

/-- A complete document whose only row interval is `[0, 2^59]`. -/
def large_rows_document : List (String × JValue) :=
  [("workspace", .str "ws"), ("array", .str "arr"), ("scan_full", .bool true),
   ("query_row_ranges", .arr [.arr [.arr [.int 0, .int 576460752303423488]]]),
   ("query_attributes", .arr [.str "REF"])]

/-- The state the load of `last_row_document` into a fresh object ends in. -/
def last_row_loaded : JSONConfigBase :=
  { JSONConfigBase.fresh with
    m_single_workspace_path := true
    m_single_array_name := true
    m_scan_whole_array := true
    m_single_query_row_ranges_vector := true
    m_workspaces := ["ws"]
    m_array_names := ["arr"]
    m_row_ranges := [[(9223372036854775807, 9223372036854775807)]]
    m_attributes := ["REF"] }

/-- The state the load of `two_row_ranks_document` into a fresh object ends in. -/
def two_row_ranks_loaded : JSONConfigBase :=
  { JSONConfigBase.fresh with
    m_single_workspace_path := true
    m_single_array_name := true
    m_single_query_column_ranges_vector := true
    m_workspaces := ["ws"]
    m_array_names := ["arr"]
    m_column_ranges := [[(7, 7)]]
    m_row_ranges := [[(0, 0)], [(1, 1)]]
    m_attributes := ["REF"] }

/-- A document with one column, the rows `[2,4]`, and no `query_attributes`. -/
def rows_no_attributes_document : List (String × JValue) :=
  [("workspace", .str "ws"), ("array", .str "arr"),
   ("query_column_ranges", .arr [.arr [.int 7]]),
   ("query_row_ranges", .arr [.arr [.arr [.int 2, .int 4]]])]

/-- The state the load of `rows_no_attributes_document` into a fresh object ends in. -/
def rows_no_attributes_loaded : JSONConfigBase :=
  { JSONConfigBase.fresh with
    m_single_workspace_path := true
    m_single_array_name := true
    m_single_query_column_ranges_vector := true
    m_single_query_row_ranges_vector := true
    m_workspaces := ["ws"]
    m_array_names := ["arr"]
    m_column_ranges := [[(7, 7)]]
    m_row_ranges := [[(2, 4)]] }

theorem wrap64_of_is_int64 (x : Int) (h : is_int64 x) : wrap64 x = x := by
  unfold is_int64 INT64_MIN INT64_MAX at h
  unfold wrap64
  omega

theorem to_size_t_of_nonneg (x : Int) (h0 : 0 ≤ x) (h1 : x < 18446744073709551616) :
    to_size_t x = x.toNat := by
  unfold to_size_t
  congr 1
  omega

theorem swap_if_greater_eq (a b : Int) : swap_if_greater (a, b) = (min a b, max a b) := by
  unfold swap_if_greater
  by_cases h : a > b
  · simp only [h, if_true]
    rw [min_eq_right (le_of_lt h), max_eq_left (le_of_lt h)]
  · simp only [h, if_false]
    rw [min_eq_left (not_lt.mp h), max_eq_right (not_lt.mp h)]

theorem swap_if_greater_le (r : ColumnRange) : (swap_if_greater r).1 ≤ (swap_if_greater r).2 := by
  unfold swap_if_greater
  split
  · next h => exact le_of_lt h
  · next h => exact not_lt.mp h

theorem GetInt64_int (i : Int) (h : is_int64 i) : (JValue.int i).GetInt64 = .ok i := by
  unfold is_int64 at h
  simp [JValue.GetInt64, h]

theorem IsInt64_int (i : Int) (h : is_int64 i) : (JValue.int i).IsInt64 = true := by
  unfold is_int64 at h
  simp [JValue.IsInt64, h]

theorem read_range_pair (a b : Int) (ha : is_int64 a) (hb : is_int64 b) :
    read_range (.arr [.int a, .int b]) = .ok (swap_if_greater (a, b)) := by
  simp [read_range, IsInt64_int, GetInt64_int, ha, hb]

theorem read_range_scalar (v : Int) (hv : is_int64 v) :
    read_range (.int v) = .ok (v, v) := by
  simp [read_range, IsInt64_int, GetInt64_int, hv, swap_if_greater]

theorem read_range_ordered (q3 : JValue) (r : ColumnRange) (h : read_range q3 = .ok r) :
    r.1 ≤ r.2 := by
  unfold read_range at h
  split at h
  · split at h
    · split at h
      · split at h
        · split at h
          · cases h; exact swap_if_greater_le _
          · cases h
          · cases h
        · cases h
      · cases h
    · cases h
  · split at h
    · split at h
      · cases h; exact swap_if_greater_le _
      · cases h
    · cases h

/-! ## The loop over the declared partitions -/

theorem read_partition_range_declared (info : List (String × JValue)) (d : Declaration)
    (hb : FindMember info "begin" = some (JValue.int d.1)) (hb64 : is_int64 d.1)
    (he : match d.2 with
      | none => FindMember info "end" = none
      | some e => FindMember info "end" = some (JValue.int e) ∧ is_int64 e) :
    read_partition_range info = .ok (normalized d) := by
  obtain ⟨b, e⟩ := d
  cases e with
  | none =>
    simp only at he hb hb64
    simp [read_partition_range, hb, he, GetInt64_int, hb64, swap_if_greater_eq, normalized]
  | some e =>
    simp only at he hb hb64
    simp [read_partition_range, hb, he.1, GetInt64_int, hb64, he.2, swap_if_greater_eq,
      normalized]

theorem normalized_is_int64 (d : Declaration) (hb : is_int64 d.1)
    (he : ∀ e, d.2 = some e → is_int64 e) :
    is_int64 (normalized d).1 ∧ is_int64 (normalized d).2 ∧ (normalized d).1 ≤ (normalized d).2 := by
  obtain ⟨b, e⟩ := d
  cases e with
  | none =>
    unfold is_int64 INT64_MIN INT64_MAX at *
    simp only [normalized, Option.getD_none, INT64_MAX]
    simp only at hb
    refine ⟨⟨?_, ?_⟩, ⟨?_, ?_⟩, ?_⟩ <;> omega
  | some e =>
    have he2 := he e rfl
    unfold is_int64 INT64_MIN INT64_MAX at *
    simp only [normalized, Option.getD_some]
    simp only at hb
    refine ⟨⟨?_, ?_⟩, ⟨?_, ?_⟩, ?_⟩ <;> omega

theorem declared_is_int64 (p : String × JValue) (d : Declaration) (h : DeclaresPartition p d) :
    is_int64 (normalized d).1 ∧ is_int64 (normalized d).2 ∧ (normalized d).1 ≤ (normalized d).2 := by
  obtain ⟨info, _, _, hb64, he, _, _⟩ := h
  apply normalized_is_int64 d hb64
  intro e hde
  rw [hde] at he
  exact he.2

theorem override_workspace_total (count : Nat) (wstr : String) (idx : Nat)
    (info : List (String × JValue)) (s : JSONConfigBase)
    (h : ∀ w, FindMember info "workspace" = some w → w.IsString = true) :
    ∃ ws f, override_workspace count wstr idx info s
      = .ok { s with m_workspaces := ws, m_single_workspace_path := f } := by
  unfold override_workspace
  cases hw : FindMember info "workspace" with
  | none => exact ⟨s.m_workspaces, s.m_single_workspace_path, rfl⟩
  | some w =>
    have hs := h w hw
    cases w <;> simp [JValue.IsString] at hs
    simp only [JValue.GetString]
    exact ⟨_, _, rfl⟩

theorem override_array_total (count : Nat) (astr : String) (idx : Nat)
    (info : List (String × JValue)) (s : JSONConfigBase)
    (h : ∀ a, FindMember info "array" = some a → a.IsString = true) :
    ∃ ns f, override_array count astr idx info s
      = .ok { s with m_array_names := ns, m_single_array_name := f } := by
  unfold override_array
  cases ha : FindMember info "array" with
  | none => exact ⟨s.m_array_names, s.m_single_array_name, rfl⟩
  | some a =>
    have hs := h a ha
    cases a <;> simp [JValue.IsString] at hs
    simp only [JValue.GetString]
    exact ⟨_, _, rfl⟩

theorem read_partition_declared (count : Nat) (wstr astr : String) (idx : Nat)
    (p : String × JValue) (d : Declaration) (s : JSONConfigBase) (m : BeginToIdx)
    (h : DeclaresPartition p d) :
    ∃ ws f ns g, read_partition count wstr astr idx p.2 s m
      = .ok ({ s with
                m_column_ranges := s.m_column_ranges.set idx [normalized d]
                m_sorted_column_partitions := s.m_sorted_column_partitions.set idx (normalized d)
                m_workspaces := ws
                m_single_workspace_path := f
                m_array_names := ns
                m_single_array_name := g },
             begin_to_idx_set m (normalized d).1 idx) := by
  obtain ⟨info, hp, hb, hb64, he, hw, ha⟩ := h
  rw [hp]
  simp only [read_partition, HasMember, hb, Option.isSome_some, if_true,
    read_partition_range_declared info d hb hb64 he]
  obtain ⟨ws, f, hws⟩ := override_workspace_total count wstr idx info
    { s with m_column_ranges := s.m_column_ranges.set idx [normalized d] } hw
  simp only [hws]
  obtain ⟨ns, g, hns⟩ := override_array_total count astr idx info
    { s with m_column_ranges := s.m_column_ranges.set idx [normalized d],
             m_workspaces := ws, m_single_workspace_path := f } ha
  simp only [hns]
  exact ⟨ws, f, ns, g, rfl⟩

theorem set_length_append_cons {α : Type} (pre : List α) (x v : α) (suf : List α) :
    (pre ++ x :: suf).set pre.length v = pre ++ v :: suf := by
  induction pre with
  | nil => rfl
  | cons a pre ih => simp [List.set, ih]

theorem read_partitions_declared (count : Nat) (wstr astr : String) :
    ∀ (parts : List (String × JValue)) (decls : List Declaration) (k : Nat)
      (s : JSONConfigBase) (m : BeginToIdx)
      (pre_c suf_c : List (List ColumnRange)) (pre_s suf_s : List ColumnRange),
      List.Forall₂ DeclaresPartition parts decls →
      s.m_column_ranges = pre_c ++ suf_c → pre_c.length = k → suf_c.length = parts.length →
      s.m_sorted_column_partitions = pre_s ++ suf_s → pre_s.length = k →
      suf_s.length = parts.length →
      ∃ s', read_partitions count wstr astr parts k s m = .ok (s', index_entries k decls m) ∧
        s'.m_column_ranges = pre_c ++ decls.map (fun d => [normalized d]) ∧
        s'.m_sorted_column_partitions = pre_s ++ decls.map normalized ∧
        s'.m_scan_whole_array = s.m_scan_whole_array ∧
        s'.m_single_query_column_ranges_vector = s.m_single_query_column_ranges_vector ∧
        s'.m_column_partitions_specified = s.m_column_partitions_specified := by
  intro parts
  induction parts with
  | nil =>
    intro decls k s m pre_c suf_c pre_s suf_s hd hc hpc hsc hs hps hss
    cases hd
    simp only [List.length_nil, List.length_eq_zero] at hsc hss
    subst hsc hss
    exact ⟨s, rfl, by simpa using hc, by simpa using hs, rfl, rfl, rfl⟩
  | cons p parts ih =>
    intro decls k s m pre_c suf_c pre_s suf_s hd hc hpc hsc hs hps hss
    cases hd with
    | cons hpd hrest =>
      rename_i d ds
      obtain ⟨ws, f, ns, g, hstep⟩ := read_partition_declared count wstr astr k p d s m hpd
      cases suf_c with
      | nil => simp at hsc
      | cons xc suf_c =>
        cases suf_s with
        | nil => simp at hss
        | cons xs suf_s =>
          simp only [List.length_cons, Nat.add_right_cancel_iff] at hsc hss
          have hc2 : s.m_column_ranges.set k [normalized d]
              = (pre_c ++ [[normalized d]]) ++ suf_c := by
            rw [hc, ← hpc, set_length_append_cons]; simp
          have hs2 : s.m_sorted_column_partitions.set k (normalized d)
              = (pre_s ++ [normalized d]) ++ suf_s := by
            rw [hs, ← hps, set_length_append_cons]; simp
          generalize hs1 : ({ s with
                m_column_ranges := s.m_column_ranges.set k [normalized d]
                m_sorted_column_partitions := s.m_sorted_column_partitions.set k (normalized d)
                m_workspaces := ws
                m_single_workspace_path := f
                m_array_names := ns
                m_single_array_name := g } : JSONConfigBase) = s1 at hstep
          have e1 : s1.m_column_ranges = (pre_c ++ [[normalized d]]) ++ suf_c := by
            rw [← hs1]; exact hc2
          have e2 : s1.m_sorted_column_partitions = (pre_s ++ [normalized d]) ++ suf_s := by
            rw [← hs1]; exact hs2
          obtain ⟨s', hrun, h1, h2, h3, h4, h5⟩ := ih ds (k + 1) s1
            (begin_to_idx_set m (normalized d).1 k)
            (pre_c ++ [[normalized d]]) suf_c (pre_s ++ [normalized d]) suf_s hrest
            e1 (by simp [hpc]) hsc e2 (by simp [hps]) hss
          refine ⟨s', ?_, ?_, ?_, ?_, ?_, ?_⟩
          · simp only [read_partitions, hstep]
            exact hrun
          · simpa using h1
          · simpa using h2
          · rw [h3, ← hs1]
          · rw [h4, ← hs1]
          · rw [h5, ← hs1]

theorem begin_to_idx_get_index_entries_of_not_mem :
    ∀ (decls : List Declaration) (k : Nat) (m : BeginToIdx) (b : Int),
      b ∉ decls.map (fun d => (normalized d).1) →
      begin_to_idx_get (index_entries k decls m) b = begin_to_idx_get m b := by
  intro decls
  induction decls with
  | nil => intro k m b _; rfl
  | cons d ds ih =>
    intro k m b hb
    simp only [List.map_cons, List.mem_cons, not_or] at hb
    simp only [index_entries]
    rw [ih (k + 1) _ b hb.2]
    simp only [begin_to_idx_set, begin_to_idx_get]
    rw [if_neg (fun h => hb.1 h.symm)]

theorem begin_to_idx_get_index_entries :
    ∀ (decls : List Declaration) (k : Nat) (m : BeginToIdx),
      (decls.map (fun d => (normalized d).1)).Nodup →
      ∀ (i : Nat) (d : Declaration), decls.get? i = some d →
        begin_to_idx_get (index_entries k decls m) (normalized d).1 = k + i := by
  intro decls
  induction decls with
  | nil => intro k m _ i d h; simp at h
  | cons d0 ds ih =>
    intro k m hnd i d h
    simp only [List.map_cons, List.nodup_cons] at hnd
    cases i with
    | zero =>
      simp only [List.get?_cons_zero, Option.some.injEq] at h
      subst h
      simp only [index_entries]
      rw [begin_to_idx_get_index_entries_of_not_mem ds (k + 1) _ _ hnd.1]
      simp [begin_to_idx_set, begin_to_idx_get]
    | succ i =>
      simp only [List.get?_cons_succ] at h
      simp only [index_entries]
      rw [ih (k + 1) _ hnd.2 i d h]
      omega

/-! ## The next begin and the resolved end -/

theorem next_begin_none_spec (l : List ColumnRange) (b : Int) (h : next_begin l b = none) :
    ∀ q ∈ l, q.1 ≤ b := by
  induction l with
  | nil => intro q hq; cases hq
  | cons a l ih =>
    simp only [next_begin] at h
    cases hn : next_begin l b with
    | none =>
      rw [hn] at h
      simp only at h
      split at h
      · cases h
      · next hlt =>
        intro q hq
        rcases List.mem_cons.mp hq with rfl | hq
        · exact not_lt.mp hlt
        · exact ih hn q hq
    | some x =>
      rw [hn] at h
      simp only at h
      split at h <;> cases h

theorem next_begin_some_spec (l : List ColumnRange) (b x : Int) (h : next_begin l b = some x) :
    (∃ q ∈ l, q.1 = x) ∧ b < x ∧ ∀ q ∈ l, b < q.1 → x ≤ q.1 := by
  induction l generalizing x with
  | nil => cases h
  | cons a l ih =>
    simp only [next_begin] at h
    cases hn : next_begin l b with
    | none =>
      rw [hn] at h
      simp only at h
      have hall := next_begin_none_spec l b hn
      split at h
      · next hlt =>
        cases h
        refine ⟨⟨a, List.mem_cons_self _ _, rfl⟩, hlt, ?_⟩
        intro q hq hbq
        rcases List.mem_cons.mp hq with rfl | hq
        · exact le_refl _
        · exact absurd (hall q hq) (not_le.mpr hbq)
      · cases h
    | some y =>
      rw [hn] at h
      simp only at h
      obtain ⟨⟨q0, hq0, hq0y⟩, hby, hmin⟩ := ih y hn
      split at h
      · next hlt =>
        cases h
        refine ⟨⟨a, List.mem_cons_self _ _, rfl⟩, hlt.1, ?_⟩
        intro q hq hbq
        rcases List.mem_cons.mp hq with rfl | hq
        · exact le_refl _
        · exact le_trans (le_of_lt hlt.2) (hmin q hq hbq)
      · next hlt =>
        cases h
        refine ⟨⟨q0, List.mem_cons_of_mem _ hq0, hq0y⟩, hby, ?_⟩
        intro q hq hbq
        rcases List.mem_cons.mp hq with rfl | hq
        · by_contra hc
          exact hlt ⟨hbq, not_le.mp hc⟩
        · exact hmin q hq hbq

theorem next_begin_eq_none (l : List ColumnRange) (b : Int) (h : ∀ q ∈ l, q.1 ≤ b) :
    next_begin l b = none := by
  cases hn : next_begin l b with
  | none => rfl
  | some y =>
    obtain ⟨⟨q, hq, hqy⟩, hby, _⟩ := next_begin_some_spec l b y hn
    have := h q hq
    omega

theorem next_begin_eq_some (l : List ColumnRange) (b x : Int)
    (hx : ∃ q ∈ l, q.1 = x) (hb : b < x) (hmin : ∀ q ∈ l, b < q.1 → x ≤ q.1) :
    next_begin l b = some x := by
  cases hn : next_begin l b with
  | none =>
    obtain ⟨q, hq, hqx⟩ := hx
    have := next_begin_none_spec l b hn q hq
    omega
  | some y =>
    obtain ⟨⟨q, hq, hqy⟩, hby, hmin2⟩ := next_begin_some_spec l b y hn
    obtain ⟨q2, hq2, hq2x⟩ := hx
    have h1 := hmin q hq (by omega)
    have h2 := hmin2 q2 hq2 (by omega)
    congr 1
    omega

theorem next_begin_congr (l l2 : List ColumnRange) (b : Int) (hmem : ∀ q, q ∈ l ↔ q ∈ l2) :
    next_begin l b = next_begin l2 b := by
  cases hn : next_begin l b with
  | none =>
    symm
    apply next_begin_eq_none
    intro q hq
    exact next_begin_none_spec l b hn q ((hmem q).mpr hq)
  | some y =>
    symm
    obtain ⟨⟨q, hq, hqy⟩, hby, hmin⟩ := next_begin_some_spec l b y hn
    apply next_begin_eq_some l2 b y ⟨q, (hmem q).mp hq, hqy⟩ hby
    intro q2 hq2 hb2
    exact hmin q2 ((hmem q2).mpr hq2) hb2

theorem resolved_end_congr (l l2 : List ColumnRange) (p : ColumnRange)
    (hmem : ∀ q, q ∈ l ↔ q ∈ l2) : resolved_end l p = resolved_end l2 p := by
  unfold resolved_end
  rw [next_begin_congr l l2 p.1 hmem]

theorem resolved_end_singleton (p : ColumnRange) : resolved_end [p] p = p.2 := by
  unfold resolved_end
  rw [next_begin_eq_none [p] p.1 (by intro q hq; simp at hq; subst hq; exact le_refl _)]

theorem resolved_end_head (p q : ColumnRange) (rest : List ColumnRange)
    (hpq : p.1 < q.1) (hrest : ∀ x ∈ rest, q.1 < x.1) :
    resolved_end (p :: q :: rest) p = if p.2 ≥ q.1 then q.1 - 1 else p.2 := by
  unfold resolved_end
  rw [next_begin_eq_some (p :: q :: rest) p.1 q.1 ⟨q, by simp, rfl⟩ hpq]
  intro x hx hbx
  simp only [List.mem_cons] at hx
  rcases hx with h | h | h
  · rw [h] at hbx; omega
  · rw [h]
  · exact le_of_lt (hrest x h)

theorem resolved_end_tail (p x : ColumnRange) (l : List ColumnRange) (hpx : p.1 < x.1) :
    resolved_end (p :: l) x = resolved_end l x := by
  unfold resolved_end
  have : next_begin (p :: l) x.1 = next_begin l x.1 := by
    simp only [next_begin]
    cases next_begin l x.1 with
    | none => simp only; rw [if_neg (by omega)]
    | some y => simp only; rw [if_neg (by intro h; omega)]
  rw [this]

theorem resolved_end_le (l : List ColumnRange) (p : ColumnRange) : resolved_end l p ≤ p.2 := by
  unfold resolved_end
  split
  · exact le_refl _
  · split
    · omega
    · exact le_refl _

theorem resolved_end_lt_of_begin_lt (l : List ColumnRange) (p q : ColumnRange) (hq : q ∈ l)
    (hpq : p.1 < q.1) : resolved_end l p < q.1 := by
  unfold resolved_end
  cases hn : next_begin l p.1 with
  | none =>
    have := next_begin_none_spec l p.1 hn q hq
    omega
  | some y =>
    obtain ⟨_, _, hmin⟩ := next_begin_some_spec l p.1 y hn
    have := hmin q hq hpq
    simp only
    split <;> omega

theorem begin_le_resolved_end (l : List ColumnRange) (p : ColumnRange) (hp : p.1 ≤ p.2) :
    p.1 ≤ resolved_end l p := by
  unfold resolved_end
  cases hn : next_begin l p.1 with
  | none => exact hp
  | some y =>
    obtain ⟨_, hlt, _⟩ := next_begin_some_spec l p.1 y hn
    simp only
    split <;> omega

/-! ## The clamp loop and the write-back -/

theorem set_map_of_nodup (g : ColumnRange → Int) (v : Int) :
    ∀ (norms : List ColumnRange) (i : Nat) (p0 : ColumnRange),
      (norms.map Prod.fst).Nodup → norms.get? i = some p0 →
      (norms.map (fun p => [(p.1, g p)])).set i [(p0.1, v)]
        = norms.map (fun p => [(p.1, if p.1 = p0.1 then v else g p)]) := by
  intro norms
  induction norms with
  | nil => intro i p0 _ h; simp at h
  | cons a l ih =>
    intro i p0 hnd h
    simp only [List.map_cons, List.nodup_cons] at hnd
    cases i with
    | zero =>
      simp only [List.get?_cons_zero, Option.some.injEq] at h
      subst h
      simp only [List.map_cons, List.set_cons_zero, if_true, List.cons.injEq, true_and]
      apply List.map_congr_left
      intro p hp
      have hne : p.1 ≠ a.1 := by
        intro he
        exact hnd.1 (he ▸ List.mem_map_of_mem Prod.fst hp)
      rw [if_neg hne]
    | succ i =>
      simp only [List.get?_cons_succ] at h
      simp only [List.map_cons, List.set_cons_succ]
      rw [ih i p0 hnd.2 h]
      have hne : a.1 ≠ p0.1 := by
        intro he
        have hmem : p0 ∈ l := List.get?_mem h
        exact hnd.1 (he ▸ List.mem_map_of_mem Prod.fst hmem)
      rw [if_neg hne]

theorem set_second_map (g : ColumnRange → Int) (v : Int) (norms : List ColumnRange) (i : Nat)
    (p0 : ColumnRange) (hnd : (norms.map Prod.fst).Nodup) (hi : norms.get? i = some p0) :
    set_second (norms.map (fun p => [(p.1, g p)])) i v
      = norms.map (fun p => [(p.1, if p.1 = p0.1 then v else g p)]) := by
  unfold set_second
  have hget : (norms.map (fun p => [(p.1, g p)])).get? i = some [(p0.1, g p0)] := by
    simp only [List.get?_eq_getElem?] at hi ⊢
    rw [List.getElem?_map, hi]; rfl
  rw [hget]
  exact set_map_of_nodup g v norms i p0 hnd hi

theorem clamp_partitions_sorted (norms : List ColumnRange) (m : BeginToIdx)
    (hnd : (norms.map Prod.fst).Nodup)
    (hm : ∀ i p, norms.get? i = some p → begin_to_idx_get m p.1 = i)
    (h64 : ∀ p ∈ norms, is_int64 p.1) :
    ∀ (l : List ColumnRange) (g : ColumnRange → Int),
      l.Pairwise (fun p q => p.1 < q.1) → (∀ p ∈ l, p ∈ norms) → (∀ p ∈ l, g p = p.2) →
      ∃ g2 : ColumnRange → Int,
        clamp_partitions m l (norms.map (fun p => [(p.1, g p)]))
          = .ok (l.map (fun p => (p.1, resolved_end l p)), norms.map (fun p => [(p.1, g2 p)])) ∧
        (∀ p ∈ l, g2 p = resolved_end l p) ∧
        (∀ p : ColumnRange, p.1 ∉ l.map Prod.fst → g2 p = g p) := by
  intro l
  induction l with
  | nil =>
    intro g _ _ _
    exact ⟨g, by simp [clamp_partitions], by simp, by simp⟩
  | cons p l ih =>
    intro g hsorted hmem hg
    cases l with
    | nil =>
      refine ⟨g, ?_, ?_, ?_⟩
      · simp [clamp_partitions, resolved_end_singleton]
      · intro x hx
        simp only [List.mem_singleton] at hx
        subst hx
        rw [resolved_end_singleton]
        exact hg x (List.mem_cons_self _ _)
      · intro x _; rfl
    | cons q rest =>
      have hpq : p.1 < q.1 := (List.pairwise_cons.mp hsorted).1 q (List.mem_cons_self _ _)
      have hp_lt : ∀ x ∈ q :: rest, p.1 < x.1 := (List.pairwise_cons.mp hsorted).1
      have htail : (q :: rest).Pairwise (fun p q => p.1 < q.1) := (List.pairwise_cons.mp hsorted).2
      have hq_lt : ∀ x ∈ rest, q.1 < x.1 := (List.pairwise_cons.mp htail).1
      have hp_norms : p ∈ norms := hmem p (List.mem_cons_self _ _)
      have hq_norms : q ∈ norms := hmem q (by simp)
      obtain ⟨i, hi⟩ := List.get?_of_mem hp_norms
      have hidx : begin_to_idx_get m p.1 = i := hm i p hi
      have hwrap : wrap64 (q.1 - 1) = q.1 - 1 := by
        apply wrap64_of_is_int64
        have h1 := h64 p hp_norms
        have h2 := h64 q hq_norms
        unfold is_int64 INT64_MIN INT64_MAX at *
        omega
      have hsecond : (if p.2 ≥ q.1 then wrap64 (q.1 - 1) else p.2)
          = resolved_end (p :: q :: rest) p := by
        rw [resolved_end_head p q rest hpq hq_lt, hwrap]
      obtain ⟨g2, hrun, hg2l, hg2o⟩ := ih
        (fun x => if x.1 = p.1 then resolved_end (p :: q :: rest) p else g x) htail
        (fun x hx => hmem x (List.mem_cons_of_mem _ hx))
        (fun x hx => by
          have := hp_lt x hx
          show (if x.1 = p.1 then resolved_end (p :: q :: rest) p else g x) = x.2
          rw [if_neg (by omega)]
          exact hg x (List.mem_cons_of_mem _ hx))
      have htl : ∀ x ∈ q :: rest, resolved_end (p :: q :: rest) x = resolved_end (q :: rest) x :=
        fun x hx => resolved_end_tail p x (q :: rest) (hp_lt x hx)
      refine ⟨g2, ?_, ?_, ?_⟩
      · rw [clamp_partitions, if_pos (ne_of_lt hpq)]
        simp only [hsecond, hidx]
        rw [set_second_map g _ norms i p hnd hi, hrun]
        simp only [List.map_cons, Except.ok.injEq, Prod.mk.injEq, List.cons.injEq, true_and,
          and_true]
        have h1 := htl q (List.mem_cons_self _ _)
        refine ⟨by rw [h1], ?_⟩
        apply List.map_congr_left
        intro x hx
        rw [htl x (List.mem_cons_of_mem _ hx)]
      · intro x hx
        rcases List.mem_cons.mp hx with h | h
        · rw [h]
          have hnot : p.1 ∉ (q :: rest).map Prod.fst := by
            intro hin
            obtain ⟨y, hy, hy1⟩ := List.mem_map.mp hin
            have := hp_lt y hy
            omega
          rw [hg2o p hnot, if_pos rfl]
        · rw [hg2l x h, htl x h]
      · intro x hx
        simp only [List.map_cons, List.mem_cons, not_or] at hx
        have hnot : x.1 ∉ (q :: rest).map Prod.fst := by
          simp only [List.map_cons, List.mem_cons, not_or]
          exact hx.2
        rw [hg2o x hnot, if_neg hx.1]

theorem clamp_partitions_duplicate (m : BeginToIdx) :
    ∀ (l : List ColumnRange) (cr : List (List ColumnRange)),
      l.Pairwise (fun p q => p.1 ≤ q.1) → ¬ (l.map Prod.fst).Nodup →
      clamp_partitions m l cr = .error .duplicate_begin := by
  intro l
  induction l with
  | nil => intro cr _ h; simp at h
  | cons p l ih =>
    intro cr hsorted hdup
    cases l with
    | nil => simp at hdup
    | cons q rest =>
      by_cases hpq : p.1 = q.1
      · rw [clamp_partitions, if_neg (by simpa using hpq)]
      · have hp_le : ∀ x ∈ q :: rest, p.1 ≤ x.1 := (List.pairwise_cons.mp hsorted).1
        have htail := (List.pairwise_cons.mp hsorted).2
        have hq_le : ∀ x ∈ rest, q.1 ≤ x.1 := (List.pairwise_cons.mp htail).1
        have hlt : p.1 < q.1 := lt_of_le_of_ne (hp_le q (List.mem_cons_self _ _)) hpq
        have hdup2 : ¬ ((q :: rest).map Prod.fst).Nodup := by
          intro hn
          apply hdup
          rw [List.map_cons, List.nodup_cons]
          refine ⟨?_, hn⟩
          intro hin
          obtain ⟨y, hy, hy1⟩ := List.mem_map.mp hin
          rcases List.mem_cons.mp hy with h | h
          · rw [h] at hy1; omega
          · have := hq_le y h; omega
        rw [clamp_partitions, if_pos hpq]
        simp only [ih _ htail hdup2]

/-! ## The sort -/

theorem column_range_le_iff (x y : ColumnRange) : column_range_le x y ↔ x.1 ≤ y.1 := by
  simp [column_range_le, ColumnRangeCompare]

theorem sort_column_partitions_perm (v : List ColumnRange) :
    (sort_column_partitions v).Perm v :=
  List.perm_insertionSort column_range_le v

theorem sort_column_partitions_mem (v : List ColumnRange) (q : ColumnRange) :
    q ∈ sort_column_partitions v ↔ q ∈ v :=
  (sort_column_partitions_perm v).mem_iff

theorem sort_column_partitions_sorted (v : List ColumnRange) :
    (sort_column_partitions v).Pairwise (fun p q => p.1 ≤ q.1) := by
  have h : (sort_column_partitions v).Sorted column_range_le :=
    List.sorted_insertionSort column_range_le v
  exact List.Pairwise.imp (fun hab => (column_range_le_iff _ _).mp hab) h

theorem sort_column_partitions_nodup (v : List ColumnRange) :
    ((sort_column_partitions v).map Prod.fst).Nodup ↔ (v.map Prod.fst).Nodup :=
  ((sort_column_partitions_perm v).map Prod.fst).nodup_iff

theorem sort_column_partitions_strict (v : List ColumnRange) (hnd : (v.map Prod.fst).Nodup) :
    (sort_column_partitions v).Pairwise (fun p q => p.1 < q.1) := by
  have h1 := sort_column_partitions_sorted v
  have h2 : (sort_column_partitions v).Pairwise (fun p q => p.1 ≠ q.1) := by
    have := (sort_column_partitions_nodup v).mpr hnd
    exact (List.pairwise_map).mp this
  exact (h1.and h2).imp (fun h => lt_of_le_of_ne h.1 h.2)

/-! ## The fields other than the column selector -/

theorem IsString_eq_true (v : JValue) (h : v.IsString = true) : ∃ x, v = JValue.str x := by
  cases v <;> simp [JValue.IsString] at h
  exact ⟨_, rfl⟩

theorem IsInt64_eq_true (v : JValue) (h : v.IsInt64 = true) :
    ∃ i, v = JValue.int i ∧ is_int64 i := by
  cases v <;> simp [JValue.IsInt64] at h
  exact ⟨_, rfl, h⟩

theorem push_strings_shaped (e : RunError) :
    ∀ (elems : List JValue) (acc : List String), elems.all JValue.IsString = true →
      ∃ xs, push_strings e elems acc = .ok (acc ++ xs) := by
  intro elems
  induction elems with
  | nil => intro acc _; exact ⟨[], by simp [push_strings]⟩
  | cons v rest ih =>
    intro acc h
    simp only [List.all_cons, Bool.and_eq_true] at h
    obtain ⟨x, hx⟩ := IsString_eq_true v h.1
    obtain ⟨xs, hxs⟩ := ih (acc ++ [x]) h.2
    refine ⟨x :: xs, ?_⟩
    subst hx
    simp only [push_strings, JValue.IsString, JValue.GetString, if_true, hxs]
    simp

theorem read_workspace_shaped (s : JSONConfigBase) (m_json : List (String × JValue))
    (h : (FindMember m_json "workspace").all strings_shape = true)
    (hs : s.m_single_workspace_path = true → s.m_workspaces ≠ []) :
    ∃ ws f, read_workspace s m_json
        = .ok { s with m_workspaces := ws, m_single_workspace_path := f } ∧
      (f = true → ws ≠ []) := by
  unfold read_workspace
  cases hw : FindMember m_json "workspace" with
  | none => exact ⟨s.m_workspaces, s.m_single_workspace_path, rfl, hs⟩
  | some w =>
    rw [hw] at h
    simp only [Option.all_some] at h
    cases w <;> simp [strings_shape] at h
    · rename_i x
      refine ⟨s.m_workspaces ++ [x], true, ?_, by simp⟩
      simp [JValue.IsString, JValue.GetString]
    · rename_i elems
      have hall : elems.all JValue.IsString = true := by simpa using h
      obtain ⟨xs, hxs⟩ := push_strings_shaped .workspace_not_string elems s.m_workspaces hall
      refine ⟨s.m_workspaces ++ xs, s.m_single_workspace_path, ?_, ?_⟩
      · simp only [hxs]
      · intro hf
        have := hs hf
        simp [this]

theorem read_array_shaped (s : JSONConfigBase) (m_json : List (String × JValue))
    (h : (FindMember m_json "array").all strings_shape = true)
    (hs : s.m_single_array_name = true → s.m_array_names ≠ []) :
    ∃ ns f, read_array s m_json
        = .ok { s with m_array_names := ns, m_single_array_name := f } ∧
      (f = true → ns ≠ []) := by
  unfold read_array
  cases hw : FindMember m_json "array" with
  | none => exact ⟨s.m_array_names, s.m_single_array_name, rfl, hs⟩
  | some w =>
    rw [hw] at h
    simp only [Option.all_some] at h
    cases w <;> simp [strings_shape] at h
    · rename_i x
      refine ⟨s.m_array_names ++ [x], true, ?_, by simp⟩
      simp [JValue.IsString, JValue.GetString]
    · rename_i elems
      have hall : elems.all JValue.IsString = true := by simpa using h
      obtain ⟨xs, hxs⟩ := push_strings_shaped .array_not_string elems s.m_array_names hall
      refine ⟨s.m_array_names ++ xs, s.m_single_array_name, ?_, ?_⟩
      · simp only [hxs]
      · intro hf
        have := hs hf
        simp [this]

theorem read_range_shaped (q3 : JValue) (h : interval_shape q3 = true) :
    ∃ r, read_range q3 = .ok r := by
  unfold interval_shape at h
  split at h
  · next a b =>
    simp only [Bool.and_eq_true] at h
    obtain ⟨i, hi, hi64⟩ := IsInt64_eq_true a h.1
    obtain ⟨j, hj, hj64⟩ := IsInt64_eq_true b h.2
    subst hi hj
    exact ⟨_, read_range_pair i j hi64 hj64⟩
  · cases h
  · next hne1 hne2 =>
    obtain ⟨i, hi, hi64⟩ := IsInt64_eq_true q3 h
    subst hi
    exact ⟨_, read_range_scalar i hi64⟩

theorem read_range_list_shaped :
    ∀ inner : List JValue, inner.all interval_shape = true →
      ∃ rs, read_range_list inner = .ok rs := by
  intro inner
  induction inner with
  | nil => intro _; exact ⟨[], rfl⟩
  | cons q3 rest ih =>
    intro h
    simp only [List.all_cons, Bool.and_eq_true] at h
    obtain ⟨r, hr⟩ := read_range_shaped q3 h.1
    obtain ⟨rs, hrs⟩ := ih h.2
    exact ⟨r :: rs, by simp only [read_range_list, hr, hrs]⟩

theorem read_range_lists_shaped :
    ∀ outer : List JValue, range_lists_shape (.arr outer) = true →
      ∃ rss, read_range_lists outer = .ok rss := by
  intro outer
  induction outer with
  | nil => intro _; exact ⟨[], rfl⟩
  | cons q2 rest ih =>
    intro h
    simp only [range_lists_shape, List.all_cons, Bool.and_eq_true] at h
    obtain ⟨rss, hrss⟩ := ih (by simpa [range_lists_shape] using h.2)
    cases q2 <;> simp at h
    rename_i inner
    obtain ⟨rs, hrs⟩ := read_range_list_shaped inner (by simpa using h.1)
    exact ⟨rs :: rss, by simp only [read_range_lists, hrs, hrss]⟩

theorem read_query_row_ranges_shaped (s : JSONConfigBase) (m_json : List (String × JValue))
    (h : (FindMember m_json "query_row_ranges").all range_lists_shape = true) :
    ∃ rr f, read_query_row_ranges s m_json
        = .ok { s with m_row_ranges := rr, m_single_query_row_ranges_vector := f } := by
  unfold read_query_row_ranges
  cases hw : FindMember m_json "query_row_ranges" with
  | none => exact ⟨s.m_row_ranges, s.m_single_query_row_ranges_vector, rfl⟩
  | some q1 =>
    rw [hw] at h
    simp only [Option.all_some] at h
    cases q1 <;> simp [range_lists_shape] at h
    rename_i outer
    obtain ⟨rss, hrss⟩ := read_range_lists_shaped outer (by simpa [range_lists_shape] using h)
    simp only [hrss]
    exact ⟨_, _, rfl⟩

theorem read_attribute_list_shaped :
    ∀ elems : List JValue, elems.all JValue.IsString = true →
      ∃ xs, read_attribute_list elems = .ok xs := by
  intro elems
  induction elems with
  | nil => intro _; exact ⟨[], rfl⟩
  | cons v rest ih =>
    intro h
    simp only [List.all_cons, Bool.and_eq_true] at h
    obtain ⟨x, hx⟩ := IsString_eq_true v h.1
    obtain ⟨xs, hxs⟩ := ih h.2
    subst hx
    exact ⟨x :: xs, by simp [read_attribute_list, JValue.IsString, JValue.GetString, hxs]⟩

theorem read_query_attributes_shaped (s : JSONConfigBase) (m_json : List (String × JValue))
    (h : (FindMember m_json "query_attributes").all string_array_shape = true) :
    ∃ attrs, read_query_attributes s m_json = .ok { s with m_attributes := attrs } := by
  unfold read_query_attributes
  cases hw : FindMember m_json "query_attributes" with
  | none => exact ⟨s.m_attributes, rfl⟩
  | some q1 =>
    rw [hw] at h
    simp only [Option.all_some] at h
    cases q1 <;> simp [string_array_shape] at h
    rename_i elems
    obtain ⟨xs, hxs⟩ := read_attribute_list_shaped elems (by simpa using h)
    simp only [hxs]
    exact ⟨_, rfl⟩

/-! ## The `column_partitions` branch as a whole -/

theorem vector_resize_length {α : Type} (v : List α) (n : Nat) (fill : α) :
    (vector_resize v n fill).length = n := by
  simp only [vector_resize, List.length_append, List.length_take, List.length_replicate]
  omega

theorem first_or_empty_total (single : Bool) (v : List String)
    (h : single = true → v ≠ []) : ∃ x, first_or_empty single v = .ok x := by
  unfold first_or_empty
  cases single with
  | false => exact ⟨"", rfl⟩
  | true =>
    cases v with
    | nil => exact absurd rfl (h rfl)
    | cons a l => exact ⟨a, rfl⟩

theorem forall₂_length_eq {α β : Type} {R : α → β → Prop} {l : List α} {l2 : List β}
    (h : List.Forall₂ R l l2) : l.length = l2.length := by
  induction h with
  | nil => rfl
  | cons _ _ ih => simp [ih]

theorem normalized_all_begins (decls : List Declaration) :
    (normalized_all decls).map Prod.fst = decls.map (fun d => (normalized d).1) := by
  simp [normalized_all, List.map_map, Function.comp_def]

theorem declared_all_is_int64 {parts : List (String × JValue)} {decls : List Declaration}
    (hd : List.Forall₂ DeclaresPartition parts decls) :
    ∀ p ∈ normalized_all decls, is_int64 p.1 ∧ is_int64 p.2 ∧ p.1 ≤ p.2 := by
  induction hd with
  | nil => intro p hp; simp [normalized_all] at hp
  | cons h _ ih =>
    intro p hp
    simp only [normalized_all, List.map_cons, List.mem_cons] at hp
    rcases hp with rfl | hp
    · exact declared_is_int64 _ _ h
    · exact ih p hp

theorem read_column_partitions_resolved (s : JSONConfigBase) (parts : List (String × JValue))
    (decls : List Declaration) (hflags : flags_in_bounds s)
    (hd : List.Forall₂ DeclaresPartition parts decls)
    (hnd : (decls.map (fun d => (normalized d).1)).Nodup) :
    ∃ s2, read_column_partitions s (.obj parts) = .ok s2 ∧
      s2.m_column_ranges = (normalized_all decls).map (fun p => [resolved decls p]) ∧
      s2.m_sorted_column_partitions
        = (sort_column_partitions (normalized_all decls)).map (resolved decls) ∧
      s2.m_scan_whole_array = s.m_scan_whole_array ∧
      s2.m_single_query_column_ranges_vector = s.m_single_query_column_ranges_vector := by
  obtain ⟨wstr, hw⟩ := first_or_empty_total s.m_single_workspace_path s.m_workspaces hflags.1
  obtain ⟨astr, ha⟩ := first_or_empty_total s.m_single_array_name s.m_array_names hflags.2
  have hlen := forall₂_length_eq hd
  generalize hs1 : ({ s with
      m_column_partitions_specified := true
      m_sorted_column_partitions := vector_resize s.m_sorted_column_partitions parts.length (0, 0)
      m_column_ranges := vector_resize s.m_column_ranges parts.length [] } : JSONConfigBase) = s1
  obtain ⟨s2, hrun, hc, hso, hscan, hsingle, _⟩ :=
    read_partitions_declared parts.length wstr astr parts decls 0 s1 []
      [] (vector_resize s.m_column_ranges parts.length [])
      [] (vector_resize s.m_sorted_column_partitions parts.length (0, 0)) hd
      (by rw [← hs1]; rfl) rfl (vector_resize_length _ _ _)
      (by rw [← hs1]; rfl) rfl (vector_resize_length _ _ _)
  have hnd2 : ((normalized_all decls).map Prod.fst).Nodup := by
    rw [normalized_all_begins]; exact hnd
  have hm : ∀ i p, (normalized_all decls).get? i = some p →
      begin_to_idx_get (index_entries 0 decls []) p.1 = i := by
    intro i p hip
    simp only [normalized_all, List.get?_eq_getElem?, List.getElem?_map, Option.map_eq_some'] at hip
    obtain ⟨d, hdi, hdp⟩ := hip
    have := begin_to_idx_get_index_entries decls 0 [] hnd i d
      (by simpa [List.get?_eq_getElem?] using hdi)
    rw [← hdp, this]; omega
  have h64 : ∀ p ∈ normalized_all decls, is_int64 p.1 :=
    fun p hp => (declared_all_is_int64 hd p hp).1
  obtain ⟨g2, hclamp, hg2, _⟩ := clamp_partitions_sorted (normalized_all decls)
    (index_entries 0 decls []) hnd2 hm h64
    (sort_column_partitions (normalized_all decls)) Prod.snd
    (sort_column_partitions_strict _ hnd2)
    (fun p hp => (sort_column_partitions_mem _ p).mp hp) (fun _ _ => rfl)
  have hc2 : s2.m_column_ranges = (normalized_all decls).map (fun p => [(p.1, Prod.snd p)]) := by
    rw [hc]; simp [normalized_all, List.map_map, Function.comp_def]
  have hso2 : s2.m_sorted_column_partitions = normalized_all decls := by
    rw [hso]; simp [normalized_all]
  have hrend : ∀ p, resolved_end (sort_column_partitions (normalized_all decls)) p
      = resolved_end (normalized_all decls) p :=
    fun p => resolved_end_congr _ _ p (sort_column_partitions_mem _)
  refine ⟨{ s2 with
      m_sorted_column_partitions :=
        (sort_column_partitions (normalized_all decls)).map (resolved decls)
      m_column_ranges := (normalized_all decls).map (fun p => [resolved decls p]) },
    ?_, rfl, rfl, ?_, ?_⟩
  · simp only [read_column_partitions, hs1, hw, ha]
    have e1 : s1.m_single_workspace_path = s.m_single_workspace_path := by rw [← hs1]
    have e2 : s1.m_workspaces = s.m_workspaces := by rw [← hs1]
    have e3 : s1.m_single_array_name = s.m_single_array_name := by rw [← hs1]
    have e4 : s1.m_array_names = s.m_array_names := by rw [← hs1]
    simp only [e1, e2, e3, e4, hw, ha, hrun, hso2, hc2, hclamp]
    congr 2
    · apply List.map_congr_left
      intro p hp
      simp only [resolved]
      rw [hg2 p ((sort_column_partitions_mem _ p).mpr hp), hrend]
    · apply List.map_congr_left
      intro p _
      simp only [resolved, hrend]
  · show s2.m_scan_whole_array = s.m_scan_whole_array
    rw [hscan, ← hs1]
  · show s2.m_single_query_column_ranges_vector = s.m_single_query_column_ranges_vector
    rw [hsingle, ← hs1]

theorem read_column_partitions_duplicate (s : JSONConfigBase) (parts : List (String × JValue))
    (decls : List Declaration) (hflags : flags_in_bounds s)
    (hd : List.Forall₂ DeclaresPartition parts decls)
    (hdup : ¬ (decls.map (fun d => (normalized d).1)).Nodup) :
    read_column_partitions s (.obj parts) = .error .duplicate_begin := by
  obtain ⟨wstr, hw⟩ := first_or_empty_total s.m_single_workspace_path s.m_workspaces hflags.1
  obtain ⟨astr, ha⟩ := first_or_empty_total s.m_single_array_name s.m_array_names hflags.2
  generalize hs1 : ({ s with
      m_column_partitions_specified := true
      m_sorted_column_partitions := vector_resize s.m_sorted_column_partitions parts.length (0, 0)
      m_column_ranges := vector_resize s.m_column_ranges parts.length [] } : JSONConfigBase) = s1
  obtain ⟨s2, hrun, _, hso, _, _, _⟩ :=
    read_partitions_declared parts.length wstr astr parts decls 0 s1 []
      [] (vector_resize s.m_column_ranges parts.length [])
      [] (vector_resize s.m_sorted_column_partitions parts.length (0, 0)) hd
      (by rw [← hs1]; rfl) rfl (vector_resize_length _ _ _)
      (by rw [← hs1]; rfl) rfl (vector_resize_length _ _ _)
  have hso2 : s2.m_sorted_column_partitions = normalized_all decls := by
    rw [hso]; simp [normalized_all]
  have hdup2 : ¬ ((sort_column_partitions (normalized_all decls)).map Prod.fst).Nodup := by
    rw [sort_column_partitions_nodup, normalized_all_begins]; exact hdup
  have hclamp := clamp_partitions_duplicate (index_entries 0 decls [])
    (sort_column_partitions (normalized_all decls)) s2.m_column_ranges
    (sort_column_partitions_sorted _) hdup2
  have e1 : s1.m_single_workspace_path = s.m_single_workspace_path := by rw [← hs1]
  have e2 : s1.m_workspaces = s.m_workspaces := by rw [← hs1]
  have e3 : s1.m_single_array_name = s.m_single_array_name := by rw [← hs1]
  have e4 : s1.m_array_names = s.m_array_names := by rw [← hs1]
  simp only [read_column_partitions, hs1, e1, e2, e3, e4, hw, ha, hrun, hso2, hclamp]

theorem has_member_false {members : List (String × JValue)} {name : String}
    (h : HasMember members name = false) : FindMember members name = none := by
  unfold HasMember at h
  cases hf : FindMember members name with
  | none => rfl
  | some v => rw [hf] at h; cases h

theorem read_column_selection_partitions (s : JSONConfigBase)
    (m_json : List (String × JValue)) (dict : JValue)
    (h1 : HasMember m_json "scan_full" = false)
    (h2 : HasMember m_json "query_column_ranges" = false)
    (h3 : FindMember m_json "column_partitions" = some dict) :
    read_column_selection s m_json = read_column_partitions s dict := by
  have h4 : HasMember m_json "column_partitions" = true := by
    simp [HasMember, h3]
  simp [read_column_selection, h1, h2, h4, has_member_false h2, h3]

theorem other_fields_shape_iff (m_json : List (String × JValue)) :
    other_fields_shape m_json = true ↔
      (FindMember m_json "workspace").all strings_shape = true ∧
      (FindMember m_json "array").all strings_shape = true ∧
      (FindMember m_json "query_row_ranges").all range_lists_shape = true ∧
      (FindMember m_json "query_attributes").all string_array_shape = true := by
  simp only [other_fields_shape, Bool.and_eq_true, and_assoc]

theorem read_from_file_partition_document (s : JSONConfigBase)
    (m_json parts : List (String × JValue)) (decls : List Declaration)
    (hflags : flags_in_bounds s) (hdoc : PartitionDocument m_json parts decls)
    (hnd : (decls.map (fun d => (normalized d).1)).Nodup) :
    ∃ s2, JSONConfigBase.read_from_file s (.obj m_json) = .ok s2 ∧
      s2.m_column_ranges = (normalized_all decls).map (fun p => [resolved decls p]) ∧
      s2.m_sorted_column_partitions
        = (sort_column_partitions (normalized_all decls)).map (resolved decls) ∧
      s2.m_scan_whole_array = s.m_scan_whole_array ∧
      s2.m_single_query_column_ranges_vector = s.m_single_query_column_ranges_vector := by
  obtain ⟨hw, ha, hr, hq⟩ := (other_fields_shape_iff m_json).mp hdoc.other_fields
  obtain ⟨ws, f, hws, hwf⟩ := read_workspace_shaped s m_json hw hflags.1
  generalize hsa : ({ s with m_workspaces := ws, m_single_workspace_path := f }
    : JSONConfigBase) = sa at hws
  have ha1 : sa.m_single_array_name = true → sa.m_array_names ≠ [] := by
    rw [← hsa]; exact hflags.2
  obtain ⟨ns, g, hns, hng⟩ := read_array_shaped sa m_json ha ha1
  generalize hsb : ({ sa with m_array_names := ns, m_single_array_name := g }
    : JSONConfigBase) = sb at hns
  have hfb : flags_in_bounds sb := by
    constructor
    · rw [← hsb, ← hsa]; exact hwf
    · rw [← hsb]; exact hng
  obtain ⟨sc, hsc, hc1, hc2, hc3, hc4⟩ :=
    read_column_partitions_resolved sb parts decls hfb hdoc.declared hnd
  have hsel := read_column_selection_partitions sb m_json _ hdoc.no_scan_full hdoc.no_ranges
    hdoc.partitions
  obtain ⟨rr, fr, hrr⟩ := read_query_row_ranges_shaped sc m_json hr
  generalize hsd : ({ sc with m_row_ranges := rr, m_single_query_row_ranges_vector := fr }
    : JSONConfigBase) = sd at hrr
  obtain ⟨attrs, hat⟩ := read_query_attributes_shaped sd m_json hq
  refine ⟨{ sd with m_attributes := attrs }, ?_, ?_, ?_, ?_, ?_⟩
  · simp only [JSONConfigBase.read_from_file, hws, hns, hsel, hsc, hrr, hat]
  · show sd.m_column_ranges = _
    rw [← hsd]; exact hc1
  · show sd.m_sorted_column_partitions = _
    rw [← hsd]; exact hc2
  · show sd.m_scan_whole_array = _
    rw [← hsd]
    show sc.m_scan_whole_array = _
    rw [hc3, ← hsb, ← hsa]
  · show sd.m_single_query_column_ranges_vector = _
    rw [← hsd]
    show sc.m_single_query_column_ranges_vector = _
    rw [hc4, ← hsb, ← hsa]

theorem read_from_file_partition_duplicate (s : JSONConfigBase)
    (m_json parts : List (String × JValue)) (decls : List Declaration)
    (hflags : flags_in_bounds s) (hdoc : PartitionDocument m_json parts decls)
    (hdup : ¬ (decls.map (fun d => (normalized d).1)).Nodup) :
    JSONConfigBase.read_from_file s (.obj m_json) = .error .duplicate_begin := by
  obtain ⟨hw, ha, _, _⟩ := (other_fields_shape_iff m_json).mp hdoc.other_fields
  obtain ⟨ws, f, hws, hwf⟩ := read_workspace_shaped s m_json hw hflags.1
  generalize hsa : ({ s with m_workspaces := ws, m_single_workspace_path := f }
    : JSONConfigBase) = sa at hws
  have ha1 : sa.m_single_array_name = true → sa.m_array_names ≠ [] := by
    rw [← hsa]; exact hflags.2
  obtain ⟨ns, g, hns, hng⟩ := read_array_shaped sa m_json ha ha1
  generalize hsb : ({ sa with m_array_names := ns, m_single_array_name := g }
    : JSONConfigBase) = sb at hns
  have hfb : flags_in_bounds sb := by
    constructor
    · rw [← hsb, ← hsa]; exact hwf
    · rw [← hsb]; exact hng
  have hsc := read_column_partitions_duplicate sb parts decls hfb hdoc.declared hdup
  have hsel := read_column_selection_partitions sb m_json _ hdoc.no_scan_full hdoc.no_ranges
    hdoc.partitions
  simp only [JSONConfigBase.read_from_file, hws, hns, hsel, hsc]

theorem fresh_flags_in_bounds : flags_in_bounds JSONConfigBase.fresh := by
  constructor <;> intro h <;> cases h

/-! ## What a declared partition resolves to -/

theorem resolution_at (s : JSONConfigBase) (decls : List Declaration)
    (hc : s.m_column_ranges = (normalized_all decls).map (fun p => [resolved decls p]))
    (hs : s.m_sorted_column_partitions
      = (sort_column_partitions (normalized_all decls)).map (resolved decls))
    (i : Nat) (d : Declaration) (hi : decls.get? i = some d) :
    s.m_column_ranges.get? i = some [resolved decls (normalized d)] ∧
      resolved decls (normalized d) ∈ s.m_sorted_column_partitions := by
  constructor
  · rw [hc]
    simp only [List.get?_eq_getElem?, normalized_all, List.getElem?_map] at hi ⊢
    rw [hi]; rfl
  · rw [hs]
    apply List.mem_map_of_mem
    rw [sort_column_partitions_mem]
    exact List.mem_map_of_mem normalized (List.get?_mem hi)

theorem resolved_end_of_last (decls : List Declaration) (p : ColumnRange)
    (h : IsLastBegin decls p.1) : resolved_end (normalized_all decls) p = p.2 := by
  unfold resolved_end
  rw [next_begin_eq_none]
  intro q hq
  simp only [normalized_all, List.mem_map] at hq
  obtain ⟨d, hd, hdq⟩ := hq
  rw [← hdq]
  exact h d hd

theorem next_begin_of_is_next (decls : List Declaration) (b b2 : Int)
    (h : IsNextBegin decls b b2) : next_begin (normalized_all decls) b = some b2 := by
  obtain ⟨⟨d, hd, hdb⟩, hlt, hmin⟩ := h
  apply next_begin_eq_some _ _ _ ⟨normalized d, List.mem_map_of_mem normalized hd, hdb⟩ hlt
  intro q hq hbq
  simp only [normalized_all, List.mem_map] at hq
  obtain ⟨d2, hd2, hdq⟩ := hq
  rw [← hdq] at hbq ⊢
  exact hmin d2 hd2 hbq

theorem resolved_end_of_next (decls : List Declaration) (p : ColumnRange) (b2 : Int)
    (h : IsNextBegin decls p.1 b2) :
    resolved_end (normalized_all decls) p = if p.2 ≥ b2 then b2 - 1 else p.2 := by
  unfold resolved_end
  rw [next_begin_of_is_next decls p.1 b2 h]

theorem forall₂_get? {α β : Type} {R : α → β → Prop} {l : List α} {l2 : List β}
    (h : List.Forall₂ R l l2) :
    ∀ (i : Nat) (b : β), l2.get? i = some b → ∃ a, l.get? i = some a ∧ R a b := by
  induction h with
  | nil => intro i b hb; simp at hb
  | cons hab _ ih =>
    intro i b hb
    cases i with
    | zero =>
      simp only [List.get?_cons_zero, Option.some.injEq] at hb
      subst hb
      exact ⟨_, rfl, hab⟩
    | succ i =>
      simp only [List.get?_cons_succ] at hb ⊢
      exact ih i b hb

/-! ## C1: partitions do not overlap -/

/-- C1. Partition non-overlap: for a document whose column selector is `column_partitions`, with
well-typed partitions whose begins are pairwise distinct after the begin/end swap, the load into
a fresh object succeeds, `m_sorted_column_partitions` holds the normalised begins in ascending
order, and for every adjacent pair `end_i < begin_{i+1}`. -/
theorem partitions_do_not_overlap (m_json parts : List (String × JValue))
    (decls : List Declaration) (hdoc : PartitionDocument m_json parts decls)
    (hnd : (decls.map (fun d => (normalized d).1)).Nodup) :
    ∃ s, JSONConfigBase.read_from_file JSONConfigBase.fresh (.obj m_json) = .ok s ∧
      (s.m_sorted_column_partitions.map Prod.fst).Perm (decls.map (fun d => (normalized d).1)) ∧
      s.m_sorted_column_partitions.Chain' (fun p q => p.1 < q.1 ∧ p.2 < q.1) := by
  obtain ⟨s, hs, _, hsorted, _, _⟩ := read_from_file_partition_document JSONConfigBase.fresh
    m_json parts decls fresh_flags_in_bounds hdoc hnd
  have hnd2 : ((normalized_all decls).map Prod.fst).Nodup := by
    rw [normalized_all_begins]; exact hnd
  refine ⟨s, hs, ?_, ?_⟩
  · rw [hsorted, List.map_map]
    have : (Prod.fst ∘ resolved decls) = Prod.fst := by
      funext p; rfl
    rw [this, ← normalized_all_begins]
    exact (sort_column_partitions_perm _).map Prod.fst
  · apply List.Pairwise.chain'
    rw [hsorted, List.pairwise_map]
    apply List.Pairwise.imp_of_mem _ (sort_column_partitions_strict _ hnd2)
    intro p q _ hq hpq
    refine ⟨hpq, ?_⟩
    exact resolved_end_lt_of_begin_lt _ p q ((sort_column_partitions_mem _ q).mp hq) hpq

theorem overlapping_is_partition_document :
    PartitionDocument overlapping_document overlapping_parts overlapping_decls where
  other_fields := by decide
  no_scan_full := by decide
  no_ranges := by decide
  partitions := rfl
  declared := by
    refine List.Forall₂.cons ⟨_, rfl, ?_⟩ (List.Forall₂.cons ⟨_, rfl, ?_⟩
      (List.Forall₂.cons ⟨_, rfl, ?_⟩ List.Forall₂.nil)) <;>
    simp [FindMember, is_int64, INT64_MIN, INT64_MAX]

/-- Witness of C1: the three out-of-order, overlapping partitions of `overlapping_document`. -/
theorem partitions_do_not_overlap_witness :
    ∃ s, JSONConfigBase.read_from_file JSONConfigBase.fresh (.obj overlapping_document) = .ok s ∧
      (s.m_sorted_column_partitions.map Prod.fst).Perm
        (overlapping_decls.map (fun d => (normalized d).1)) ∧
      s.m_sorted_column_partitions.Chain' (fun p q => p.1 < q.1 ∧ p.2 < q.1) :=
  partitions_do_not_overlap overlapping_document overlapping_parts overlapping_decls
    overlapping_is_partition_document (by decide)

/-! ## C2: duplicate detection -/

/-- Counterexample to C2 as stated: the two partitions of `same_begin_field_document` have equal
`begin` members (100), the first with `end` 50. The swap makes their begins 50 and 100, the load
succeeds, and the first partition is resolved to `[50, 99]`. -/
theorem same_begin_field_counterexample :
    JSONConfigBase.read_from_file JSONConfigBase.fresh (.obj same_begin_field_document)
      = .ok { JSONConfigBase.fresh with
              m_column_partitions_specified := true
              m_column_ranges := [[(50, 99)], [(100, INT64_MAX)]]
              m_sorted_column_partitions := [(50, 99), (100, INT64_MAX)] } := rfl

theorem nodup_get?_inj {α : Type} :
    ∀ (l : List α) (i j : Nat) (a : α), l.Nodup → l.get? i = some a → l.get? j = some a →
      i = j := by
  intro l
  induction l with
  | nil => intro i j a _ h; simp at h
  | cons x l ih =>
    intro i j a hnd hi hj
    rw [List.nodup_cons] at hnd
    cases i with
    | zero =>
      cases j with
      | zero => rfl
      | succ j =>
        simp only [List.get?_cons_zero, Option.some.injEq, List.get?_cons_succ] at hi hj
        subst hi
        exact absurd (List.get?_mem hj) hnd.1
    | succ i =>
      cases j with
      | zero =>
        simp only [List.get?_cons_zero, Option.some.injEq, List.get?_cons_succ] at hi hj
        subst hj
        exact absurd (List.get?_mem hi) hnd.1
      | succ j =>
        simp only [List.get?_cons_succ] at hi hj
        rw [ih i j a hnd.2 hi hj]

theorem get?_map_some {α β : Type} (f : α → β) (l : List α) (i : Nat) (a : α)
    (h : l.get? i = some a) : (l.map f).get? i = some (f a) := by
  simp only [List.get?_eq_getElem?, List.getElem?_map] at h ⊢
  rw [h]; rfl

/-- C2, amended. Duplicate detection is on the begin after the begin/end swap: for a document
whose column selector is `column_partitions` with well-typed partitions, if two partitions (at
any two declaration positions) have the same normalised begin, the smaller of `begin` and `end`
with a missing `end` counted as `INT64_MAX`, the load fails with the duplicate-begin error. -/
theorem equal_normalized_begins_rejected (m_json parts : List (String × JValue))
    (decls : List Declaration) (hdoc : PartitionDocument m_json parts decls)
    (i j : Nat) (di dj : Declaration) (hij : i ≠ j)
    (hi : decls.get? i = some di) (hj : decls.get? j = some dj)
    (heq : (normalized di).1 = (normalized dj).1) :
    JSONConfigBase.read_from_file JSONConfigBase.fresh (.obj m_json)
      = .error .duplicate_begin := by
  apply read_from_file_partition_duplicate JSONConfigBase.fresh m_json parts decls
    fresh_flags_in_bounds hdoc
  intro hnd
  apply hij
  apply nodup_get?_inj _ i j (normalized di).1 hnd
  · exact get?_map_some (fun d => (normalized d).1) decls i di hi
  · rw [heq]
    exact get?_map_some (fun d => (normalized d).1) decls j dj hj

theorem repeated_begin_is_partition_document :
    PartitionDocument repeated_begin_document repeated_begin_parts repeated_begin_decls where
  other_fields := by decide
  no_scan_full := by decide
  no_ranges := by decide
  partitions := rfl
  declared := by
    refine List.Forall₂.cons ⟨_, rfl, ?_⟩ (List.Forall₂.cons ⟨_, rfl, ?_⟩
      (List.Forall₂.cons ⟨_, rfl, ?_⟩ List.Forall₂.nil)) <;>
    simp [FindMember, is_int64, INT64_MIN, INT64_MAX]

/-- Witness of the amended C2: the partitions at positions 0 and 2 of `repeated_begin_document`
both begin at 7. -/
theorem equal_normalized_begins_rejected_witness :
    JSONConfigBase.read_from_file JSONConfigBase.fresh (.obj repeated_begin_document)
      = .error .duplicate_begin :=
  equal_normalized_begins_rejected repeated_begin_document repeated_begin_parts
    repeated_begin_decls repeated_begin_is_partition_document 0 2 (7, some 30) (7, none)
    (by decide) rfl rfl (by decide)

/-! ## C3: open-ended partitions -/

/-- C3. Open-ended partitions continue until the next one begins: in a document whose well-typed
partitions have pairwise distinct normalised begins, the partition at declaration position `i`
declared with only `begin = b` is resolved, in `m_column_ranges[i]` and in
`m_sorted_column_partitions`, to `[b, INT64_MAX]` when no begin is greater than `b`, and to
`[b, b2 - 1]` when `b2` is the smallest begin greater than `b`. -/
theorem open_ended_partition_resolution (m_json parts : List (String × JValue))
    (decls : List Declaration) (hdoc : PartitionDocument m_json parts decls)
    (hnd : (decls.map (fun d => (normalized d).1)).Nodup)
    (i : Nat) (b : Int) (hi : decls.get? i = some (b, none)) :
    ∃ s, JSONConfigBase.read_from_file JSONConfigBase.fresh (.obj m_json) = .ok s ∧
      (IsLastBegin decls b →
        s.m_column_ranges.get? i = some [(b, INT64_MAX)] ∧
        (b, INT64_MAX) ∈ s.m_sorted_column_partitions) ∧
      (∀ b2, IsNextBegin decls b b2 →
        s.m_column_ranges.get? i = some [(b, b2 - 1)] ∧
        (b, b2 - 1) ∈ s.m_sorted_column_partitions) := by
  obtain ⟨s, hs, hc, hsorted, _, _⟩ := read_from_file_partition_document JSONConfigBase.fresh
    m_json parts decls fresh_flags_in_bounds hdoc hnd
  obtain ⟨_, _, hdecl⟩ := forall₂_get? hdoc.declared i (b, none) hi
  have h64 := hdecl
  obtain ⟨_, _, _, hb64, _⟩ := h64
  have hb : b ≤ INT64_MAX := hb64.2
  have hnorm : normalized (b, none) = (b, INT64_MAX) := by
    simp only [normalized, Option.getD_none]
    rw [min_eq_left hb, max_eq_right hb]
  have hat := resolution_at s decls hc hsorted i (b, none) hi
  rw [hnorm] at hat
  refine ⟨s, hs, ?_, ?_⟩
  · intro hlast
    have : resolved decls (b, INT64_MAX) = (b, INT64_MAX) := by
      simp only [resolved]
      rw [resolved_end_of_last decls (b, INT64_MAX) hlast]
    rw [this] at hat
    exact hat
  · intro b2 hnext
    have hb2 : b2 ≤ INT64_MAX := by
      obtain ⟨⟨d, hd, hdb⟩, _, _⟩ := hnext
      obtain ⟨k, hk⟩ := List.get?_of_mem hd
      obtain ⟨_, _, hdk⟩ := forall₂_get? hdoc.declared k d hk
      rw [← hdb]
      exact (declared_is_int64 _ _ hdk).1.2
    have : resolved decls (b, INT64_MAX) = (b, b2 - 1) := by
      simp only [resolved]
      rw [resolved_end_of_next decls (b, INT64_MAX) b2 hnext]
      simp only [ge_iff_le, hb2, if_true]
    rw [this] at hat
    exact hat

theorem scenario_a_is_partition_document :
    PartitionDocument scenario_a_document scenario_a_parts scenario_a_decls where
  other_fields := by decide
  no_scan_full := by decide
  no_ranges := by decide
  partitions := rfl
  declared := by
    refine List.Forall₂.cons ⟨_, rfl, ?_⟩ (List.Forall₂.cons ⟨_, rfl, ?_⟩ List.Forall₂.nil) <;>
    simp [FindMember, is_int64, INT64_MIN, INT64_MAX]

/-- Witness of C3: in Scenario A the partition `{"begin":0}` is at position 0, and the stored
intervals are `[0,49]` and `[50,INT64_MAX]`. -/
theorem open_ended_partition_resolution_witness :
    (∃ s, JSONConfigBase.read_from_file JSONConfigBase.fresh (.obj scenario_a_document) = .ok s ∧
      (IsLastBegin scenario_a_decls 0 →
        s.m_column_ranges.get? 0 = some [(0, INT64_MAX)] ∧
        (0, INT64_MAX) ∈ s.m_sorted_column_partitions) ∧
      (∀ b2, IsNextBegin scenario_a_decls 0 b2 →
        s.m_column_ranges.get? 0 = some [(0, b2 - 1)] ∧
        (0, b2 - 1) ∈ s.m_sorted_column_partitions)) ∧
    JSONConfigBase.read_from_file JSONConfigBase.fresh (.obj scenario_a_document)
      = .ok { JSONConfigBase.fresh with
              m_column_partitions_specified := true
              m_column_ranges := [[(0, 49)], [(50, INT64_MAX)]]
              m_sorted_column_partitions := [(0, 49), (50, INT64_MAX)] } :=
  ⟨open_ended_partition_resolution scenario_a_document scenario_a_parts scenario_a_decls
    scenario_a_is_partition_document (by decide) 0 0 rfl, rfl⟩

/-! ## C4: the end is narrowed, never widened -/

/-- C4. For a document whose well-typed partitions are resolved successfully, the partition at
declaration position `i` keeps its normalised begin and gets an end `e` that is at most its
normalised end; `e` is the normalised end when the partition is last in begin-order or when its
end is below the next begin `b2`, and `e` is `b2 - 1` otherwise. -/
theorem partition_end_narrowed (m_json parts : List (String × JValue))
    (decls : List Declaration) (hdoc : PartitionDocument m_json parts decls)
    (s : JSONConfigBase)
    (hok : JSONConfigBase.read_from_file JSONConfigBase.fresh (.obj m_json) = .ok s)
    (i : Nat) (d : Declaration) (hi : decls.get? i = some d) :
    ∃ e, s.m_column_ranges.get? i = some [((normalized d).1, e)] ∧
      ((normalized d).1, e) ∈ s.m_sorted_column_partitions ∧
      e ≤ (normalized d).2 ∧
      (IsLastBegin decls (normalized d).1 → e = (normalized d).2) ∧
      (∀ b2, IsNextBegin decls (normalized d).1 b2 →
        ((normalized d).2 < b2 → e = (normalized d).2) ∧
        (b2 ≤ (normalized d).2 → e = b2 - 1)) := by
  have hnd : (decls.map (fun d => (normalized d).1)).Nodup := by
    by_contra hdup
    have := read_from_file_partition_duplicate JSONConfigBase.fresh m_json parts decls
      fresh_flags_in_bounds hdoc hdup
    rw [this] at hok
    cases hok
  obtain ⟨s2, hs, hc, hsorted, _, _⟩ := read_from_file_partition_document JSONConfigBase.fresh
    m_json parts decls fresh_flags_in_bounds hdoc hnd
  have hss : s2 = s := by
    rw [hs] at hok
    exact Except.ok.inj hok
  rw [hss] at hc hsorted
  have hat := resolution_at s decls hc hsorted i d hi
  refine ⟨resolved_end (normalized_all decls) (normalized d), hat.1, hat.2,
    resolved_end_le _ _, resolved_end_of_last decls _, ?_⟩
  intro b2 hnext
  rw [resolved_end_of_next decls _ b2 hnext]
  constructor
  · intro h; rw [if_neg (by omega)]
  · intro h; rw [if_pos (by omega)]

theorem gap_is_partition_document : PartitionDocument gap_document gap_parts gap_decls where
  other_fields := by decide
  no_scan_full := by decide
  no_ranges := by decide
  partitions := rfl
  declared := by
    refine List.Forall₂.cons ⟨_, rfl, ?_⟩ (List.Forall₂.cons ⟨_, rfl, ?_⟩
      (List.Forall₂.cons ⟨_, rfl, ?_⟩ List.Forall₂.nil)) <;>
    simp [FindMember, is_int64, INT64_MIN, INT64_MAX]

/-- Witness of C4: partition 1 of `gap_document`, declared `[20,45]` before a partition that
begins at 40, in the state `gap_resolved` that the load produces. -/
theorem partition_end_narrowed_witness :
    JSONConfigBase.read_from_file JSONConfigBase.fresh (.obj gap_document) = .ok gap_resolved ∧
    ∃ e, gap_resolved.m_column_ranges.get? 1 = some [((normalized (20, some 45)).1, e)] ∧
      ((normalized (20, some 45)).1, e) ∈ gap_resolved.m_sorted_column_partitions ∧
      e ≤ (normalized (20, some 45)).2 ∧
      (IsLastBegin gap_decls (normalized (20, some 45)).1 → e = (normalized (20, some 45)).2) ∧
      (∀ b2, IsNextBegin gap_decls (normalized (20, some 45)).1 b2 →
        ((normalized (20, some 45)).2 < b2 → e = (normalized (20, some 45)).2) ∧
        (b2 ≤ (normalized (20, some 45)).2 → e = b2 - 1)) :=
  ⟨rfl, partition_end_narrowed gap_document gap_parts gap_decls gap_is_partition_document
    gap_resolved rfl 1 (20, some 45) rfl⟩

/-! ## The phases of a successful load -/

theorem read_from_file_ok (s s5 : JSONConfigBase) (m_json : JValue)
    (h : JSONConfigBase.read_from_file s m_json = .ok s5) :
    ∃ members s1 s2 s3 s4, m_json = .obj members ∧
      read_workspace s members = .ok s1 ∧ read_array s1 members = .ok s2 ∧
      read_column_selection s2 members = .ok s3 ∧
      read_query_row_ranges s3 members = .ok s4 ∧
      read_query_attributes s4 members = .ok s5 := by
  unfold JSONConfigBase.read_from_file at h
  split at h
  · next members =>
    split at h
    · cases h
    · next s1 h1 =>
      split at h
      · cases h
      · next s2 h2 =>
        split at h
        · cases h
        · next s3 h3 =>
          split at h
          · cases h
          · next s4 h4 => exact ⟨members, s1, s2, s3, s4, rfl, h1, h2, h3, h4, h⟩
  · cases h

theorem push_strings_of_strings (e : RunError) :
    ∀ (xs : List String) (acc : List String),
      push_strings e (xs.map JValue.str) acc = .ok (acc ++ xs) := by
  intro xs
  induction xs with
  | nil => intro acc; simp [push_strings]
  | cons x xs ih =>
    intro acc
    simp only [List.map_cons, push_strings, JValue.IsString, JValue.GetString, if_true, ih]
    simp

theorem read_array_frame (s s2 : JSONConfigBase) (m_json : List (String × JValue))
    (h : read_array s m_json = .ok s2) :
    ∃ ns f, s2 = { s with m_array_names := ns, m_single_array_name := f } := by
  unfold read_array at h
  split at h
  · cases h; exact ⟨_, _, rfl⟩
  · split at h
    · split at h
      · cases h; exact ⟨_, _, rfl⟩
      · cases h
    · split at h
      · split at h
        · cases h; exact ⟨_, _, rfl⟩
        · cases h
      · cases h

theorem read_workspace_frame (s s2 : JSONConfigBase) (m_json : List (String × JValue))
    (h : read_workspace s m_json = .ok s2) :
    ∃ ws f, s2 = { s with m_workspaces := ws, m_single_workspace_path := f } := by
  unfold read_workspace at h
  split at h
  · cases h; exact ⟨_, _, rfl⟩
  · split at h
    · split at h
      · cases h; exact ⟨_, _, rfl⟩
      · cases h
    · split at h
      · split at h
        · cases h; exact ⟨_, _, rfl⟩
        · cases h
      · cases h

theorem read_query_row_ranges_ok (s s2 : JSONConfigBase) (m_json : List (String × JValue))
    (h : read_query_row_ranges s m_json = .ok s2) :
    (FindMember m_json "query_row_ranges" = none ∧ s2 = s) ∨
    ∃ outer rss, FindMember m_json "query_row_ranges" = some (.arr outer) ∧
      read_range_lists outer = .ok rss ∧
      s2 = { s with
        m_single_query_row_ranges_vector :=
          if outer.length = 1 then true else s.m_single_query_row_ranges_vector
        m_row_ranges := rss } := by
  unfold read_query_row_ranges at h
  split at h
  · next hnone => cases h; exact Or.inl ⟨hnone, rfl⟩
  · next q1 hsome =>
    split at h
    · next outer =>
      split at h
      · cases h
      · next rss hrss => cases h; exact Or.inr ⟨outer, rss, hsome, hrss, rfl⟩
    · cases h

theorem read_query_attributes_frame (s s2 : JSONConfigBase) (m_json : List (String × JValue))
    (h : read_query_attributes s m_json = .ok s2) :
    ∃ attrs, s2 = { s with m_attributes := attrs } := by
  unfold read_query_attributes at h
  split at h
  · cases h; exact ⟨_, rfl⟩
  · split at h
    · split at h
      · cases h
      · cases h; exact ⟨_, rfl⟩
    · cases h

theorem read_query_column_ranges_ok (s s2 : JSONConfigBase) (q1 : JValue)
    (h : read_query_column_ranges s q1 = .ok s2) :
    ∃ outer rss, q1 = .arr outer ∧ read_range_lists outer = .ok rss ∧
      s2 = { s with
        m_single_query_column_ranges_vector :=
          if outer.length = 1 then true else s.m_single_query_column_ranges_vector
        m_column_ranges := rss } := by
  unfold read_query_column_ranges at h
  split at h
  · next outer =>
    split at h
    · cases h
    · next rss hrss => cases h; exact ⟨outer, rss, rfl, hrss, rfl⟩
  · cases h

theorem read_column_selection_ok (s s2 : JSONConfigBase) (m_json : List (String × JValue))
    (h : read_column_selection s m_json = .ok s2) :
    (HasMember m_json "scan_full" = true ∧ s2 = { s with m_scan_whole_array := true }) ∨
    (HasMember m_json "scan_full" = false ∧
      ∃ q1, FindMember m_json "query_column_ranges" = some q1 ∧
        read_query_column_ranges s q1 = .ok s2) ∨
    (HasMember m_json "scan_full" = false ∧
      FindMember m_json "query_column_ranges" = none ∧
      ∃ dict, FindMember m_json "column_partitions" = some dict ∧
        read_column_partitions s dict = .ok s2) := by
  unfold read_column_selection at h
  split at h
  · split at h
    · next hscan => cases h; exact Or.inl ⟨hscan, rfl⟩
    · next hscan =>
      have hscan2 : HasMember m_json "scan_full" = false := by simpa using hscan
      split at h
      · split at h
        · next q1 hq1 => exact Or.inr (Or.inl ⟨hscan2, q1, hq1, h⟩)
        · next hq1 =>
          split at h
          · next dict hdict => exact Or.inr (Or.inr ⟨hscan2, hq1, dict, hdict, h⟩)
          · cases h
      · cases h
  · cases h

/-! ## What the `column_partitions` branch leaves alone -/

theorem override_workspace_frame (count : Nat) (wstr : String) (idx : Nat)
    (info : List (String × JValue)) (s s2 : JSONConfigBase)
    (h : override_workspace count wstr idx info s = .ok s2) :
    (∃ ws f, s2 = { s with m_workspaces := ws, m_single_workspace_path := f }) ∧
    (FindMember info "workspace" = none → s2 = s) := by
  unfold override_workspace at h
  split at h
  · cases h; exact ⟨⟨_, _, rfl⟩, fun _ => rfl⟩
  · next w hw =>
    simp only at h
    split at h
    · cases h
    · cases h
      exact ⟨⟨_, _, rfl⟩, fun hn => by rw [hn] at hw; cases hw⟩

theorem override_array_frame (count : Nat) (astr : String) (idx : Nat)
    (info : List (String × JValue)) (s s2 : JSONConfigBase)
    (h : override_array count astr idx info s = .ok s2) :
    (∃ ns f, s2 = { s with m_array_names := ns, m_single_array_name := f }) ∧
    (FindMember info "array" = none → s2 = s) := by
  unfold override_array at h
  split at h
  · cases h; exact ⟨⟨_, _, rfl⟩, fun _ => rfl⟩
  · next w hw =>
    simp only at h
    split at h
    · cases h
    · cases h
      exact ⟨⟨_, _, rfl⟩, fun hn => by rw [hn] at hw; cases hw⟩

theorem read_partition_frame (count : Nat) (wstr astr : String) (idx : Nat) (v : JValue)
    (s s2 : JSONConfigBase) (m m2 : BeginToIdx)
    (h : read_partition count wstr astr idx v s m = .ok (s2, m2)) :
    partition_frame s s2 ∧
    ((∀ info, v = JValue.obj info → FindMember info "workspace" = none) →
      s2.m_workspaces = s.m_workspaces ∧
      s2.m_single_workspace_path = s.m_single_workspace_path) ∧
    ((∀ info, v = JValue.obj info → FindMember info "array" = none) →
      s2.m_array_names = s.m_array_names ∧ s2.m_single_array_name = s.m_single_array_name) := by
  unfold read_partition at h
  split at h
  · next info =>
    split at h
    · split at h
      · cases h
      · next range _ =>
        simp only at h
        split at h
        · cases h
        · next sa hsa =>
          split at h
          · cases h
          · next sb hsb =>
            cases h
            obtain ⟨⟨ws, f, ea⟩, hwn⟩ := override_workspace_frame _ _ _ _ _ _ hsa
            obtain ⟨⟨ns, g, eb⟩, han⟩ := override_array_frame _ _ _ _ _ _ hsb
            refine ⟨?_, ?_, ?_⟩
            · rw [eb, ea]; exact ⟨rfl, rfl, rfl, rfl, rfl⟩
            · intro hno
              have e1 := hwn (hno info rfl)
              rw [eb, e1]; exact ⟨rfl, rfl⟩
            · intro hno
              have e1 := han (hno info rfl)
              rw [e1, ea]; exact ⟨rfl, rfl⟩
    · cases h
  · cases h

theorem partition_frame_trans (s s2 s3 : JSONConfigBase) (h1 : partition_frame s s2)
    (h2 : partition_frame s2 s3) : partition_frame s s3 := by
  obtain ⟨a1, a2, a3, a4, a5⟩ := h1
  obtain ⟨b1, b2, b3, b4, b5⟩ := h2
  exact ⟨b1.trans a1, b2.trans a2, b3.trans a3, b4.trans a4, b5.trans a5⟩

theorem read_partitions_frame (count : Nat) (wstr astr : String) :
    ∀ (parts : List (String × JValue)) (k : Nat) (s s2 : JSONConfigBase) (m m2 : BeginToIdx),
      read_partitions count wstr astr parts k s m = .ok (s2, m2) →
      partition_frame s s2 ∧
      ((∀ p ∈ parts, ∀ info, p.2 = JValue.obj info → FindMember info "workspace" = none) →
        s2.m_workspaces = s.m_workspaces ∧
        s2.m_single_workspace_path = s.m_single_workspace_path) ∧
      ((∀ p ∈ parts, ∀ info, p.2 = JValue.obj info → FindMember info "array" = none) →
        s2.m_array_names = s.m_array_names ∧
        s2.m_single_array_name = s.m_single_array_name) := by
  intro parts
  induction parts with
  | nil =>
    intro k s s2 m m2 h
    simp only [read_partitions] at h
    cases h
    exact ⟨⟨rfl, rfl, rfl, rfl, rfl⟩, fun _ => ⟨rfl, rfl⟩, fun _ => ⟨rfl, rfl⟩⟩
  | cons p parts ih =>
    intro k s s2 m m2 h
    simp only [read_partitions] at h
    split at h
    · cases h
    · next sa ma hstep =>
      obtain ⟨f1, w1, a1⟩ := read_partition_frame _ _ _ _ _ _ _ _ _ hstep
      obtain ⟨f2, w2, a2⟩ := ih _ _ _ _ _ h
      refine ⟨partition_frame_trans _ _ _ f1 f2, ?_, ?_⟩
      · intro hno
        have h1 := w1 (hno p (List.mem_cons_self _ _))
        have h2 := w2 (fun q hq => hno q (List.mem_cons_of_mem _ hq))
        exact ⟨h2.1.trans h1.1, h2.2.trans h1.2⟩
      · intro hno
        have h1 := a1 (hno p (List.mem_cons_self _ _))
        have h2 := a2 (fun q hq => hno q (List.mem_cons_of_mem _ hq))
        exact ⟨h2.1.trans h1.1, h2.2.trans h1.2⟩

theorem read_column_partitions_frame (s s2 : JSONConfigBase) (dict : JValue)
    (h : read_column_partitions s dict = .ok s2) :
    partition_frame s s2 ∧
    ((∀ parts, dict = JValue.obj parts →
        ∀ p ∈ parts, ∀ info, p.2 = JValue.obj info → FindMember info "workspace" = none) →
      s2.m_workspaces = s.m_workspaces ∧
      s2.m_single_workspace_path = s.m_single_workspace_path) ∧
    ((∀ parts, dict = JValue.obj parts →
        ∀ p ∈ parts, ∀ info, p.2 = JValue.obj info → FindMember info "array" = none) →
      s2.m_array_names = s.m_array_names ∧
      s2.m_single_array_name = s.m_single_array_name) := by
  unfold read_column_partitions at h
  simp only at h
  split at h
  · next members =>
    split at h
    · cases h
    · cases h
    · next wstr astr _ _ =>
      split at h
      · cases h
      · next sa ma hloop =>
        split at h
        · cases h
        · next sorted cr _ =>
          cases h
          obtain ⟨f1, w1, a1⟩ := read_partitions_frame _ _ _ _ _ _ _ _ _ hloop
          obtain ⟨b1, b2, b3, b4, b5⟩ := f1
          refine ⟨⟨b1, b2, b3, b4, b5⟩, ?_, ?_⟩
          · intro hno
            exact w1 (hno members rfl)
          · intro hno
            exact a1 (hno members rfl)
  · cases h

theorem read_column_partitions_rows (s s2 : JSONConfigBase) (dict : JValue)
    (h : read_column_partitions s dict = .ok s2) : s2.m_row_ranges = s.m_row_ranges :=
  (read_column_partitions_frame s s2 dict h).1.2.2.2.1

/-! ## C5: interval normalisation -/

theorem read_partition_range_ordered (info : List (String × JValue)) (r : ColumnRange)
    (h : read_partition_range info = .ok r) : r.1 ≤ r.2 := by
  unfold read_partition_range at h
  split at h
  · cases h
  · split at h
    · cases h
    · split at h
      · cases h; exact swap_if_greater_le _
      · split at h
        · cases h
        · cases h; exact swap_if_greater_le _

theorem read_range_list_ordered :
    ∀ (inner : List JValue) (rs : List ColumnRange), read_range_list inner = .ok rs →
      ∀ r ∈ rs, r.1 ≤ r.2 := by
  intro inner
  induction inner with
  | nil => intro rs h r hr; cases h; cases hr
  | cons q3 rest ih =>
    intro rs h r hr
    simp only [read_range_list] at h
    split at h
    · cases h
    · next r0 h0 =>
      split at h
      · cases h
      · next rs0 hrs0 =>
        cases h
        rcases List.mem_cons.mp hr with rfl | hr
        · exact read_range_ordered q3 _ h0
        · exact ih rs0 hrs0 r hr

theorem read_range_lists_ordered :
    ∀ (outer : List JValue) (rss : List (List ColumnRange)), read_range_lists outer = .ok rss →
      ∀ rs ∈ rss, ∀ r ∈ rs, r.1 ≤ r.2 := by
  intro outer
  induction outer with
  | nil => intro rss h rs hrs; cases h; cases hrs
  | cons q2 rest ih =>
    intro rss h rs hrs
    simp only [read_range_lists] at h
    split at h
    · next inner =>
      split at h
      · cases h
      · next rs0 h0 =>
        split at h
        · cases h
        · next rss0 hrss0 =>
          cases h
          rcases List.mem_cons.mp hrs with rfl | hrs
          · exact read_range_list_ordered inner _ h0
          · exact ih rss0 hrss0 rs hrs
    · cases h

theorem has_member_true_ne_none {members : List (String × JValue)} {name : String}
    (h : HasMember members name = true) : FindMember members name ≠ none := by
  intro hn
  simp [HasMember, hn] at h

/-- C5. Interval normalisation: an interval `[a,b]` of `query_column_ranges` or
`query_row_ranges` is stored as `(b,a)` when `a > b` and as `(a,b)` otherwise, a scalar `v` as
`(v,v)`, and a partition's `begin`/`end` (a missing `end` being `INT64_MAX`) likewise; every
interval the normalisation stores has first <= second, in particular every interval of
`m_row_ranges`, and of `m_column_ranges` when it comes from `query_column_ranges`. -/
theorem interval_normalization :
    (∀ a b : Int, is_int64 a → is_int64 b →
      read_range (.arr [.int a, .int b]) = .ok (if a > b then (b, a) else (a, b))) ∧
    (∀ v : Int, is_int64 v → read_range (.int v) = .ok (v, v)) ∧
    (∀ (info : List (String × JValue)) (b : Int) (e : Option Int),
      FindMember info "begin" = some (JValue.int b) → is_int64 b →
      (match e with
        | none => FindMember info "end" = none
        | some x => FindMember info "end" = some (JValue.int x) ∧ is_int64 x) →
      read_partition_range info
        = .ok (if b > e.getD INT64_MAX then (e.getD INT64_MAX, b) else (b, e.getD INT64_MAX))) ∧
    (∀ (q3 : JValue) (r : ColumnRange), read_range q3 = .ok r → r.1 ≤ r.2) ∧
    (∀ (info : List (String × JValue)) (r : ColumnRange),
      read_partition_range info = .ok r → r.1 ≤ r.2) ∧
    (∀ (m_json : List (String × JValue)) (s : JSONConfigBase),
      JSONConfigBase.read_from_file JSONConfigBase.fresh (.obj m_json) = .ok s →
      (∀ rs ∈ s.m_row_ranges, ∀ r ∈ rs, r.1 ≤ r.2) ∧
      (HasMember m_json "query_column_ranges" = true →
        ∀ rs ∈ s.m_column_ranges, ∀ r ∈ rs, r.1 ≤ r.2)) := by
  refine ⟨?_, ?_, ?_, read_range_ordered, read_partition_range_ordered, ?_⟩
  · intro a b ha hb
    rw [read_range_pair a b ha hb]; rfl
  · exact read_range_scalar
  · intro info b e hb hb64 he
    have := read_partition_range_declared info (b, e) hb hb64 he
    rw [this]
    unfold normalized
    rw [← swap_if_greater_eq]; rfl
  · intro m_json s hok
    obtain ⟨members, s1, s2, s3, s4, hm, h1, h2, h3, h4, h5⟩ := read_from_file_ok _ _ _ hok
    cases hm
    obtain ⟨ws, f, e1⟩ := read_workspace_frame _ _ _ h1
    obtain ⟨ns, g, e2⟩ := read_array_frame _ _ _ h2
    obtain ⟨attrs, e5⟩ := read_query_attributes_frame _ _ _ h5
    constructor
    · intro rs hrs r hr
      rcases read_query_row_ranges_ok _ _ _ h4 with ⟨_, e4⟩ | ⟨outer, rss, _, hrss, e4⟩
      · have hrow : s.m_row_ranges = s3.m_row_ranges := by rw [e5, e4]
        rcases read_column_selection_ok _ _ _ h3 with ⟨_, e3⟩ | ⟨_, q1, _, hq⟩ | ⟨_, _, dict, _, hp⟩
        · rw [hrow, e3, e2, e1] at hrs
          cases hrs
        · obtain ⟨_, _, _, _, e3⟩ := read_query_column_ranges_ok _ _ _ hq
          rw [hrow, e3, e2, e1] at hrs
          cases hrs
        · exfalso
          have : s3.m_row_ranges = [] := by
            have hrows := read_column_partitions_rows _ _ _ hp
            rw [hrows, e2, e1]; rfl
          rw [hrow, this] at hrs
          cases hrs
      · have hrow : s.m_row_ranges = rss := by rw [e5, e4]
        rw [hrow] at hrs
        exact read_range_lists_ordered outer rss hrss rs hrs r hr
    · intro hq rs hrs r hr
      have hcol : s.m_column_ranges = s3.m_column_ranges := by
        rw [e5]
        rcases read_query_row_ranges_ok _ _ _ h4 with ⟨_, e4⟩ | ⟨_, _, _, _, e4⟩ <;> rw [e4]
      rcases read_column_selection_ok _ _ _ h3 with ⟨_, e3⟩ | ⟨_, q1, _, hq1⟩ | ⟨_, hnone, _⟩
      · rw [hcol, e3, e2, e1] at hrs
        cases hrs
      · obtain ⟨outer, rss, _, hrss, e3⟩ := read_query_column_ranges_ok _ _ _ hq1
        rw [hcol, e3] at hrs
        exact read_range_lists_ordered outer rss hrss rs hrs r hr
      · exact absurd hnone (has_member_true_ne_none hq)

/-- Witness of C5: the partition `{"begin":100,"end":50}` of Scenario B is stored as `[50,100]`,
by the normalisation step and in the state after the load. -/
theorem interval_normalization_witness :
    read_partition_range [("begin", .int 100), ("end", .int 50)] = .ok (50, 100) ∧
    JSONConfigBase.read_from_file JSONConfigBase.fresh (.obj scenario_b_document)
      = .ok { JSONConfigBase.fresh with
              m_column_partitions_specified := true
              m_column_ranges := [[(50, 100)]]
              m_sorted_column_partitions := [(50, 100)] } :=
  ⟨interval_normalization.2.2.1 [("begin", .int 100), ("end", .int 50)] 100 (some 50) rfl
    (by decide) ⟨rfl, by decide⟩, rfl⟩

/-! ## C6: the column selector check -/

theorem GetInt64_error (v : JValue) (e : RunError) (h : v.GetInt64 = .error e) :
    e = .json_assert := by
  cases v <;> simp only [JValue.GetInt64] at h
  all_goals first | (cases h; rfl) | skip
  split at h
  · cases h
  · cases h; rfl

theorem GetString_error (v : JValue) (e : RunError) (h : v.GetString = .error e) :
    e = .json_assert := by
  cases v <;> simp only [JValue.GetString] at h
  all_goals first | (cases h; rfl) | skip
  all_goals cases h

theorem read_range_error (q3 : JValue) (e : RunError) (h : read_range q3 = .error e) :
    selector_error e = false := by
  unfold read_range at h
  split at h
  · split at h
    · next q30 q31 =>
      split at h
      · split at h
        · cases ha : q30.GetInt64 with
          | error x =>
            rw [ha] at h
            simp only at h
            cases h
            rw [GetInt64_error _ _ ha]; rfl
          | ok a =>
            cases hb : q31.GetInt64 with
            | error x =>
              rw [ha, hb] at h
              simp only at h
              cases h
              rw [GetInt64_error _ _ hb]; rfl
            | ok b =>
              rw [ha, hb] at h
              simp only at h
              cases h
        · cases h; rfl
      · cases h; rfl
    · cases h; rfl
  · split at h
    · cases ha : q3.GetInt64 with
      | error x =>
        rw [ha] at h
        simp only at h
        cases h
        rw [GetInt64_error _ _ ha]; rfl
      | ok a =>
        rw [ha] at h
        simp only at h
        cases h
    · cases h; rfl

theorem read_range_list_error :
    ∀ (inner : List JValue) (e : RunError), read_range_list inner = .error e →
      selector_error e = false := by
  intro inner
  induction inner with
  | nil => intro e h; cases h
  | cons q3 rest ih =>
    intro e h
    simp only [read_range_list] at h
    split at h
    · next err herr => cases h; exact read_range_error q3 _ herr
    · split at h
      · next err herr => cases h; exact ih _ herr
      · cases h

theorem read_range_lists_error :
    ∀ (outer : List JValue) (e : RunError), read_range_lists outer = .error e →
      selector_error e = false := by
  intro outer
  induction outer with
  | nil => intro e h; cases h
  | cons q2 rest ih =>
    intro e h
    simp only [read_range_lists] at h
    split at h
    · next inner =>
      split at h
      · next err herr => cases h; exact read_range_list_error inner _ herr
      · split at h
        · next err herr => cases h; exact ih _ herr
        · cases h
    · cases h; rfl

theorem read_query_column_ranges_error (s : JSONConfigBase) (q1 : JValue) (e : RunError)
    (h : read_query_column_ranges s q1 = .error e) : selector_error e = false := by
  unfold read_query_column_ranges at h
  split at h
  · split at h
    · next err herr => cases h; exact read_range_lists_error _ _ herr
    · cases h
  · cases h; rfl

theorem read_partition_range_error (info : List (String × JValue)) (e : RunError)
    (h : read_partition_range info = .error e) : selector_error e = false := by
  unfold read_partition_range at h
  split at h
  · cases h; rfl
  · split at h
    · next err herr => cases h; rw [GetInt64_error _ _ herr]; rfl
    · split at h
      · cases h
      · split at h
        · next err herr => cases h; rw [GetInt64_error _ _ herr]; rfl
        · cases h

theorem override_workspace_error (count : Nat) (wstr : String) (idx : Nat)
    (info : List (String × JValue)) (s : JSONConfigBase) (e : RunError)
    (h : override_workspace count wstr idx info s = .error e) : selector_error e = false := by
  unfold override_workspace at h
  split at h
  · cases h
  · simp only at h
    split at h
    · next err herr => cases h; rw [GetString_error _ _ herr]; rfl
    · cases h

theorem override_array_error (count : Nat) (astr : String) (idx : Nat)
    (info : List (String × JValue)) (s : JSONConfigBase) (e : RunError)
    (h : override_array count astr idx info s = .error e) : selector_error e = false := by
  unfold override_array at h
  split at h
  · cases h
  · simp only at h
    split at h
    · next err herr => cases h; rw [GetString_error _ _ herr]; rfl
    · cases h

theorem read_partition_error (count : Nat) (wstr astr : String) (idx : Nat) (v : JValue)
    (s : JSONConfigBase) (m : BeginToIdx) (e : RunError)
    (h : read_partition count wstr astr idx v s m = .error e) : selector_error e = false := by
  unfold read_partition at h
  split at h
  · split at h
    · split at h
      · next err herr => cases h; exact read_partition_range_error _ _ herr
      · simp only at h
        split at h
        · next err herr => cases h; exact override_workspace_error _ _ _ _ _ _ herr
        · split at h
          · next err herr => cases h; exact override_array_error _ _ _ _ _ _ herr
          · cases h
    · cases h; rfl
  · cases h; rfl

theorem read_partitions_error (count : Nat) (wstr astr : String) :
    ∀ (parts : List (String × JValue)) (k : Nat) (s : JSONConfigBase) (m : BeginToIdx)
      (e : RunError), read_partitions count wstr astr parts k s m = .error e →
      selector_error e = false := by
  intro parts
  induction parts with
  | nil => intro k s m e h; cases h
  | cons p parts ih =>
    intro k s m e h
    simp only [read_partitions] at h
    split at h
    · next err herr => cases h; exact read_partition_error _ _ _ _ _ _ _ _ herr
    · exact ih _ _ _ _ h

theorem clamp_partitions_error (m : BeginToIdx) :
    ∀ (l : List ColumnRange) (cr : List (List ColumnRange)) (e : RunError),
      clamp_partitions m l cr = .error e → selector_error e = false := by
  intro l
  induction l with
  | nil => intro cr e h; simp [clamp_partitions] at h
  | cons p l ih =>
    intro cr e h
    cases l with
    | nil => simp [clamp_partitions] at h
    | cons q rest =>
      rw [clamp_partitions] at h
      split at h
      · simp only at h
        split at h
        · next err herr => cases h; exact ih _ _ herr
        · cases h
      · cases h; rfl

theorem first_or_empty_error (single : Bool) (v : List String) (e : RunError)
    (h : first_or_empty single v = .error e) : selector_error e = false := by
  unfold first_or_empty at h
  split at h
  · split at h
    · cases h
    · cases h; rfl
  · cases h

theorem read_column_partitions_error (s : JSONConfigBase) (dict : JValue) (e : RunError)
    (h : read_column_partitions s dict = .error e) : selector_error e = false := by
  unfold read_column_partitions at h
  simp only at h
  split at h
  · cases hw : first_or_empty s.m_single_workspace_path s.m_workspaces with
    | error x =>
      rw [hw] at h
      simp only at h
      cases h
      exact first_or_empty_error _ _ _ hw
    | ok wstr =>
      cases ha : first_or_empty s.m_single_array_name s.m_array_names with
      | error x =>
        rw [hw, ha] at h
        simp only at h
        cases h
        exact first_or_empty_error _ _ _ ha
      | ok astr =>
        rw [hw, ha] at h
        simp only at h
        split at h
        · next err herr => cases h; exact read_partitions_error _ _ _ _ _ _ _ _ herr
        · split at h
          · next err herr => cases h; exact clamp_partitions_error _ _ _ _ herr
          · cases h
  · cases h; rfl

theorem read_query_row_ranges_error (s : JSONConfigBase) (m_json : List (String × JValue))
    (e : RunError) (h : read_query_row_ranges s m_json = .error e) :
    selector_error e = false := by
  unfold read_query_row_ranges at h
  split at h
  · cases h
  · split at h
    · split at h
      · next err herr => cases h; exact read_range_lists_error _ _ herr
      · cases h
    · cases h; rfl

theorem read_attribute_list_error :
    ∀ (elems : List JValue) (e : RunError), read_attribute_list elems = .error e →
      selector_error e = false := by
  intro elems
  induction elems with
  | nil => intro e h; cases h
  | cons q2 rest ih =>
    intro e h
    simp only [read_attribute_list] at h
    split at h
    · cases hg : q2.GetString with
      | error x =>
        rw [hg] at h
        simp only at h
        cases h
        rw [GetString_error _ _ hg]; rfl
      | ok a =>
        cases hr : read_attribute_list rest with
        | error x =>
          rw [hg, hr] at h
          simp only at h
          cases h
          exact ih _ hr
        | ok b =>
          rw [hg, hr] at h
          simp only at h
          cases h
    · cases h; rfl

theorem read_query_attributes_error (s : JSONConfigBase) (m_json : List (String × JValue))
    (e : RunError) (h : read_query_attributes s m_json = .error e) :
    selector_error e = false := by
  unfold read_query_attributes at h
  split at h
  · cases h
  · split at h
    · split at h
      · next err herr => cases h; exact read_attribute_list_error _ _ herr
      · cases h
    · cases h; rfl

theorem read_column_selection_none (s : JSONConfigBase) (m_json : List (String × JValue))
    (hs : HasMember m_json "scan_full" = false)
    (hq : HasMember m_json "query_column_ranges" = false)
    (hc : HasMember m_json "column_partitions" = false) :
    read_column_selection s m_json = .error .no_column_selector := by
  simp [read_column_selection, hs, hq, hc]

theorem read_column_selection_both (s : JSONConfigBase) (m_json : List (String × JValue))
    (hs : HasMember m_json "scan_full" = false)
    (hq : HasMember m_json "query_column_ranges" = true)
    (hc : HasMember m_json "column_partitions" = true) :
    read_column_selection s m_json = .error .ranges_and_partitions := by
  simp [read_column_selection, hs, hq, hc]

theorem read_column_selection_scan_full (s : JSONConfigBase) (m_json : List (String × JValue))
    (hs : HasMember m_json "scan_full" = true) :
    read_column_selection s m_json = .ok { s with m_scan_whole_array := true } := by
  simp [read_column_selection, hs]

theorem read_column_selection_selector_error (s : JSONConfigBase)
    (m_json : List (String × JValue)) (e : RunError)
    (h : read_column_selection s m_json = .error e) (he : selector_error e = true) :
    (e = .no_column_selector ∧ HasMember m_json "scan_full" = false ∧
      HasMember m_json "query_column_ranges" = false ∧
      HasMember m_json "column_partitions" = false) ∨
    (e = .ranges_and_partitions ∧ HasMember m_json "scan_full" = false ∧
      HasMember m_json "query_column_ranges" = true ∧
      HasMember m_json "column_partitions" = true) := by
  unfold read_column_selection at h
  split at h
  · split at h
    · cases h
    · next hscan =>
      split at h
      · split at h
        · have := read_query_column_ranges_error _ _ _ h
          rw [this] at he; cases he
        · split at h
          · have := read_column_partitions_error _ _ _ h
            rw [this] at he; cases he
          · cases h; cases he
      · next hboth =>
        cases h
        right
        simp only [Bool.or_eq_true, Bool.not_eq_true', not_or, Bool.not_eq_false] at hboth
        exact ⟨rfl, by simpa using hscan, hboth.1, hboth.2⟩
  · next hnone =>
    cases h
    left
    simp only [Bool.or_eq_true, not_or, Bool.not_eq_true] at hnone
    exact ⟨rfl, hnone.2, hnone.1.1, hnone.1.2⟩

theorem read_from_file_selector_error (s s1 s2 : JSONConfigBase)
    (m_json : List (String × JValue)) (e : RunError)
    (h1 : read_workspace s m_json = .ok s1) (h2 : read_array s1 m_json = .ok s2)
    (h : JSONConfigBase.read_from_file s (.obj m_json) = .error e)
    (he : selector_error e = true) :
    read_column_selection s2 m_json = .error e := by
  simp only [JSONConfigBase.read_from_file, h1, h2] at h
  split at h
  · next err herr => cases h; exact herr
  · split at h
    · next err herr =>
      cases h
      have := read_query_row_ranges_error _ _ _ herr
      rw [this] at he; cases he
    · have := read_query_attributes_error _ _ _ h
      rw [this] at he; cases he

/-- C6, amended. The column selector check: once `workspace` and `array` have been read, the load
fails with the missing-selector error exactly when none of `scan_full`,
`query_column_ranges`, `column_partitions` is present, and with the conflicting-selectors error
exactly when `query_column_ranges` and `column_partitions` are both present and `scan_full` is
absent; whenever `scan_full` is present the column selection succeeds, sets
`m_scan_whole_array` and reads neither of the other two, whether or not they are present. -/
theorem column_selector_check (s s1 s2 : JSONConfigBase) (m_json : List (String × JValue))
    (h1 : read_workspace s m_json = .ok s1) (h2 : read_array s1 m_json = .ok s2) :
    (JSONConfigBase.read_from_file s (.obj m_json) = .error .no_column_selector ↔
      (HasMember m_json "scan_full" = false ∧ HasMember m_json "query_column_ranges" = false ∧
        HasMember m_json "column_partitions" = false)) ∧
    (JSONConfigBase.read_from_file s (.obj m_json) = .error .ranges_and_partitions ↔
      (HasMember m_json "scan_full" = false ∧ HasMember m_json "query_column_ranges" = true ∧
        HasMember m_json "column_partitions" = true)) ∧
    (HasMember m_json "scan_full" = true →
      read_column_selection s2 m_json = .ok { s2 with m_scan_whole_array := true }) := by
  refine ⟨⟨?_, ?_⟩, ⟨?_, ?_⟩, read_column_selection_scan_full s2 m_json⟩
  · intro h
    have hsel := read_from_file_selector_error s s1 s2 m_json _ h1 h2 h rfl
    rcases read_column_selection_selector_error _ _ _ hsel rfl with ⟨_, hh⟩ | ⟨hne, _⟩
    · exact hh
    · cases hne
  · intro ⟨hs, hq, hc⟩
    simp only [JSONConfigBase.read_from_file, h1, h2,
      read_column_selection_none s2 m_json hs hq hc]
  · intro h
    have hsel := read_from_file_selector_error s s1 s2 m_json _ h1 h2 h rfl
    rcases read_column_selection_selector_error _ _ _ hsel rfl with ⟨hne, _⟩ | ⟨_, hh⟩
    · cases hne
    · exact hh
  · intro ⟨hs, hq, hc⟩
    simp only [JSONConfigBase.read_from_file, h1, h2,
      read_column_selection_both s2 m_json hs hq hc]

/-- Counterexample to C6 as stated: `scan_and_ranges_document` has both `scan_full` and
`query_column_ranges`, and the load succeeds; the ranges are not read. -/
theorem scan_full_with_ranges_counterexample :
    HasMember scan_and_ranges_document "scan_full" = true ∧
    HasMember scan_and_ranges_document "query_column_ranges" = true ∧
    JSONConfigBase.read_from_file JSONConfigBase.fresh (.obj scan_and_ranges_document)
      = .ok { JSONConfigBase.fresh with m_scan_whole_array := true } :=
  ⟨rfl, rfl, rfl⟩

/-- Witness of the amended C6: with all three selectors present the check passes. -/
theorem column_selector_check_witness :
    (JSONConfigBase.read_from_file JSONConfigBase.fresh (.obj three_selectors_document)
        = .error .no_column_selector ↔
      (HasMember three_selectors_document "scan_full" = false ∧
        HasMember three_selectors_document "query_column_ranges" = false ∧
        HasMember three_selectors_document "column_partitions" = false)) ∧
    (JSONConfigBase.read_from_file JSONConfigBase.fresh (.obj three_selectors_document)
        = .error .ranges_and_partitions ↔
      (HasMember three_selectors_document "scan_full" = false ∧
        HasMember three_selectors_document "query_column_ranges" = true ∧
        HasMember three_selectors_document "column_partitions" = true)) ∧
    (HasMember three_selectors_document "scan_full" = true →
      read_column_selection
          { JSONConfigBase.fresh with m_workspaces := ["ws"], m_single_workspace_path := true }
          three_selectors_document
        = .ok { JSONConfigBase.fresh with
                m_workspaces := ["ws"], m_single_workspace_path := true
                m_scan_whole_array := true }) :=
  column_selector_check JSONConfigBase.fresh
    { JSONConfigBase.fresh with m_workspaces := ["ws"], m_single_workspace_path := true }
    { JSONConfigBase.fresh with m_workspaces := ["ws"], m_single_workspace_path := true }
    three_selectors_document rfl rfl

/-! ## C7: the rank bound check of `get_workspace` and `get_array_name` -/

theorem read_column_selection_keeps_workspace (s s2 : JSONConfigBase)
    (m_json : List (String × JValue)) (h : read_column_selection s m_json = .ok s2)
    (hno : NoOverride m_json "workspace") :
    s2.m_workspaces = s.m_workspaces ∧
    s2.m_single_workspace_path = s.m_single_workspace_path := by
  rcases read_column_selection_ok _ _ _ h with ⟨_, e⟩ | ⟨_, q1, _, hq⟩ | ⟨_, _, dict, hd, hp⟩
  · rw [e]; exact ⟨rfl, rfl⟩
  · obtain ⟨_, _, _, _, e⟩ := read_query_column_ranges_ok _ _ _ hq
    rw [e]; exact ⟨rfl, rfl⟩
  · apply (read_column_partitions_frame _ _ _ hp).2.1
    intro parts hparts
    rw [hparts] at hd
    exact hno parts hd

theorem read_column_selection_keeps_array (s s2 : JSONConfigBase)
    (m_json : List (String × JValue)) (h : read_column_selection s m_json = .ok s2)
    (hno : NoOverride m_json "array") :
    s2.m_array_names = s.m_array_names ∧ s2.m_single_array_name = s.m_single_array_name := by
  rcases read_column_selection_ok _ _ _ h with ⟨_, e⟩ | ⟨_, q1, _, hq⟩ | ⟨_, _, dict, hd, hp⟩
  · rw [e]; exact ⟨rfl, rfl⟩
  · obtain ⟨_, _, _, _, e⟩ := read_query_column_ranges_ok _ _ _ hq
    rw [e]; exact ⟨rfl, rfl⟩
  · apply (read_column_partitions_frame _ _ _ hp).2.2
    intro parts hparts
    rw [hparts] at hd
    exact hno parts hd

theorem read_rows_attributes_frame (s3 s4 s5 : JSONConfigBase) (m_json : List (String × JValue))
    (h4 : read_query_row_ranges s3 m_json = .ok s4)
    (h5 : read_query_attributes s4 m_json = .ok s5) :
    s5.m_workspaces = s3.m_workspaces ∧
    s5.m_single_workspace_path = s3.m_single_workspace_path ∧
    s5.m_array_names = s3.m_array_names ∧
    s5.m_single_array_name = s3.m_single_array_name ∧
    s5.m_column_ranges = s3.m_column_ranges ∧
    s5.m_single_query_column_ranges_vector = s3.m_single_query_column_ranges_vector ∧
    s5.m_scan_whole_array = s3.m_scan_whole_array ∧
    s5.m_row_ranges = s4.m_row_ranges ∧
    s5.m_single_query_row_ranges_vector = s4.m_single_query_row_ranges_vector := by
  obtain ⟨attrs, e5⟩ := read_query_attributes_frame _ _ _ h5
  rcases read_query_row_ranges_ok _ _ _ h4 with ⟨_, e4⟩ | ⟨_, _, _, _, e4⟩ <;>
    (rw [e5, e4]; exact ⟨rfl, rfl, rfl, rfl, rfl, rfl, rfl, rfl, rfl⟩)

theorem load_keeps_workspace (s0 s : JSONConfigBase) (m_json : List (String × JValue))
    (hok : JSONConfigBase.read_from_file s0 (.obj m_json) = .ok s)
    (hno : NoOverride m_json "workspace") :
    ∃ s1, read_workspace s0 m_json = .ok s1 ∧ s.m_workspaces = s1.m_workspaces ∧
      s.m_single_workspace_path = s1.m_single_workspace_path := by
  obtain ⟨members, s1, s2, s3, s4, hm, h1, h2, h3, h4, h5⟩ := read_from_file_ok _ _ _ hok
  cases hm
  obtain ⟨ns, g, e2⟩ := read_array_frame _ _ _ h2
  obtain ⟨k1, k2⟩ := read_column_selection_keeps_workspace _ _ _ h3 hno
  obtain ⟨f1, f2, _⟩ := read_rows_attributes_frame _ _ _ _ h4 h5
  refine ⟨s1, h1, ?_, ?_⟩
  · rw [f1, k1, e2]
  · rw [f2, k2, e2]

theorem load_keeps_array (s0 s : JSONConfigBase) (m_json : List (String × JValue))
    (hok : JSONConfigBase.read_from_file s0 (.obj m_json) = .ok s)
    (hno : NoOverride m_json "array") :
    ∃ s1 s2, read_workspace s0 m_json = .ok s1 ∧ read_array s1 m_json = .ok s2 ∧
      s.m_array_names = s2.m_array_names ∧ s.m_single_array_name = s2.m_single_array_name := by
  obtain ⟨members, s1, s2, s3, s4, hm, h1, h2, h3, h4, h5⟩ := read_from_file_ok _ _ _ hok
  cases hm
  obtain ⟨k1, k2⟩ := read_column_selection_keeps_array _ _ _ h3 hno
  obtain ⟨_, _, f3, f4, _⟩ := read_rows_attributes_frame _ _ _ _ h4 h5
  refine ⟨s1, s2, h1, h2, ?_, ?_⟩
  · rw [f3, k1]
  · rw [f4, k2]

theorem get_workspace_per_rank (s : JSONConfigBase) (strs : List String)
    (hw : s.m_workspaces = strs) (hf : s.m_single_workspace_path = false)
    (hlen : (strs.length : Int) ≤ INT64_MAX) :
    (∀ r : Int, is_int r → (r < 0 ∨ (strs.length : Int) ≤ r) →
      s.get_workspace r = .error .workspace_rank) ∧
    (∀ (k : Nat) (w : String), strs.get? k = some w → s.get_workspace (k : Int) = .ok w) := by
  unfold INT64_MAX at hlen
  constructor
  · intro r hr hout
    unfold is_int at hr
    have : ¬ (to_size_t r < strs.length) := by
      unfold to_size_t
      omega
    simp [JSONConfigBase.get_workspace, hf, hw, this]
  · intro k w hk
    have hklt : k < strs.length := by
      by_contra hc
      rw [List.get?_eq_none.mpr (by omega)] at hk
      cases hk
    have hto : to_size_t (k : Int) = k := by
      unfold to_size_t
      omega
    simp [JSONConfigBase.get_workspace, hf, hw, hto, hklt]
    simp only [List.get?_eq_getElem?] at hk
    rw [List.getElem?_eq_getElem hklt] at hk
    rw [Option.some.inj hk]

theorem get_array_name_per_rank (s : JSONConfigBase) (strs : List String)
    (hw : s.m_array_names = strs) (hf : s.m_single_array_name = false)
    (hlen : (strs.length : Int) ≤ INT64_MAX) :
    (∀ r : Int, is_int r → (r < 0 ∨ (strs.length : Int) ≤ r) →
      s.get_array_name r = .error .array_rank) ∧
    (∀ (k : Nat) (w : String), strs.get? k = some w → s.get_array_name (k : Int) = .ok w) := by
  unfold INT64_MAX at hlen
  constructor
  · intro r hr hout
    unfold is_int at hr
    have : ¬ (to_size_t r < strs.length) := by
      unfold to_size_t
      omega
    simp [JSONConfigBase.get_array_name, hf, hw, this]
  · intro k w hk
    have hklt : k < strs.length := by
      by_contra hc
      rw [List.get?_eq_none.mpr (by omega)] at hk
      cases hk
    have hto : to_size_t (k : Int) = k := by
      unfold to_size_t
      omega
    simp [JSONConfigBase.get_array_name, hf, hw, hto, hklt]
    simp only [List.get?_eq_getElem?] at hk
    rw [List.getElem?_eq_getElem hklt] at hk
    rw [Option.some.inj hk]

theorem read_workspace_of_array (s : JSONConfigBase) (m_json : List (String × JValue))
    (strs : List String)
    (h : FindMember m_json "workspace" = some (JValue.arr (strs.map JValue.str))) :
    read_workspace s m_json = .ok { s with m_workspaces := s.m_workspaces ++ strs } := by
  simp only [read_workspace, h, push_strings_of_strings]

theorem read_array_of_array (s : JSONConfigBase) (m_json : List (String × JValue))
    (strs : List String)
    (h : FindMember m_json "array" = some (JValue.arr (strs.map JValue.str))) :
    read_array s m_json = .ok { s with m_array_names := s.m_array_names ++ strs } := by
  simp only [read_array, h, push_strings_of_strings]

/-- C7. Rank bound check: after a successful load into a fresh object of a document whose
`workspace` (resp. `array`) is an array of `n` strings that no partition overrides,
`get_workspace(r)` (resp. `get_array_name(r)`) fails for every rank `r >= n` and every negative
`r`, and returns element `r` for `0 <= r < n`; a one-element array is such a list with `n = 1`.
The rank is a C `int` and `n` is the size of a vector (at most `PTRDIFF_MAX`). -/
theorem per_rank_bound_check (m_json : List (String × JValue)) (s : JSONConfigBase)
    (hok : JSONConfigBase.read_from_file JSONConfigBase.fresh (.obj m_json) = .ok s)
    (strs : List String) (hlen : (strs.length : Int) ≤ INT64_MAX) :
    (FindMember m_json "workspace" = some (JValue.arr (strs.map JValue.str)) →
      NoOverride m_json "workspace" →
      (∀ r : Int, is_int r → (r < 0 ∨ (strs.length : Int) ≤ r) →
        s.get_workspace r = .error .workspace_rank) ∧
      (∀ (k : Nat) (w : String), strs.get? k = some w → s.get_workspace (k : Int) = .ok w)) ∧
    (FindMember m_json "array" = some (JValue.arr (strs.map JValue.str)) →
      NoOverride m_json "array" →
      (∀ r : Int, is_int r → (r < 0 ∨ (strs.length : Int) ≤ r) →
        s.get_array_name r = .error .array_rank) ∧
      (∀ (k : Nat) (w : String), strs.get? k = some w → s.get_array_name (k : Int) = .ok w)) := by
  constructor
  · intro hfind hno
    obtain ⟨s1, h1, hw, hf⟩ := load_keeps_workspace _ _ _ hok hno
    rw [read_workspace_of_array _ _ strs hfind] at h1
    have e1 := Except.ok.inj h1
    apply get_workspace_per_rank s strs _ _ hlen
    · rw [hw, ← e1]; rfl
    · rw [hf, ← e1]; rfl
  · intro hfind hno
    obtain ⟨s1, s2, h1, h2, hw, hf⟩ := load_keeps_array _ _ _ hok hno
    obtain ⟨ws, f, e1⟩ := read_workspace_frame _ _ _ h1
    rw [read_array_of_array _ _ strs hfind] at h2
    have e2 := Except.ok.inj h2
    apply get_array_name_per_rank s strs _ _ hlen
    · rw [hw, ← e2, e1]; rfl
    · rw [hf, ← e2, e1]; rfl

theorem per_rank_document_no_override (name : String) (hname : "begin" ≠ name) :
    NoOverride per_rank_document name := by
  intro parts h p hp info hinfo
  have hparts : parts = [("0", JValue.obj [("begin", JValue.int 0)]),
      ("1", JValue.obj [("begin", JValue.int 10)])] := by
    simp [per_rank_document, FindMember] at h
    exact h.symm
  subst hparts
  simp only [List.mem_cons, List.mem_singleton, List.not_mem_nil, or_false] at hp
  rcases hp with rfl | rfl
  · simp only [JValue.obj.injEq] at hinfo
    subst hinfo
    simp [FindMember, hname]
  · simp only [JValue.obj.injEq] at hinfo
    subst hinfo
    simp [FindMember, hname]

/-- Witness of C7: `per_rank_document` has a two-element `workspace` list; rank 1 gets its second
element, and ranks 2 and -1 fail. -/
theorem per_rank_bound_check_witness :
    JSONConfigBase.read_from_file JSONConfigBase.fresh (.obj per_rank_document)
      = .ok per_rank_loaded ∧
    per_rank_loaded.get_workspace 1 = .ok "w1" ∧
    per_rank_loaded.get_workspace 2 = .error .workspace_rank ∧
    per_rank_loaded.get_workspace (-1) = .error .workspace_rank :=
  ⟨rfl,
   ((per_rank_bound_check per_rank_document per_rank_loaded rfl ["w0", "w1"] (by decide)).1 rfl
      (per_rank_document_no_override "workspace" (by decide))).2 1 "w1" rfl,
   ((per_rank_bound_check per_rank_document per_rank_loaded rfl ["w0", "w1"] (by decide)).1 rfl
      (per_rank_document_no_override "workspace" (by decide))).1 2 (by decide)
      (Or.inr (by decide)),
   ((per_rank_bound_check per_rank_document per_rank_loaded rfl ["w0", "w1"] (by decide)).1 rfl
      (per_rank_document_no_override "workspace" (by decide))).1 (-1) (by decide)
      (Or.inl (by decide))⟩

/-! ## C8: the single-value shorthand -/

/-- Counterexample to C8 as stated: in `override_document` the `workspace` is the bare string
`"W"`, yet after the load `get_workspace(0)` returns the override `"X"` of partition 0 and
`get_workspace(1)` fails. -/
theorem bare_workspace_overridden_counterexample :
    FindMember override_document "workspace" = some (JValue.str "W") ∧
    JSONConfigBase.read_from_file JSONConfigBase.fresh (.obj override_document)
      = .ok override_loaded ∧
    override_loaded.get_workspace 0 = .ok "X" ∧
    override_loaded.get_workspace 1 = .error .workspace_rank :=
  ⟨rfl, rfl, rfl, rfl⟩

theorem load_column_selection (s0 s : JSONConfigBase) (m_json : List (String × JValue))
    (hok : JSONConfigBase.read_from_file s0 (.obj m_json) = .ok s) :
    ∃ s2 s3, read_column_selection s2 m_json = .ok s3 ∧
      s2.m_single_query_column_ranges_vector = s0.m_single_query_column_ranges_vector ∧
      s2.m_column_ranges = s0.m_column_ranges ∧
      s2.m_scan_whole_array = s0.m_scan_whole_array ∧
      s.m_column_ranges = s3.m_column_ranges ∧
      s.m_single_query_column_ranges_vector = s3.m_single_query_column_ranges_vector ∧
      s.m_scan_whole_array = s3.m_scan_whole_array := by
  obtain ⟨members, s1, s2, s3, s4, hm, h1, h2, h3, h4, h5⟩ := read_from_file_ok _ _ _ hok
  cases hm
  obtain ⟨ws, f, e1⟩ := read_workspace_frame _ _ _ h1
  obtain ⟨ns, g, e2⟩ := read_array_frame _ _ _ h2
  obtain ⟨_, _, _, _, f5, f6, f7, _, _⟩ := read_rows_attributes_frame _ _ _ _ h4 h5
  refine ⟨s2, s3, h3, ?_, ?_, ?_, f5, f6, f7⟩ <;> rw [e2, e1]

/-- C8, amended. The single-value shorthand resolves identically for every rank: after a
successful load into a fresh object, a `workspace` (resp. `array`) given as a bare string that no
column partition overrides is what `get_workspace(r)` (resp. `get_array_name(r)`) returns for
every rank `r`; and when `query_column_ranges` (resp. `query_row_ranges`) has exactly one outer
element, the column step of the assembler and `get_column_partition` (resp. the row step) do for
every rank `r` what they do for rank 0. -/
theorem single_value_shorthand (m_json : List (String × JValue)) (s : JSONConfigBase)
    (hok : JSONConfigBase.read_from_file JSONConfigBase.fresh (.obj m_json) = .ok s) :
    (∀ W : String, FindMember m_json "workspace" = some (JValue.str W) →
      NoOverride m_json "workspace" → ∀ r : Int, s.get_workspace r = .ok W) ∧
    (∀ A : String, FindMember m_json "array" = some (JValue.str A) →
      NoOverride m_json "array" → ∀ r : Int, s.get_array_name r = .ok A) ∧
    (∀ q2 : JValue, FindMember m_json "query_column_ranges" = some (JValue.arr [q2]) →
      ∀ (r : Int) (query_config : VariantQueryConfig) (idx : Nat),
        add_query_columns s r query_config = add_query_columns s 0 query_config ∧
        s.get_column_partition r idx = s.get_column_partition 0 idx) ∧
    (∀ q2 : JValue, FindMember m_json "query_row_ranges" = some (JValue.arr [q2]) →
      ∀ (alloc : Allocator) (r : Int) (query_config : VariantQueryConfig),
        set_query_rows alloc s r query_config = set_query_rows alloc s 0 query_config) := by
  refine ⟨?_, ?_, ?_, ?_⟩
  · intro W hfind hno r
    obtain ⟨s1, h1, hw, hf⟩ := load_keeps_workspace _ _ _ hok hno
    have e1 : s1 = { JSONConfigBase.fresh with
        m_workspaces := [W], m_single_workspace_path := true } := by
      simp [read_workspace, hfind, JValue.IsString, JValue.GetString] at h1
      rw [← h1]; rfl
    have hw2 : s.m_workspaces = [W] := by rw [hw, e1]
    have hf2 : s.m_single_workspace_path = true := by rw [hf, e1]
    simp [JSONConfigBase.get_workspace, hw2, hf2]
  · intro A hfind hno r
    obtain ⟨s1, s2, h1, h2, hw, hf⟩ := load_keeps_array _ _ _ hok hno
    obtain ⟨ws, f, e1⟩ := read_workspace_frame _ _ _ h1
    have e2 : s2 = { s1 with
        m_array_names := s1.m_array_names ++ [A], m_single_array_name := true } := by
      simp [read_array, hfind, JValue.IsString, JValue.GetString] at h2
      rw [← h2]
    have hw2 : s.m_array_names = [A] := by rw [hw, e2, e1]; rfl
    have hf2 : s.m_single_array_name = true := by rw [hf, e2]
    simp [JSONConfigBase.get_array_name, hw2, hf2]
  · intro q2 hfind r query_config idx
    obtain ⟨s2, s3, h3, b1, b2, b3, c1, c2, c3⟩ := load_column_selection _ _ _ hok
    rcases read_column_selection_ok _ _ _ h3 with ⟨_, e⟩ | ⟨_, q1, hq1, hq⟩ | ⟨_, hnone, _⟩
    · have hscan : s.m_scan_whole_array = true := by rw [c3, e]
      have hcr : s.m_column_ranges = [] := by rw [c1, e]; exact b2
      constructor
      · simp [add_query_columns, hscan]
      · simp [JSONConfigBase.get_column_partition, hcr]
    · rw [hfind] at hq1
      cases hq1
      obtain ⟨outer, rss, ho, _, e⟩ := read_query_column_ranges_ok _ _ _ hq
      cases ho
      have hflag : s.m_single_query_column_ranges_vector = true := by rw [c2, e]; rfl
      constructor
      · simp [add_query_columns, hflag]
      · simp [JSONConfigBase.get_column_partition, hflag]
    · rw [hfind] at hnone; cases hnone
  · intro q2 hfind alloc r query_config
    obtain ⟨members, s1, s2, s3, s4, hm, h1, h2, h3, h4, h5⟩ := read_from_file_ok _ _ _ hok
    cases hm
    obtain ⟨_, _, _, _, _, _, _, _, f9⟩ := read_rows_attributes_frame _ _ _ _ h4 h5
    rcases read_query_row_ranges_ok _ _ _ h4 with ⟨hnone, _⟩ | ⟨outer, rss, ho, _, e⟩
    · rw [hfind] at hnone; cases hnone
    · rw [hfind] at ho
      cases ho
      have hflag : s.m_single_query_row_ranges_vector = true := by rw [f9, e]; rfl
      simp [set_query_rows, hflag]

/-- Witness of the amended C8: Scenario C, `query_column_ranges = [[[0,5],45]]`, gives the
intervals `[0,5]` and `[45,45]` to every rank. -/
theorem single_value_shorthand_witness :
    JSONConfigBase.read_from_file JSONConfigBase.fresh (.obj scenario_c_document)
      = .ok scenario_c_loaded ∧
    (∀ r : Int, scenario_c_loaded.get_workspace r = .ok "ws") ∧
    (∀ r : Int, add_query_columns scenario_c_loaded r []
      = .ok [QueryConfigCall.add_column_interval_to_query 0 5,
             QueryConfigCall.add_column_interval_to_query 45 45]) ∧
    (∀ r : Int, set_query_rows (memory_of 1024) scenario_c_loaded r []
      = .ok [QueryConfigCall.set_rows_to_query [2, 3, 4]]) :=
  ⟨rfl,
   (single_value_shorthand scenario_c_document scenario_c_loaded rfl).1 "ws" rfl
     (fun parts h => by simp [scenario_c_document, FindMember] at h),
   fun r => (((single_value_shorthand scenario_c_document scenario_c_loaded rfl).2.2.1
     _ rfl r [] 0).1).trans rfl,
   fun r => ((single_value_shorthand scenario_c_document scenario_c_loaded rfl).2.2.2
     _ rfl (memory_of 1024) r []).trans rfl⟩

/-! ## C9: row expansion -/

theorem fill_rows_spec (second : Int) (hsec : second < INT64_MAX) :
    ∀ (fuel : Nat) (i : Int) (j : Nat) (pre slots : List Int),
      slots.length = fuel → pre.length = j → second - i + 1 = (fuel : Int) → INT64_MIN ≤ i →
      fill_rows second fuel i j (pre ++ slots)
        = .ok (pre ++ (List.range fuel).map (fun (k : Nat) => i + (k : Int))) := by
  intro fuel
  induction fuel with
  | zero =>
    intro i j pre slots hs _ hcount _
    have : slots = [] := List.length_eq_zero.mp hs
    subst this
    have hgt : ¬ i ≤ second := by omega
    simp [fill_rows, hgt]
  | succ fuel ih =>
    intro i j pre slots hs hp hcount hmin
    cases slots with
    | nil => simp at hs
    | cons x slots =>
      simp only [List.length_cons, Nat.add_right_cancel_iff] at hs
      have hle : i ≤ second := by omega
      have hj : j < (pre ++ x :: slots).length := by
        simp only [List.length_append, List.length_cons]; omega
      have hwrap : wrap64 (i + 1) = i + 1 := by
        apply wrap64_of_is_int64
        unfold is_int64 INT64_MIN INT64_MAX at *
        omega
      have hset : (pre ++ x :: slots).set j i = (pre ++ [i]) ++ slots := by
        rw [← hp, set_length_append_cons]; simp
      rw [fill_rows, if_pos hle, if_pos hj, hwrap, hset,
        ih (i + 1) (j + 1) (pre ++ [i]) slots hs (by simp [hp]) (by push_cast at hcount ⊢; omega)
          (by omega)]
      rw [List.range_succ_eq_map]
      simp only [List.map_cons, List.map_map, List.append_assoc, List.singleton_append,
        Nat.cast_zero, add_zero]
      congr 3
      apply List.map_congr_left
      intro k _
      simp only [Function.comp_apply, Nat.succ_eq_add_one, Nat.cast_add, Nat.cast_one]
      omega

theorem fill_rows_fuel (second : Int) :
    ∀ (fuel : Nat) (i : Int) (j : Nat) (row_idxs : List Int), row_idxs.length ≤ j + fuel →
      fill_rows second fuel i j row_idxs ≠ .error .fuel_exhausted := by
  intro fuel
  induction fuel with
  | zero =>
    intro i j row_idxs hlen h
    have hj : ¬ j < row_idxs.length := by omega
    simp only [fill_rows, hj, if_false] at h
    split at h <;> cases h
  | succ fuel ih =>
    intro i j row_idxs hlen h
    rw [fill_rows] at h
    split at h
    · split at h
      · exact ih (wrap64 (i + 1)) (j + 1) (row_idxs.set j i)
          (by rw [List.length_set]; omega) h
      · cases h
    · cases h

theorem interval_rows_length (r : ColumnRange) :
    (interval_rows r).length = (r.2 - r.1 + 1).toNat := by
  simp [interval_rows]

theorem expand_range_spec (alloc : Allocator) (row_idxs : List Int) (r : ColumnRange)
    (h1 : is_int64 r.1) (h2 : r.1 ≤ r.2) (h3 : r.2 < INT64_MAX)
    (hfit : (row_idxs.length : Int) + (r.2 - r.1 + 1) ≤ (vector_max_size : Int)) :
    expand_range alloc row_idxs r
      = if alloc (row_idxs.length + (r.2 - r.1 + 1).toNat) = true
        then .ok (row_idxs ++ interval_rows r) else .error .bad_alloc := by
  have hmax : (vector_max_size : Int) = 1152921504606846975 := by
    unfold vector_max_size; rfl
  have hw1 : wrap64 (r.2 - r.1) = r.2 - r.1 := by
    apply wrap64_of_is_int64
    unfold is_int64 INT64_MIN INT64_MAX at *
    omega
  have hw2 : wrap64 (r.2 - r.1 + 1) = r.2 - r.1 + 1 := by
    apply wrap64_of_is_int64
    unfold is_int64 INT64_MIN INT64_MAX at *
    omega
  have hts : to_size_t (r.2 - r.1 + 1) = (r.2 - r.1 + 1).toNat := by
    apply to_size_t_of_nonneg <;> omega
  have hn : wrap_size_t (row_idxs.length + (r.2 - r.1 + 1).toNat)
      = row_idxs.length + (r.2 - r.1 + 1).toNat := by
    unfold wrap_size_t
    apply Nat.mod_eq_of_lt
    omega
  have hnot : ¬ (row_idxs.length + (r.2 - r.1 + 1).toNat > vector_max_size) := by
    unfold vector_max_size
    omega
  have hres : vector_resize row_idxs (row_idxs.length + (r.2 - r.1 + 1).toNat) 0
      = row_idxs ++ List.replicate (r.2 - r.1 + 1).toNat 0 := by
    unfold vector_resize
    rw [List.take_of_length_le (by omega)]
    congr 2
    omega
  have hgrow : row_idxs.length + (r.2 - r.1 + 1).toNat > row_idxs.length := by
    omega
  unfold expand_range
  simp only [hw1, hw2, hts, hn, hres, if_neg hnot, hgrow, true_and]
  cases halloc : alloc (row_idxs.length + (r.2 - r.1 + 1).toNat) with
  | false => simp
  | true =>
    simp only [Bool.true_eq_false, if_false, if_true]
    have hlen : (row_idxs ++ List.replicate (r.2 - r.1 + 1).toNat (0 : Int)).length
        - row_idxs.length = (r.2 - r.1 + 1).toNat := by
      simp
    rw [hlen]
    exact fill_rows_spec r.2 h3 (r.2 - r.1 + 1).toNat r.1 row_idxs.length row_idxs _
      (by simp) rfl (by omega) h1.1

theorem total_rows_cons (r : ColumnRange) (ranges : List ColumnRange) :
    total_rows (r :: ranges) = (r.2 - r.1 + 1) + total_rows ranges := by
  simp [total_rows]

theorem total_rows_nonneg (ranges : List ColumnRange) (h : ∀ r ∈ ranges, r.1 ≤ r.2) :
    0 ≤ total_rows ranges := by
  induction ranges with
  | nil => simp [total_rows]
  | cons r ranges ih =>
    rw [total_rows_cons]
    have := h r (List.mem_cons_self _ _)
    have := ih (fun q hq => h q (List.mem_cons_of_mem _ hq))
    omega

theorem expanded_rows_cons (r : ColumnRange) (ranges : List ColumnRange) :
    expanded_rows (r :: ranges) = interval_rows r ++ expanded_rows ranges := by
  simp [expanded_rows]

theorem expand_ranges_spec (alloc : Allocator) :
    ∀ (ranges : List ColumnRange) (row_idxs : List Int),
      (∀ r ∈ ranges, is_int64 r.1 ∧ r.1 ≤ r.2 ∧ r.2 < INT64_MAX) →
      (row_idxs.length : Int) + total_rows ranges ≤ (vector_max_size : Int) →
      (∀ n ∈ resize_sizes ranges row_idxs.length, alloc n = true) →
      expand_ranges alloc ranges row_idxs = .ok (row_idxs ++ expanded_rows ranges) := by
  intro ranges
  induction ranges with
  | nil => intro row_idxs _ _ _; simp [expand_ranges, expanded_rows]
  | cons r ranges ih =>
    intro row_idxs hnorm hfit hmem
    obtain ⟨h1, h2, h3⟩ := hnorm r (List.mem_cons_self _ _)
    have hrest : ∀ q ∈ ranges, is_int64 q.1 ∧ q.1 ≤ q.2 ∧ q.2 < INT64_MAX :=
      fun q hq => hnorm q (List.mem_cons_of_mem _ hq)
    have hnn := total_rows_nonneg ranges (fun q hq => (hrest q hq).2.1)
    rw [total_rows_cons] at hfit
    have hlen : (row_idxs ++ interval_rows r).length
        = row_idxs.length + (r.2 - r.1 + 1).toNat := by
      rw [List.length_append, interval_rows_length]
    have hfirst : alloc (row_idxs.length + (r.2 - r.1 + 1).toNat) = true :=
      hmem _ (by simp [resize_sizes])
    rw [expand_ranges, expand_range_spec alloc row_idxs r h1 h2 h3 (by omega), if_pos hfirst]
    simp only
    rw [ih (row_idxs ++ interval_rows r) hrest, expanded_rows_cons, List.append_assoc]
    · rw [hlen]
      push_cast
      rw [Int.toNat_of_nonneg (by omega)]
      omega
    · intro n hn
      rw [hlen] at hn
      exact hmem n (by simp [resize_sizes, hn])

theorem expand_ranges_refused (alloc : Allocator) :
    ∀ (ranges : List ColumnRange) (row_idxs : List Int),
      (∀ r ∈ ranges, is_int64 r.1 ∧ r.1 ≤ r.2 ∧ r.2 < INT64_MAX) →
      (row_idxs.length : Int) + total_rows ranges ≤ (vector_max_size : Int) →
      (∃ n ∈ resize_sizes ranges row_idxs.length, alloc n = false) →
      expand_ranges alloc ranges row_idxs = .error .bad_alloc := by
  intro ranges
  induction ranges with
  | nil => intro row_idxs _ _ h; simp [resize_sizes] at h
  | cons r ranges ih =>
    intro row_idxs hnorm hfit hmem
    obtain ⟨h1, h2, h3⟩ := hnorm r (List.mem_cons_self _ _)
    have hrest : ∀ q ∈ ranges, is_int64 q.1 ∧ q.1 ≤ q.2 ∧ q.2 < INT64_MAX :=
      fun q hq => hnorm q (List.mem_cons_of_mem _ hq)
    have hnn := total_rows_nonneg ranges (fun q hq => (hrest q hq).2.1)
    rw [total_rows_cons] at hfit
    have hlen : (row_idxs ++ interval_rows r).length
        = row_idxs.length + (r.2 - r.1 + 1).toNat := by
      rw [List.length_append, interval_rows_length]
    rw [expand_ranges, expand_range_spec alloc row_idxs r h1 h2 h3 (by omega)]
    cases hfirst : alloc (row_idxs.length + (r.2 - r.1 + 1).toNat) with
    | false => simp
    | true =>
      simp only [if_true]
      apply ih (row_idxs ++ interval_rows r) hrest
      · rw [hlen]
        push_cast
        rw [Int.toNat_of_nonneg (by omega)]
        omega
      · obtain ⟨n, hn, hfalse⟩ := hmem
        simp only [resize_sizes, List.mem_cons] at hn
        rcases hn with rfl | hn
        · rw [hfirst] at hfalse; cases hfalse
        · exact ⟨n, by rw [hlen]; exact hn, hfalse⟩

theorem expanded_rows_length (ranges : List ColumnRange) (h : ∀ r ∈ ranges, r.1 ≤ r.2) :
    ((expanded_rows ranges).length : Int) = total_rows ranges := by
  induction ranges with
  | nil => simp [expanded_rows, total_rows]
  | cons r ranges ih =>
    rw [expanded_rows_cons, total_rows_cons, List.length_append, interval_rows_length]
    push_cast
    have := h r (List.mem_cons_self _ _)
    rw [Int.toNat_of_nonneg (by omega), ih (fun q hq => h q (List.mem_cons_of_mem _ hq))]

theorem set_query_rows_eq (alloc : Allocator) (s : JSONConfigBase) (rank : Int)
    (qc : VariantQueryConfig) (ranges : List ColumnRange)
    (hsel : s.m_row_ranges.get?
      (if s.m_single_query_row_ranges_vector then 0 else to_size_t rank) = some ranges) :
    set_query_rows alloc s rank qc
      = match expand_ranges alloc ranges [] with
        | .error err => .error err
        | .ok row_idxs => .ok (qc ++ [QueryConfigCall.set_rows_to_query row_idxs]) := by
  have hlt := (List.get?_eq_some.mp hsel).1
  have hne : s.m_row_ranges.length ≠ 0 := by omega
  unfold set_query_rows
  rw [if_pos hne]
  cases hflag : s.m_single_query_row_ranges_vector with
  | true =>
    rw [hflag] at hsel
    simp only [if_true] at hsel
    simp only [Bool.true_or, Bool.not_true, Bool.false_eq_true, if_false, if_true, hsel]
  | false =>
    rw [hflag] at hsel hlt
    simp only [Bool.false_eq_true, if_false] at hsel hlt
    have hd : decide (to_size_t rank < s.m_row_ranges.length) = true := by simpa using hlt
    simp only [Bool.false_or, hd, Bool.not_true, Bool.false_eq_true, if_false, hsel]

theorem assembly_eq (alloc : Allocator) (s0 s1 : JSONConfigBase) (m_json : JValue)
    (qc qc1 : VariantQueryConfig) (rank : Int)
    (h1 : JSONConfigBase.read_from_file s0 m_json = .ok s1)
    (h2 : check_workspace_and_array s1 rank = .ok ())
    (h3 : add_query_columns s1 rank qc = .ok qc1) :
    JSONBasicQueryConfig.read_from_file alloc s0 m_json qc rank
      = match set_query_rows alloc s1 rank qc1 with
        | .error err => (.error err, qc1)
        | .ok qc2 =>
          if s1.m_attributes.length ≠ 0 then
            (.ok s1, qc2 ++ [QueryConfigCall.set_attributes_to_query s1.m_attributes])
          else (.error .no_attributes, qc2) := by
  simp only [JSONBasicQueryConfig.read_from_file, h1, h2, h3]

theorem expand_range_last_row (alloc : Allocator) :
    expand_range alloc [] (INT64_MAX, INT64_MAX)
      = .error (if alloc 1 = true then .out_of_bounds else .bad_alloc) := by
  have hn : wrap_size_t (([] : List Int).length
      + to_size_t (wrap64 (wrap64 (INT64_MAX - INT64_MAX) + 1))) = 1 := by decide
  unfold expand_range
  simp only [hn]
  cases h : alloc 1 with
  | false => simp [vector_max_size]
  | true =>
    have hfill : fill_rows INT64_MAX (vector_resize ([] : List Int) 1 0).length
        INT64_MAX 0 (vector_resize [] 1 0) = .error .out_of_bounds := rfl
    simp [vector_max_size, hfill]

/-- Counterexample to C9 as stated, whatever memory there is: the normalised row interval
`[0, 2^61]` is not expanded, `resize` throws `std::length_error`; for the single row `INT64_MAX`
the loop of line 289 does not stop after its one row and writes past the vector (or the `resize`
gets no memory). And with memory for 2^32 rows the interval `[0, 2^59]` is not expanded either,
`resize` throws `std::bad_alloc`. In every case `set_rows_to_query` is never called. -/
theorem row_expansion_counterexample :
    (∀ alloc : Allocator, JSONBasicQueryConfig.read_from_file alloc JSONConfigBase.fresh
        (.obj huge_rows_document) [] 0 = (.error .length_error, [])) ∧
    (∀ alloc : Allocator, JSONBasicQueryConfig.read_from_file alloc JSONConfigBase.fresh
        (.obj last_row_document) [] 0
      = (.error (if alloc 1 = true then .out_of_bounds else .bad_alloc), [])) ∧
    JSONBasicQueryConfig.read_from_file (memory_of 4294967296) JSONConfigBase.fresh
        (.obj large_rows_document) [] 0 = (.error .bad_alloc, []) := by
  refine ⟨fun _ => rfl, ?_, rfl⟩
  intro alloc
  rw [assembly_eq alloc JSONConfigBase.fresh last_row_loaded (.obj last_row_document) [] [] 0
    rfl rfl rfl,
    set_query_rows_eq alloc last_row_loaded 0 [] [(INT64_MAX, INT64_MAX)] rfl]
  simp only [expand_ranges, expand_range_last_row]

/-- C9, amended. Row expansion: for every list of row intervals with first <= second, every end
below `INT64_MAX`, and a total number of rows within the capacity of a vector, the expansion
has as many elements as the sum of `end - begin + 1`; when every `resize` of line 288 gets its
memory, the expansion is the concatenation, in input order, of `begin, begin+1, ..., end` for
each interval (nothing is merged or deduplicated), and when the list is the one selected for the
rank it is the argument of `set_rows_to_query`; when a `resize` gets no memory, the expansion
ends in `std::bad_alloc` and `set_rows_to_query` is not called. -/
theorem row_expansion (alloc : Allocator) (ranges : List ColumnRange)
    (hnorm : ∀ r ∈ ranges, is_int64 r.1 ∧ r.1 ≤ r.2 ∧ r.2 < INT64_MAX)
    (hfit : total_rows ranges ≤ (vector_max_size : Int)) :
    ((expanded_rows ranges).length : Int) = total_rows ranges ∧
    ((∀ n ∈ resize_sizes ranges 0, alloc n = true) →
      expand_ranges alloc ranges [] = .ok (expanded_rows ranges) ∧
      (∀ (s : JSONConfigBase) (rank : Int) (query_config : VariantQueryConfig),
        s.m_row_ranges.get?
            (if s.m_single_query_row_ranges_vector then 0 else to_size_t rank) = some ranges →
        set_query_rows alloc s rank query_config
          = .ok (query_config ++ [QueryConfigCall.set_rows_to_query (expanded_rows ranges)]))) ∧
    ((∃ n ∈ resize_sizes ranges 0, alloc n = false) →
      expand_ranges alloc ranges [] = .error .bad_alloc ∧
      (∀ (s : JSONConfigBase) (rank : Int) (query_config : VariantQueryConfig),
        s.m_row_ranges.get?
            (if s.m_single_query_row_ranges_vector then 0 else to_size_t rank) = some ranges →
        set_query_rows alloc s rank query_config = .error .bad_alloc)) := by
  refine ⟨expanded_rows_length ranges (fun r hr => (hnorm r hr).2.1), ?_, ?_⟩
  · intro hmem
    have hexp : expand_ranges alloc ranges [] = .ok (expanded_rows ranges) := by
      have := expand_ranges_spec alloc ranges [] hnorm (by simpa using hfit) hmem
      simpa using this
    refine ⟨hexp, ?_⟩
    intro s rank query_config hsel
    rw [set_query_rows_eq alloc s rank query_config ranges hsel, hexp]
  · intro hmem
    have hexp : expand_ranges alloc ranges [] = .error .bad_alloc :=
      expand_ranges_refused alloc ranges [] hnorm (by simpa using hfit) hmem
    refine ⟨hexp, ?_⟩
    intro s rank query_config hsel
    rw [set_query_rows_eq alloc s rank query_config ranges hsel, hexp]

/-- Witness of the amended C9, with memory for 1024 rows: `[[2,4]]` gives `[2,3,4]`, `[[5,5]]`
gives `[5]`, and Scenario D with rank 1 gives `[76,77]`; with memory for 2 rows `[[2,4]]` ends
in `std::bad_alloc`. -/
theorem row_expansion_witness :
    expand_ranges (memory_of 1024) [(2, 4)] [] = .ok [2, 3, 4] ∧
    expand_ranges (memory_of 1024) [(5, 5)] [] = .ok [5] ∧
    JSONConfigBase.read_from_file JSONConfigBase.fresh (.obj scenario_d_document)
      = .ok scenario_d_loaded ∧
    set_query_rows (memory_of 1024) scenario_d_loaded 1 []
      = .ok [QueryConfigCall.set_rows_to_query [76, 77]] ∧
    expand_ranges (memory_of 2) [(2, 4)] [] = .error .bad_alloc :=
  ⟨((row_expansion (memory_of 1024) [(2, 4)] (by decide) (by decide)).2.1 (by decide)).1,
   ((row_expansion (memory_of 1024) [(5, 5)] (by decide) (by decide)).2.1 (by decide)).1,
   rfl,
   ((row_expansion (memory_of 1024) [(76, 76), (77, 77)] (by decide) (by decide)).2.1
      (by decide)).2 scenario_d_loaded 1 [] rfl,
   ((row_expansion (memory_of 2) [(2, 4)] (by decide) (by decide)).2.2
      ⟨3, by decide, by decide⟩).1⟩

/-! ## C10: what a failed assembly leaves in `query_config` -/

/-- Counterexample to C10 as stated: `no_attributes_document` has no `query_attributes`; the
assembler adds the two column intervals of the rank to `query_config` at line 276 and then
fails at line 295, with memory for 1024 rows and with any other amount. -/
theorem partial_assembly_counterexample :
    JSONBasicQueryConfig.read_from_file (memory_of 1024) JSONConfigBase.fresh
        (.obj no_attributes_document) [] 0
      = (.error .no_attributes,
         [QueryConfigCall.add_column_interval_to_query 0 5,
          QueryConfigCall.add_column_interval_to_query 45 45]) ∧
    (∀ alloc : Allocator,
      JSONBasicQueryConfig.read_from_file alloc JSONConfigBase.fresh
          (.obj no_attributes_document) [] 0
        = (.error .no_attributes,
           [QueryConfigCall.add_column_interval_to_query 0 5,
            QueryConfigCall.add_column_interval_to_query 45 45])) := ⟨rfl, fun _ => rfl⟩

theorem foldl_add_column (l : List ColumnRange) :
    ∀ qc : VariantQueryConfig,
      l.foldl (fun qc range =>
          qc ++ [QueryConfigCall.add_column_interval_to_query range.1 range.2]) qc
        = qc ++ l.map (fun range =>
            QueryConfigCall.add_column_interval_to_query range.1 range.2) := by
  induction l with
  | nil => intro qc; simp
  | cons r l ih => intro qc; simp [List.foldl, ih]

theorem add_query_columns_ok (s : JSONConfigBase) (rank : Int) (qc qc1 : VariantQueryConfig)
    (h : add_query_columns s rank qc = .ok qc1) :
    qc1 = qc ++ column_calls (rank_columns s rank) := by
  unfold add_query_columns at h
  unfold rank_columns column_calls
  split at h
  · cases h
  · split at h
    · next hscan =>
      have hs : s.m_scan_whole_array = false := by simpa using hscan
      split at h
      · cases h
      · split at h
        · cases h
        · next l hl =>
          cases h
          rw [hs, hl]
          exact foldl_add_column l qc
    · next hscan =>
      have hs : s.m_scan_whole_array = true := by simpa using hscan
      cases h
      rw [hs]
      simp

theorem set_query_rows_ok (alloc : Allocator) (s : JSONConfigBase) (rank : Int)
    (qc qc1 : VariantQueryConfig) (h : set_query_rows alloc s rank qc = .ok qc1) :
    (s.m_row_ranges = [] ∧ qc1 = qc) ∨
    (s.m_row_ranges ≠ [] ∧ ∃ rows, expand_ranges alloc (rank_rows s rank) [] = .ok rows ∧
      qc1 = qc ++ [QueryConfigCall.set_rows_to_query rows]) := by
  unfold set_query_rows at h
  unfold rank_rows
  split at h
  · next hne =>
    have hnil : s.m_row_ranges ≠ [] := fun hh => hne (by rw [hh]; rfl)
    split at h
    · cases h
    · split at h
      · cases h
      · next ranges hsel =>
        split at h
        · cases h
        · next rows hrows =>
          cases h
          right
          refine ⟨hnil, rows, ?_, rfl⟩
          rw [hsel]
          exact hrows
  · next hlen =>
    cases h
    left
    exact ⟨List.length_eq_zero.mp (by simpa using hlen), rfl⟩

theorem assembly_base_error (alloc : Allocator) (s : JSONConfigBase) (m_json : JValue)
    (qc : VariantQueryConfig) (rank : Int) (e : RunError)
    (h1 : JSONConfigBase.read_from_file s m_json = .error e) :
    JSONBasicQueryConfig.read_from_file alloc s m_json qc rank = (.error e, qc) := by
  simp only [JSONBasicQueryConfig.read_from_file, h1]

theorem assembly_check_error (alloc : Allocator) (s s1 : JSONConfigBase) (m_json : JValue)
    (qc : VariantQueryConfig) (rank : Int) (e : RunError)
    (h1 : JSONConfigBase.read_from_file s m_json = .ok s1)
    (h2 : check_workspace_and_array s1 rank = .error e) :
    JSONBasicQueryConfig.read_from_file alloc s m_json qc rank = (.error e, qc) := by
  simp only [JSONBasicQueryConfig.read_from_file, h1, h2]

theorem assembly_columns_error (alloc : Allocator) (s s1 : JSONConfigBase) (m_json : JValue)
    (qc : VariantQueryConfig) (rank : Int) (e : RunError)
    (h1 : JSONConfigBase.read_from_file s m_json = .ok s1)
    (h2 : check_workspace_and_array s1 rank = .ok ())
    (h3 : add_query_columns s1 rank qc = .error e) :
    JSONBasicQueryConfig.read_from_file alloc s m_json qc rank = (.error e, qc) := by
  simp only [JSONBasicQueryConfig.read_from_file, h1, h2, h3]

theorem assembly_rows_error (alloc : Allocator) (s s1 : JSONConfigBase) (m_json : JValue)
    (qc qc1 : VariantQueryConfig) (rank : Int) (e : RunError)
    (h1 : JSONConfigBase.read_from_file s m_json = .ok s1)
    (h2 : check_workspace_and_array s1 rank = .ok ())
    (h3 : add_query_columns s1 rank qc = .ok qc1)
    (h4 : set_query_rows alloc s1 rank qc1 = .error e) :
    JSONBasicQueryConfig.read_from_file alloc s m_json qc rank = (.error e, qc1) := by
  simp only [JSONBasicQueryConfig.read_from_file, h1, h2, h3, h4]

theorem assembly_attributes_error (alloc : Allocator) (s s1 : JSONConfigBase) (m_json : JValue)
    (qc qc1 qc2 : VariantQueryConfig) (rank : Int)
    (h1 : JSONConfigBase.read_from_file s m_json = .ok s1)
    (h2 : check_workspace_and_array s1 rank = .ok ())
    (h3 : add_query_columns s1 rank qc = .ok qc1)
    (h4 : set_query_rows alloc s1 rank qc1 = .ok qc2)
    (h5 : s1.m_attributes = []) :
    JSONBasicQueryConfig.read_from_file alloc s m_json qc rank
      = (.error .no_attributes, qc2) := by
  simp [JSONBasicQueryConfig.read_from_file, h1, h2, h3, h4, h5]

theorem assembly_success (alloc : Allocator) (s s1 : JSONConfigBase) (m_json : JValue)
    (qc qc1 qc2 : VariantQueryConfig) (rank : Int)
    (h1 : JSONConfigBase.read_from_file s m_json = .ok s1)
    (h2 : check_workspace_and_array s1 rank = .ok ())
    (h3 : add_query_columns s1 rank qc = .ok qc1)
    (h4 : set_query_rows alloc s1 rank qc1 = .ok qc2)
    (h5 : s1.m_attributes ≠ []) :
    JSONBasicQueryConfig.read_from_file alloc s m_json qc rank
      = (.ok s1, qc2 ++ [QueryConfigCall.set_attributes_to_query s1.m_attributes]) := by
  have hlen : s1.m_attributes.length ≠ 0 := fun hl => h5 (List.length_eq_zero.mp hl)
  simp only [JSONBasicQueryConfig.read_from_file, h1, h2, h3, h4, hlen, ne_eq,
    not_false_eq_true, if_true]

/-- The phases of a failed assembly: the failure `e` is that of the base load, of the workspace and
array checks, of the column-range checks, of the row-range check or row expansion, or of the
attributes check, and in each case the earlier phases have gone through. -/
theorem assembly_failure_phase (alloc : Allocator) (s : JSONConfigBase) (m_json : JValue)
    (qc : VariantQueryConfig) (rank : Int) (e : RunError)
    (hfail : (JSONBasicQueryConfig.read_from_file alloc s m_json qc rank).1 = .error e) :
    JSONConfigBase.read_from_file s m_json = .error e ∨
    ∃ s1, JSONConfigBase.read_from_file s m_json = .ok s1 ∧
      (check_workspace_and_array s1 rank = .error e ∨
       check_workspace_and_array s1 rank = .ok () ∧
        (add_query_columns s1 rank qc = .error e ∨
         ∃ qc1, add_query_columns s1 rank qc = .ok qc1 ∧
          (set_query_rows alloc s1 rank qc1 = .error e ∨
           ∃ qc2, set_query_rows alloc s1 rank qc1 = .ok qc2 ∧
            s1.m_attributes = [] ∧ e = .no_attributes))) := by
  cases h1 : JSONConfigBase.read_from_file s m_json with
  | error e1 =>
    rw [assembly_base_error alloc s m_json qc rank e1 h1] at hfail
    cases hfail
    exact Or.inl rfl
  | ok s1 =>
    refine Or.inr ⟨s1, rfl, ?_⟩
    cases h2 : check_workspace_and_array s1 rank with
    | error e2 =>
      rw [assembly_check_error alloc s s1 m_json qc rank e2 h1 h2] at hfail
      cases hfail
      exact Or.inl rfl
    | ok u =>
      cases u
      refine Or.inr ⟨rfl, ?_⟩
      cases h3 : add_query_columns s1 rank qc with
      | error e3 =>
        rw [assembly_columns_error alloc s s1 m_json qc rank e3 h1 h2 h3] at hfail
        cases hfail
        exact Or.inl rfl
      | ok qc1 =>
        refine Or.inr ⟨qc1, rfl, ?_⟩
        cases h4 : set_query_rows alloc s1 rank qc1 with
        | error e4 =>
          rw [assembly_rows_error alloc s s1 m_json qc qc1 rank e4 h1 h2 h3 h4] at hfail
          cases hfail
          exact Or.inl rfl
        | ok qc2 =>
          refine Or.inr ⟨qc2, rfl, ?_⟩
          by_cases h5 : s1.m_attributes = []
          · rw [assembly_attributes_error alloc s s1 m_json qc qc1 qc2 rank h1 h2 h3 h4 h5]
              at hfail
            cases hfail
            exact ⟨h5, rfl⟩
          · rw [assembly_success alloc s s1 m_json qc qc1 qc2 rank h1 h2 h3 h4 h5] at hfail
            cases hfail

/-- C10, amended. When `JSONBasicQueryConfig::read_from_file` fails, `query_config` keeps what it
held, `set_attributes_to_query` has not been called on it, and it has received nothing but
column intervals and at most a row list. It is exactly as it was before the call when the
failure is in `JSONConfigBase::read_from_file` or in the workspace, array or column-range
checks (lines 255-273). A failure of the row-range check or of the row expansion (lines
281-291) leaves the column intervals of the rank added to it (none with `scan_full`), and a
failure of the attributes check (line 295) leaves them added and, when there are row ranges,
the expanded row list of the rank set after them. There is no other failure. -/
theorem failed_assembly (alloc : Allocator) (s : JSONConfigBase) (m_json : JValue)
    (query_config : VariantQueryConfig) (rank : Int) (e : RunError)
    (hfail : (JSONBasicQueryConfig.read_from_file alloc s m_json query_config rank).1
      = .error e) :
    (∃ calls, (JSONBasicQueryConfig.read_from_file alloc s m_json query_config rank).2
        = query_config ++ calls ∧
      ∀ c ∈ calls, (∃ b e2, c = QueryConfigCall.add_column_interval_to_query b e2) ∨
        (∃ rows, c = QueryConfigCall.set_rows_to_query rows)) ∧
    ((JSONConfigBase.read_from_file s m_json = .error e ∨
      ∃ s1, JSONConfigBase.read_from_file s m_json = .ok s1 ∧
        (check_workspace_and_array s1 rank = .error e ∨
          add_query_columns s1 rank query_config = .error e)) →
      (JSONBasicQueryConfig.read_from_file alloc s m_json query_config rank).2
        = query_config) ∧
    (∀ s1 qc1, JSONConfigBase.read_from_file s m_json = .ok s1 →
      check_workspace_and_array s1 rank = .ok () →
      add_query_columns s1 rank query_config = .ok qc1 →
      set_query_rows alloc s1 rank qc1 = .error e →
      (JSONBasicQueryConfig.read_from_file alloc s m_json query_config rank).2
        = query_config ++ column_calls (rank_columns s1 rank)) ∧
    (∀ s1 qc1 qc2, JSONConfigBase.read_from_file s m_json = .ok s1 →
      check_workspace_and_array s1 rank = .ok () →
      add_query_columns s1 rank query_config = .ok qc1 →
      set_query_rows alloc s1 rank qc1 = .ok qc2 →
      s1.m_attributes = [] ∧ e = .no_attributes ∧
      (s1.m_row_ranges = [] →
        (JSONBasicQueryConfig.read_from_file alloc s m_json query_config rank).2
          = query_config ++ column_calls (rank_columns s1 rank)) ∧
      (s1.m_row_ranges ≠ [] →
        ∃ rows, expand_ranges alloc (rank_rows s1 rank) [] = .ok rows ∧
          (JSONBasicQueryConfig.read_from_file alloc s m_json query_config rank).2
            = query_config ++ column_calls (rank_columns s1 rank)
                ++ [QueryConfigCall.set_rows_to_query rows])) ∧
    (JSONConfigBase.read_from_file s m_json = .error e ∨
      ∃ s1, JSONConfigBase.read_from_file s m_json = .ok s1 ∧
        (check_workspace_and_array s1 rank = .error e ∨
         check_workspace_and_array s1 rank = .ok () ∧
          (add_query_columns s1 rank query_config = .error e ∨
           ∃ qc1, add_query_columns s1 rank query_config = .ok qc1 ∧
            (set_query_rows alloc s1 rank qc1 = .error e ∨
             ∃ qc2, set_query_rows alloc s1 rank qc1 = .ok qc2 ∧
              s1.m_attributes = [] ∧ e = .no_attributes)))) := by
  have hphase := assembly_failure_phase alloc s m_json query_config rank e hfail
  have hcols : ∀ l : List ColumnRange, ∀ c ∈ column_calls l,
      (∃ b e2, c = QueryConfigCall.add_column_interval_to_query b e2) ∨
        (∃ rows, c = QueryConfigCall.set_rows_to_query rows) := by
    intro l c hc
    obtain ⟨r, _, hr⟩ := List.mem_map.mp hc
    exact Or.inl ⟨r.1, r.2, hr.symm⟩
  refine ⟨?_, ?_, ?_, ?_, hphase⟩
  · rcases hphase with h1 | ⟨s1, h1, h2 | ⟨h2, h3 | ⟨qc1, h3, h4 | ⟨qc2, h4, h5, he⟩⟩⟩⟩
    · rw [assembly_base_error alloc s m_json query_config rank e h1]
      exact ⟨[], by simp, by simp⟩
    · rw [assembly_check_error alloc s s1 m_json query_config rank e h1 h2]
      exact ⟨[], by simp, by simp⟩
    · rw [assembly_columns_error alloc s s1 m_json query_config rank e h1 h2 h3]
      exact ⟨[], by simp, by simp⟩
    · rw [assembly_rows_error alloc s s1 m_json query_config qc1 rank e h1 h2 h3 h4]
      exact ⟨_, add_query_columns_ok _ _ _ _ h3, hcols _⟩
    · rw [assembly_attributes_error alloc s s1 m_json query_config qc1 qc2 rank h1 h2 h3 h4 h5]
      have hqc1 := add_query_columns_ok _ _ _ _ h3
      rcases set_query_rows_ok alloc _ _ _ _ h4 with ⟨_, e4⟩ | ⟨_, rows, _, e4⟩
      · exact ⟨_, e4.trans hqc1, hcols _⟩
      · refine ⟨column_calls (rank_columns s1 rank)
            ++ [QueryConfigCall.set_rows_to_query rows], ?_, ?_⟩
        · show qc2 = _
          rw [e4, hqc1, List.append_assoc]
        · intro c hc
          rcases List.mem_append.mp hc with hc | hc
          · exact hcols _ c hc
          · simp only [List.mem_singleton] at hc
            exact Or.inr ⟨rows, hc⟩
  · intro h
    rcases h with h | ⟨s1, h1, h | h⟩
    · rw [assembly_base_error alloc s m_json query_config rank e h]
    · rw [assembly_check_error alloc s s1 m_json query_config rank e h1 h]
    · cases h2 : check_workspace_and_array s1 rank with
      | error e2 => rw [assembly_check_error alloc s s1 m_json query_config rank e2 h1 h2]
      | ok u =>
        cases u
        rw [assembly_columns_error alloc s s1 m_json query_config rank e h1 h2 h]
  · intro s1 qc1 h1 h2 h3 h4
    rw [assembly_rows_error alloc s s1 m_json query_config qc1 rank e h1 h2 h3 h4]
    exact add_query_columns_ok _ _ _ _ h3
  · intro s1 qc1 qc2 h1 h2 h3 h4
    have hqc1 := add_query_columns_ok _ _ _ _ h3
    have h5 : s1.m_attributes = [] := by
      by_contra h5
      rw [assembly_success alloc s s1 m_json query_config qc1 qc2 rank h1 h2 h3 h4 h5] at hfail
      cases hfail
    rw [assembly_attributes_error alloc s s1 m_json query_config qc1 qc2 rank h1 h2 h3 h4 h5]
      at hfail ⊢
    refine ⟨h5, ?_, ?_, ?_⟩
    · cases hfail; rfl
    · intro hnil
      rcases set_query_rows_ok alloc _ _ _ _ h4 with ⟨_, e4⟩ | ⟨hne, _⟩
      · exact e4.trans hqc1
      · exact absurd hnil hne
    · intro hne
      rcases set_query_rows_ok alloc _ _ _ _ h4 with ⟨hnil, _⟩ | ⟨_, rows, hrows, e4⟩
      · exact absurd hnil hne
      · exact ⟨rows, hrows, by show qc2 = _; rw [e4, hqc1]⟩

/-- Witness of the amended C10, with memory for 1024 rows. For `two_row_ranks_document` and
rank 2 the assembly fails at the row-range check, after the column interval of the single
column list has been added. For `rows_no_attributes_document` and rank 0 it fails at the
attributes check, after the column interval has been added and the row list `[2,3,4]` set. -/
theorem failed_assembly_witness :
    JSONBasicQueryConfig.read_from_file (memory_of 1024) JSONConfigBase.fresh
        (.obj two_row_ranks_document) [] 2
      = (.error .row_ranges_rank, [QueryConfigCall.add_column_interval_to_query 7 7]) ∧
    (JSONBasicQueryConfig.read_from_file (memory_of 1024) JSONConfigBase.fresh
        (.obj two_row_ranks_document) [] 2).2
      = [] ++ column_calls (rank_columns two_row_ranks_loaded 2) ∧
    JSONBasicQueryConfig.read_from_file (memory_of 1024) JSONConfigBase.fresh
        (.obj rows_no_attributes_document) [] 0
      = (.error .no_attributes, [QueryConfigCall.add_column_interval_to_query 7 7,
          QueryConfigCall.set_rows_to_query [2, 3, 4]]) ∧
    (∃ rows, expand_ranges (memory_of 1024) (rank_rows rows_no_attributes_loaded 0) []
        = .ok rows ∧
      (JSONBasicQueryConfig.read_from_file (memory_of 1024) JSONConfigBase.fresh
          (.obj rows_no_attributes_document) [] 0).2
        = [] ++ column_calls (rank_columns rows_no_attributes_loaded 0)
            ++ [QueryConfigCall.set_rows_to_query rows]) :=
  ⟨rfl,
   (failed_assembly (memory_of 1024) JSONConfigBase.fresh (.obj two_row_ranks_document) [] 2
      .row_ranges_rank rfl).2.2.1 two_row_ranks_loaded
      [QueryConfigCall.add_column_interval_to_query 7 7] rfl rfl rfl rfl,
   rfl,
   ((failed_assembly (memory_of 1024) JSONConfigBase.fresh (.obj rows_no_attributes_document)
      [] 0 .no_attributes rfl).2.2.2.1 rows_no_attributes_loaded
      [QueryConfigCall.add_column_interval_to_query 7 7]
      [QueryConfigCall.add_column_interval_to_query 7 7,
        QueryConfigCall.set_rows_to_query [2, 3, 4]] rfl rfl rfl rfl).2.2.2 (by decide)⟩

/-! ## C16: the duplicate check is exact -/

theorem nodup_of_get?_inj {α : Type} :
    ∀ l : List α, (∀ (i j : Nat) (a : α), l.get? i = some a → l.get? j = some a → i = j) →
      l.Nodup := by
  intro l
  induction l with
  | nil => intro _; exact List.nodup_nil
  | cons x l ih =>
    intro h
    rw [List.nodup_cons]
    constructor
    · intro hx
      obtain ⟨k, hk⟩ := List.get?_of_mem hx
      have := h 0 (k + 1) x rfl (by simpa using hk)
      omega
    · apply ih
      intro i j a hi hj
      have := h (i + 1) (j + 1) a (by simpa using hi) (by simpa using hj)
      omega

theorem get?_map_eq_some {α β : Type} (f : α → β) (l : List α) (i : Nat) (b : β)
    (h : (l.map f).get? i = some b) : ∃ a, l.get? i = some a ∧ f a = b := by
  simp only [List.get?_eq_getElem?, List.getElem?_map, Option.map_eq_some'] at h ⊢
  exact h

theorem begins_nodup_iff (decls : List Declaration) :
    (decls.map (fun d => (normalized d).1)).Nodup ↔
      ∀ (i j : Nat) (di dj : Declaration), decls.get? i = some di → decls.get? j = some dj →
        (normalized di).1 = (normalized dj).1 → i = j := by
  constructor
  · intro hnd i j di dj hi hj heq
    apply nodup_get?_inj _ i j (normalized di).1 hnd
    · exact get?_map_some (fun d => (normalized d).1) decls i di hi
    · rw [heq]
      exact get?_map_some (fun d => (normalized d).1) decls j dj hj
  · intro h
    apply nodup_of_get?_inj
    intro i j a hi hj
    obtain ⟨di, hdi, hai⟩ := get?_map_eq_some _ _ _ _ hi
    obtain ⟨dj, hdj, haj⟩ := get?_map_eq_some _ _ _ _ hj
    exact h i j di dj hdi hdj (hai.trans haj.symm)

/-- C16. The duplicate check is on the normalised begin and is exact: for a document whose
column selector is `column_partitions` with well-typed partitions that all have a `begin`, the
load fails with the duplicate-begin error if and only if two partitions, at two different
declaration positions, have the same begin after the swap (the smaller of `begin` and `end`,
with `end = INT64_MAX` when absent). -/
theorem duplicate_check_exact (m_json parts : List (String × JValue))
    (decls : List Declaration) (hdoc : PartitionDocument m_json parts decls) :
    JSONConfigBase.read_from_file JSONConfigBase.fresh (.obj m_json) = .error .duplicate_begin ↔
      ∃ (i j : Nat) (di dj : Declaration), i ≠ j ∧ decls.get? i = some di ∧
        decls.get? j = some dj ∧ (normalized di).1 = (normalized dj).1 := by
  constructor
  · intro herr
    by_contra hno
    have hnd : (decls.map (fun d => (normalized d).1)).Nodup := by
      rw [begins_nodup_iff]
      intro i j di dj hi hj heq
      by_contra hij
      exact hno ⟨i, j, di, dj, hij, hi, hj, heq⟩
    obtain ⟨s, hs, _⟩ := read_from_file_partition_document JSONConfigBase.fresh
      m_json parts decls fresh_flags_in_bounds hdoc hnd
    rw [hs] at herr
    cases herr
  · intro ⟨i, j, di, dj, hij, hi, hj, heq⟩
    apply read_from_file_partition_duplicate JSONConfigBase.fresh m_json parts decls
      fresh_flags_in_bounds hdoc
    intro hnd
    exact hij ((begins_nodup_iff decls).mp hnd i j di dj hi hj heq)

theorem swapped_duplicate_is_partition_document :
    PartitionDocument swapped_duplicate_document swapped_duplicate_parts
      swapped_duplicate_decls where
  other_fields := by decide
  no_scan_full := by decide
  no_ranges := by decide
  partitions := rfl
  declared := by
    refine List.Forall₂.cons ⟨_, rfl, ?_⟩ (List.Forall₂.cons ⟨_, rfl, ?_⟩ List.Forall₂.nil) <;>
    simp [FindMember, is_int64, INT64_MIN, INT64_MAX]

/-- Witness of C16, the "if" direction with distinct declared begins: `{"begin":100,"end":50}`
and `{"begin":50}` both begin at 50 after the swap, and the load fails. -/
theorem duplicate_check_exact_witness :
    JSONConfigBase.read_from_file JSONConfigBase.fresh (.obj swapped_duplicate_document)
      = .error .duplicate_begin :=
  (duplicate_check_exact swapped_duplicate_document swapped_duplicate_parts
    swapped_duplicate_decls swapped_duplicate_is_partition_document).mpr
    ⟨0, 1, (100, some 50), (50, none), by decide, rfl, rfl, by decide⟩

/-! ## C15: write-back by begin key -/

theorem partition_document_loaded (m_json parts : List (String × JValue))
    (decls : List Declaration) (hdoc : PartitionDocument m_json parts decls)
    (s : JSONConfigBase)
    (hok : JSONConfigBase.read_from_file JSONConfigBase.fresh (.obj m_json) = .ok s) :
    (decls.map (fun d => (normalized d).1)).Nodup ∧
    s.m_column_ranges = (normalized_all decls).map (fun p => [resolved decls p]) ∧
    s.m_sorted_column_partitions
      = (sort_column_partitions (normalized_all decls)).map (resolved decls) ∧
    s.m_single_query_column_ranges_vector = false := by
  have hnd : (decls.map (fun d => (normalized d).1)).Nodup := by
    by_contra hdup
    have := read_from_file_partition_duplicate JSONConfigBase.fresh m_json parts decls
      fresh_flags_in_bounds hdoc hdup
    rw [this] at hok
    cases hok
  obtain ⟨s2, hs, hc, hsorted, _, hflag⟩ := read_from_file_partition_document
    JSONConfigBase.fresh m_json parts decls fresh_flags_in_bounds hdoc hnd
  have hss : s2 = s := by
    rw [hs] at hok
    exact Except.ok.inj hok
  rw [hss] at hc hsorted hflag
  exact ⟨hnd, hc, hsorted, hflag⟩

theorem eq_of_mem_of_fst_eq (l : List ColumnRange) (hnd : (l.map Prod.fst).Nodup)
    (p q : ColumnRange) (hp : p ∈ l) (hq : q ∈ l) (h : p.1 = q.1) : p = q := by
  obtain ⟨i, hi⟩ := List.get?_of_mem hp
  obtain ⟨j, hj⟩ := List.get?_of_mem hq
  have hij := nodup_get?_inj _ i j p.1 hnd (get?_map_some Prod.fst l i p hi)
    (by rw [h]; exact get?_map_some Prod.fst l j q hj)
  rw [hij, hj] at hi
  exact (Option.some.inj hi).symm

theorem flatten_map_singleton {α β : Type} (f : α → β) (l : List α) :
    (l.map (fun a => [f a])).flatten = l.map f := by
  induction l with
  | nil => rfl
  | cons a l ih => simp [ih]

/-- C15. Write-back by begin key: after a successful load of a document whose column selector is
`column_partitions` with well-typed partitions, for every declaration position `i`,
`m_column_ranges[i]` holds exactly one interval, whose begin is partition `i`'s normalised begin
and whose end is the end of the one entry of `m_sorted_column_partitions` with that begin;
`get_column_partition(i,0)` returns that interval; and `m_sorted_column_partitions` is the
permutation of those intervals that is ascending by begin. -/
theorem write_back_by_begin (m_json parts : List (String × JValue))
    (decls : List Declaration) (hdoc : PartitionDocument m_json parts decls)
    (s : JSONConfigBase)
    (hok : JSONConfigBase.read_from_file JSONConfigBase.fresh (.obj m_json) = .ok s) :
    (∀ (i : Nat) (d : Declaration), decls.get? i = some d →
      ∃ e, s.m_column_ranges.get? i = some [((normalized d).1, e)] ∧
        ((normalized d).1, e) ∈ s.m_sorted_column_partitions ∧
        (∀ q ∈ s.m_sorted_column_partitions, q.1 = (normalized d).1 → q.2 = e) ∧
        (is_int (i : Int) → s.get_column_partition (i : Int) 0 = .ok ((normalized d).1, e))) ∧
    s.m_column_ranges.length = decls.length ∧
    s.m_sorted_column_partitions.Perm s.m_column_ranges.flatten ∧
    s.m_sorted_column_partitions.Pairwise (fun p q => p.1 < q.1) := by
  obtain ⟨hnd, hc, hsorted, hflag⟩ := partition_document_loaded m_json parts decls hdoc s hok
  have hnd2 : ((normalized_all decls).map Prod.fst).Nodup := by
    rw [normalized_all_begins]; exact hnd
  refine ⟨?_, ?_, ?_, ?_⟩
  · intro i d hi
    obtain ⟨hget, hmem⟩ := resolution_at s decls hc hsorted i d hi
    refine ⟨resolved_end (normalized_all decls) (normalized d), hget, hmem, ?_, ?_⟩
    · intro q hq hq1
      rw [hsorted] at hq
      obtain ⟨p, hp, hpq⟩ := List.mem_map.mp hq
      rw [sort_column_partitions_mem] at hp
      have hd : normalized d ∈ normalized_all decls :=
        List.mem_map_of_mem normalized (List.get?_mem hi)
      have hp1 : p.1 = (normalized d).1 := by
        rw [← hpq] at hq1; exact hq1
      have := eq_of_mem_of_fst_eq _ hnd2 p (normalized d) hp hd hp1
      rw [← hpq, this]; rfl
    · intro hint
      have hto : to_size_t (i : Int) = i := by
        unfold is_int at hint
        unfold to_size_t
        omega
      simp only [JSONConfigBase.get_column_partition, hflag, Bool.false_eq_true, if_false, hto,
        hget]
      rfl
  · rw [hc]; simp [normalized_all]
  · rw [hc, hsorted, flatten_map_singleton]
    exact (sort_column_partitions_perm _).map _
  · rw [hsorted, List.pairwise_map]
    exact sort_column_partitions_strict _ hnd2

theorem descending_is_partition_document :
    PartitionDocument descending_document descending_parts descending_decls where
  other_fields := by decide
  no_scan_full := by decide
  no_ranges := by decide
  partitions := rfl
  declared := by
    refine List.Forall₂.cons ⟨_, rfl, ?_⟩ (List.Forall₂.cons ⟨_, rfl, ?_⟩
      (List.Forall₂.cons ⟨_, rfl, ?_⟩ List.Forall₂.nil)) <;>
    simp [FindMember, is_int64, INT64_MIN, INT64_MAX]

/-- Witness of C15: in `descending_document` the partition at declaration position 1 begins at
300; it is second in begin-order and is written back to position 1. -/
theorem write_back_by_begin_witness :
    JSONConfigBase.read_from_file JSONConfigBase.fresh (.obj descending_document)
      = .ok descending_loaded ∧
    descending_loaded.get_column_partition 1 0 = .ok (300, 499) ∧
    ∃ e, descending_loaded.m_column_ranges.get? 1 = some [((normalized (300, some 900)).1, e)] ∧
      ((normalized (300, some 900)).1, e) ∈ descending_loaded.m_sorted_column_partitions ∧
      (∀ q ∈ descending_loaded.m_sorted_column_partitions,
        q.1 = (normalized (300, some 900)).1 → q.2 = e) ∧
      (is_int ((1 : Nat) : Int) → descending_loaded.get_column_partition ((1 : Nat) : Int) 0
        = .ok ((normalized (300, some 900)).1, e)) :=
  ⟨rfl, rfl, (write_back_by_begin descending_document descending_parts descending_decls
    descending_is_partition_document descending_loaded rfl).1 1 (300, some 900) rfl⟩

/-! ## C17: clamping keeps the intervals well formed -/

/-- C17. Clamping keeps intervals well formed: for a document whose well-typed partitions have
pairwise distinct normalised begins, after the load every partition, in `m_column_ranges` and in
`m_sorted_column_partitions`, has its normalised begin and an end that is not below it; the
begins of `m_sorted_column_partitions` are those of the sorted normalised intervals; and for
every adjacent pair of the sorted intervals the int64 subtraction `next.begin - 1` of line 166
stays in the int64 range, so it is the exact difference. -/
theorem clamping_keeps_intervals_well_formed (m_json parts : List (String × JValue))
    (decls : List Declaration) (hdoc : PartitionDocument m_json parts decls)
    (hnd : (decls.map (fun d => (normalized d).1)).Nodup) :
    ∃ s, JSONConfigBase.read_from_file JSONConfigBase.fresh (.obj m_json) = .ok s ∧
      (∀ (i : Nat) (d : Declaration), decls.get? i = some d →
        ∃ e, s.m_column_ranges.get? i = some [((normalized d).1, e)] ∧
          (normalized d).1 ≤ e ∧ ((normalized d).1, e) ∈ s.m_sorted_column_partitions) ∧
      (∀ q ∈ s.m_sorted_column_partitions, q.1 ≤ q.2) ∧
      s.m_sorted_column_partitions.map Prod.fst
        = (sort_column_partitions (normalized_all decls)).map Prod.fst ∧
      (sort_column_partitions (normalized_all decls)).Chain'
        (fun _ next => is_int64 (next.1 - 1) ∧ wrap64 (next.1 - 1) = next.1 - 1) := by
  obtain ⟨s, hs, hc, hsorted, _, _⟩ := read_from_file_partition_document JSONConfigBase.fresh
    m_json parts decls fresh_flags_in_bounds hdoc hnd
  have hnd2 : ((normalized_all decls).map Prod.fst).Nodup := by
    rw [normalized_all_begins]; exact hnd
  have h64 := declared_all_is_int64 hdoc.declared
  refine ⟨s, hs, ?_, ?_, ?_, ?_⟩
  · intro i d hi
    obtain ⟨hget, hmem⟩ := resolution_at s decls hc hsorted i d hi
    have hd : normalized d ∈ normalized_all decls :=
      List.mem_map_of_mem normalized (List.get?_mem hi)
    exact ⟨_, hget, begin_le_resolved_end _ _ (h64 _ hd).2.2, hmem⟩
  · intro q hq
    rw [hsorted] at hq
    obtain ⟨p, hp, hpq⟩ := List.mem_map.mp hq
    rw [sort_column_partitions_mem] at hp
    rw [← hpq]
    exact begin_le_resolved_end _ _ (h64 _ hp).2.2
  · rw [hsorted, List.map_map]
    rfl
  · apply List.Pairwise.chain'
    apply List.Pairwise.imp_of_mem _ (sort_column_partitions_strict _ hnd2)
    intro p q hp hq hpq
    have h1 := (h64 p ((sort_column_partitions_mem _ p).mp hp)).1
    have h2 := (h64 q ((sort_column_partitions_mem _ q).mp hq)).1
    have h3 : is_int64 (q.1 - 1) := by
      unfold is_int64 INT64_MIN INT64_MAX at *
      omega
    exact ⟨h3, wrap64_of_is_int64 _ h3⟩

theorem extreme_is_partition_document :
    PartitionDocument extreme_document extreme_parts extreme_decls where
  other_fields := by decide
  no_scan_full := by decide
  no_ranges := by decide
  partitions := rfl
  declared := by
    refine List.Forall₂.cons ⟨_, rfl, ?_⟩ (List.Forall₂.cons ⟨_, rfl, ?_⟩ List.Forall₂.nil) <;>
    simp [FindMember, is_int64, INT64_MIN, INT64_MAX]

/-- Witness of C17: a partition that begins at `INT64_MIN` followed by one declared
`[INT64_MAX, 0]`; the stored intervals are `[INT64_MIN, -1]` and `[0, INT64_MAX]`. -/
theorem clamping_keeps_intervals_well_formed_witness :
    (∃ s, JSONConfigBase.read_from_file JSONConfigBase.fresh (.obj extreme_document) = .ok s ∧
      (∀ (i : Nat) (d : Declaration), extreme_decls.get? i = some d →
        ∃ e, s.m_column_ranges.get? i = some [((normalized d).1, e)] ∧
          (normalized d).1 ≤ e ∧ ((normalized d).1, e) ∈ s.m_sorted_column_partitions) ∧
      (∀ q ∈ s.m_sorted_column_partitions, q.1 ≤ q.2) ∧
      s.m_sorted_column_partitions.map Prod.fst
        = (sort_column_partitions (normalized_all extreme_decls)).map Prod.fst ∧
      (sort_column_partitions (normalized_all extreme_decls)).Chain'
        (fun _ next => is_int64 (next.1 - 1) ∧ wrap64 (next.1 - 1) = next.1 - 1)) ∧
    JSONConfigBase.read_from_file JSONConfigBase.fresh (.obj extreme_document)
      = .ok { JSONConfigBase.fresh with
              m_column_partitions_specified := true
              m_column_ranges := [[(0, INT64_MAX)], [(INT64_MIN, -1)]]
              m_sorted_column_partitions := [(INT64_MIN, -1), (0, INT64_MAX)] } :=
  ⟨clamping_keeps_intervals_well_formed extreme_document extreme_parts extreme_decls
    extreme_is_partition_document (by decide), rfl⟩

/-! ## C18: resolution does not depend on the declaration order -/

theorem sort_column_partitions_of_perm (l l2 : List ColumnRange) (hp : l.Perm l2)
    (hnd : (l.map Prod.fst).Nodup) :
    sort_column_partitions l = sort_column_partitions l2 := by
  have hnd2 : (l2.map Prod.fst).Nodup := ((hp.map Prod.fst).nodup_iff).mp hnd
  haveI : IsAntisymm ColumnRange (fun p q => p.1 < q.1) :=
    ⟨fun a b h1 h2 => absurd h1 (not_lt_of_lt h2)⟩
  apply List.eq_of_perm_of_sorted (r := fun p q : ColumnRange => p.1 < q.1)
  · exact ((sort_column_partitions_perm l).trans hp).trans
      (sort_column_partitions_perm l2).symm
  · exact sort_column_partitions_strict l hnd
  · exact sort_column_partitions_strict l2 hnd2

theorem resolved_of_perm (decls decls2 : List Declaration) (hp : decls.Perm decls2)
    (p : ColumnRange) : resolved decls p = resolved decls2 p := by
  unfold resolved
  rw [resolved_end_congr (normalized_all decls) (normalized_all decls2) p]
  intro q
  exact (hp.map normalized).mem_iff

/-- C18. Resolution is independent of declaration order: for two documents whose column
selector is `column_partitions`, with well-typed partitions that are permutations of each other
and have pairwise distinct normalised begins, both loads succeed,
`m_sorted_column_partitions` is the same in both, and a partition declared at position `i` in
the one and at position `j` in the other is resolved to the same interval, stored at rank `i`
in the one and at rank `j` in the other. -/
theorem resolution_independent_of_order (m_json parts m_json2 parts2 : List (String × JValue))
    (decls decls2 : List Declaration)
    (hdoc : PartitionDocument m_json parts decls)
    (hdoc2 : PartitionDocument m_json2 parts2 decls2)
    (hperm : decls.Perm decls2)
    (hnd : (decls.map (fun d => (normalized d).1)).Nodup) :
    ∃ s s2, JSONConfigBase.read_from_file JSONConfigBase.fresh (.obj m_json) = .ok s ∧
      JSONConfigBase.read_from_file JSONConfigBase.fresh (.obj m_json2) = .ok s2 ∧
      s.m_sorted_column_partitions = s2.m_sorted_column_partitions ∧
      ∀ (i j : Nat) (d : Declaration), decls.get? i = some d → decls2.get? j = some d →
        ∃ r, s.m_column_ranges.get? i = some [r] ∧ s2.m_column_ranges.get? j = some [r] ∧
          r.1 = (normalized d).1 := by
  have hnd2 : (decls2.map (fun d => (normalized d).1)).Nodup :=
    ((hperm.map (fun d => (normalized d).1)).nodup_iff).mp hnd
  obtain ⟨s, hs, hc, hsorted, _, _⟩ := read_from_file_partition_document JSONConfigBase.fresh
    m_json parts decls fresh_flags_in_bounds hdoc hnd
  obtain ⟨s2, hs2, hc2, hsorted2, _, _⟩ := read_from_file_partition_document
    JSONConfigBase.fresh m_json2 parts2 decls2 fresh_flags_in_bounds hdoc2 hnd2
  have hnorm : (normalized_all decls).Perm (normalized_all decls2) := hperm.map normalized
  have hndn : ((normalized_all decls).map Prod.fst).Nodup := by
    rw [normalized_all_begins]; exact hnd
  refine ⟨s, s2, hs, hs2, ?_, ?_⟩
  · rw [hsorted, hsorted2, sort_column_partitions_of_perm _ _ hnorm hndn]
    apply List.map_congr_left
    intro p _
    exact resolved_of_perm decls decls2 hperm p
  · intro i j d hi hj
    have h1 := (resolution_at s decls hc hsorted i d hi).1
    have h2 := (resolution_at s2 decls2 hc2 hsorted2 j d hj).1
    rw [← resolved_of_perm decls decls2 hperm] at h2
    exact ⟨resolved decls (normalized d), h1, h2, rfl⟩

theorem ascending_is_partition_document :
    PartitionDocument ascending_document ascending_parts ascending_decls where
  other_fields := by decide
  no_scan_full := by decide
  no_ranges := by decide
  partitions := rfl
  declared := by
    refine List.Forall₂.cons ⟨_, rfl, ?_⟩ (List.Forall₂.cons ⟨_, rfl, ?_⟩
      (List.Forall₂.cons ⟨_, rfl, ?_⟩ List.Forall₂.nil)) <;>
    simp [FindMember, is_int64, INT64_MIN, INT64_MAX]

/-- Witness of C18: `descending_document` and `ascending_document` declare the same three
partitions in opposite orders. -/
theorem resolution_independent_of_order_witness :
    ∃ s s2, JSONConfigBase.read_from_file JSONConfigBase.fresh (.obj descending_document)
        = .ok s ∧
      JSONConfigBase.read_from_file JSONConfigBase.fresh (.obj ascending_document) = .ok s2 ∧
      s.m_sorted_column_partitions = s2.m_sorted_column_partitions ∧
      ∀ (i j : Nat) (d : Declaration), descending_decls.get? i = some d →
        ascending_decls.get? j = some d →
        ∃ r, s.m_column_ranges.get? i = some [r] ∧ s2.m_column_ranges.get? j = some [r] ∧
          r.1 = (normalized d).1 :=
  resolution_independent_of_order descending_document descending_parts ascending_document
    ascending_parts descending_decls ascending_decls descending_is_partition_document
    ascending_is_partition_document (by decide) (by decide)

/-! ## C14: the shape of a query interval -/

theorem read_range_size (elems : List JValue) (h : elems.length ≠ 2) :
    read_range (.arr elems) = .error .interval_size := by
  unfold read_range
  split
  · next heq =>
    cases heq
    split
    · simp at h
    · rfl
  · next hne => exact absurd rfl (hne elems)

theorem read_range_member (a b : JValue) (h : a.IsInt64 = false ∨ b.IsInt64 = false) :
    read_range (.arr [a, b]) = .error .interval_not_int64 := by
  simp only [read_range]
  cases ha : a.IsInt64 with
  | false => simp
  | true =>
    rcases h with h | h
    · rw [ha] at h; cases h
    · simp [h]

theorem read_range_not_int64 (v : JValue) (harr : v.IsArray = false)
    (h : v.IsInt64 = false) : read_range v = .error .interval_not_int64 := by
  cases v <;> simp [JValue.IsArray] at harr <;> simp [read_range, h]

theorem read_range_ok_shape (q3 : JValue) (r : ColumnRange) (h : read_range q3 = .ok r) :
    interval_shape q3 = true := by
  cases hs : interval_shape q3 with
  | true => rfl
  | false =>
    exfalso
    unfold interval_shape at hs
    split at hs
    · next a b =>
      have : a.IsInt64 = false ∨ b.IsInt64 = false := by
        cases ha : a.IsInt64 <;> simp [ha] at hs ⊢
        exact hs
      rw [read_range_member a b this] at h
      cases h
    · next elems hne =>
      have hlen : elems.length ≠ 2 := by
        intro hl
        match elems, hl with
        | [a, b], _ => exact hne a b rfl
      rw [read_range_size elems hlen] at h
      cases h
    · next hne1 hne2 =>
      have harr : q3.IsArray = false := by
        cases q3 <;> simp [JValue.IsArray]
        rename_i elems
        match elems with
        | [a, b] => exact hne1 a b rfl
        | [] => exact hne2 [] rfl
        | [a] => exact hne2 [a] rfl
        | a :: b :: c :: l => exact hne2 (a :: b :: c :: l) rfl
      rw [read_range_not_int64 q3 harr hs] at h
      cases h

theorem read_range_list_ok_shape :
    ∀ (inner : List JValue) (rs : List ColumnRange), read_range_list inner = .ok rs →
      inner.all interval_shape = true := by
  intro inner
  induction inner with
  | nil => intro _ _; rfl
  | cons q3 rest ih =>
    intro rs h
    simp only [read_range_list] at h
    split at h
    · cases h
    · next r0 h0 =>
      split at h
      · cases h
      · next rs0 hrs0 =>
        simp only [List.all_cons, Bool.and_eq_true]
        exact ⟨read_range_ok_shape q3 r0 h0, ih rs0 hrs0⟩

theorem read_range_lists_ok_shape :
    ∀ (outer : List JValue) (rss : List (List ColumnRange)), read_range_lists outer = .ok rss →
      range_lists_shape (.arr outer) = true := by
  intro outer
  induction outer with
  | nil => intro _ _; rfl
  | cons q2 rest ih =>
    intro rss h
    simp only [read_range_lists] at h
    split at h
    · next inner =>
      split at h
      · cases h
      · next rs0 h0 =>
        split at h
        · cases h
        · next rss0 hrss0 =>
          have h1 := read_range_list_ok_shape inner rs0 h0
          have h2 := ih rss0 hrss0
          simp only [range_lists_shape, List.all_cons, Bool.and_eq_true] at h2 ⊢
          exact ⟨h1, h2⟩
    · cases h

/-- C14. Interval shape validation: reading an element of an inner list of
`query_column_ranges` or `query_row_ranges` fails when the element is an array whose length is
not 2, an array of length 2 with a member that is not an int64, or a non-array that is not an
int64; it is accepted exactly when it is an int64 or a 2-element array of int64. Hence a load
that succeeds has only such elements in `query_row_ranges`, and in `query_column_ranges` when
that is the selector read (no `scan_full`), and lists of such elements are read successfully. -/
theorem interval_shape_validation :
    (∀ elems : List JValue, elems.length ≠ 2 →
      read_range (.arr elems) = .error .interval_size) ∧
    (∀ a b : JValue, a.IsInt64 = false ∨ b.IsInt64 = false →
      read_range (.arr [a, b]) = .error .interval_not_int64) ∧
    (∀ v : JValue, v.IsArray = false → v.IsInt64 = false →
      read_range v = .error .interval_not_int64) ∧
    (∀ q3 : JValue, (∃ r, read_range q3 = .ok r) ↔ interval_shape q3 = true) ∧
    (∀ outer : List JValue,
      (∃ rss, read_range_lists outer = .ok rss) ↔ range_lists_shape (.arr outer) = true) ∧
    (∀ (m_json : List (String × JValue)) (s0 s : JSONConfigBase),
      JSONConfigBase.read_from_file s0 (.obj m_json) = .ok s →
      (∀ v, FindMember m_json "query_row_ranges" = some v → range_lists_shape v = true) ∧
      (HasMember m_json "scan_full" = false →
        ∀ v, FindMember m_json "query_column_ranges" = some v → range_lists_shape v = true)) := by
  refine ⟨read_range_size, read_range_member, read_range_not_int64, ?_, ?_, ?_⟩
  · intro q3
    exact ⟨fun ⟨r, hr⟩ => read_range_ok_shape q3 r hr, read_range_shaped q3⟩
  · intro outer
    exact ⟨fun ⟨rss, h⟩ => read_range_lists_ok_shape outer rss h, read_range_lists_shaped outer⟩
  · intro m_json s0 s hok
    obtain ⟨members, s1, s2, s3, s4, hm, h1, h2, h3, h4, h5⟩ := read_from_file_ok _ _ _ hok
    cases hm
    constructor
    · intro v hv
      rcases read_query_row_ranges_ok _ _ _ h4 with ⟨hnone, _⟩ | ⟨outer, rss, ho, hrss, _⟩
      · rw [hv] at hnone; cases hnone
      · rw [hv] at ho
        cases ho
        exact read_range_lists_ok_shape outer rss hrss
    · intro hscan v hv
      rcases read_column_selection_ok _ _ _ h3 with ⟨hs, _⟩ | ⟨_, q1, hq1, hq⟩ | ⟨_, hnone, _⟩
      · rw [hscan] at hs; cases hs
      · rw [hv] at hq1
        cases hq1
        obtain ⟨outer, rss, ho, hrss, _⟩ := read_query_column_ranges_ok _ _ _ hq
        rw [ho]
        exact read_range_lists_ok_shape outer rss hrss
      · rw [hv] at hnone; cases hnone

/-- Witness of C14: the three-element array `[1,2,3]` is rejected, alone and in a document, and
the elements `[9,3]`, `4` and `8` of `shaped_ranges_document` are accepted. -/
theorem interval_shape_validation_witness :
    read_range (.arr [.int 1, .int 2, .int 3]) = .error .interval_size ∧
    JSONConfigBase.read_from_file JSONConfigBase.fresh (.obj three_element_interval_document)
      = .error .interval_size ∧
    (∃ rss, read_range_lists [.arr [.arr [.int 9, .int 3], .int 4]] = .ok rss) ∧
    JSONConfigBase.read_from_file JSONConfigBase.fresh (.obj shaped_ranges_document)
      = .ok { JSONConfigBase.fresh with
              m_single_query_column_ranges_vector := true
              m_single_query_row_ranges_vector := true
              m_column_ranges := [[(3, 9), (4, 4)]]
              m_row_ranges := [[(8, 8)]] } :=
  ⟨interval_shape_validation.1 [.int 1, .int 2, .int 3] (by decide), rfl,
   (interval_shape_validation.2.2.2.2.1 [.arr [.arr [.int 9, .int 3], .int 4]]).mpr rfl, rfl⟩

/-! ## C13: a `begin` or `end` that is not an integer -/

theorem GetInt64_not_int64 (v : JValue) (h : v.IsInt64 = false) :
    v.GetInt64 = .error .json_assert := by
  cases v <;> simp [JValue.IsInt64, JValue.GetInt64] at h ⊢
  exact h

theorem read_partition_begin_not_int64 (count : Nat) (wstr astr : String) (idx : Nat)
    (info : List (String × JValue)) (b : JValue) (s : JSONConfigBase) (m : BeginToIdx)
    (hb : FindMember info "begin" = some b) (hnot : b.IsInt64 = false) :
    read_partition count wstr astr idx (.obj info) s m = .error .json_assert := by
  simp [read_partition, HasMember, hb, read_partition_range, GetInt64_not_int64 b hnot]

/-- C13, the code at the failing inputs: a partition whose `begin` is a string, or whose `end`
is a number that is not an integer, ends the load in a failed rapidjson assertion inside
`GetInt64()` (lines 133 and 136 have no `IsInt64()` check), not in a `VERIFY_OR_THROW`
configuration error; the same values in `query_column_ranges` or `query_row_ranges` are rejected
by the check of lines 104 and 203. -/
theorem partition_type_mismatch_asserts :
    JSONConfigBase.read_from_file JSONConfigBase.fresh (.obj string_begin_document)
      = .error .json_assert ∧
    JSONConfigBase.read_from_file JSONConfigBase.fresh (.obj real_end_document)
      = .error .json_assert ∧
    read_range (.str "chr1") = .error .interval_not_int64 ∧
    read_range .real = .error .interval_not_int64 :=
  ⟨rfl, rfl, rfl, rfl⟩

/-! ## C19: the single-value flags and `clear` -/

theorem push_strings_ok (e : RunError) :
    ∀ (elems : List JValue) (acc r : List String), push_strings e elems acc = .ok r →
      ∃ xs, r = acc ++ xs := by
  intro elems
  induction elems with
  | nil => intro acc r h; cases h; exact ⟨[], by simp⟩
  | cons v rest ih =>
    intro acc r h
    simp only [push_strings] at h
    split at h
    · split at h
      · next x _ =>
        obtain ⟨xs, hxs⟩ := ih _ _ h
        exact ⟨x :: xs, by rw [hxs]; simp⟩
      · cases h
    · cases h

theorem read_workspace_flags (s s2 : JSONConfigBase) (m_json : List (String × JValue))
    (hs : flags_in_bounds s) (h : read_workspace s m_json = .ok s2) : flags_in_bounds s2 := by
  unfold read_workspace at h
  split at h
  · cases h; exact hs
  · split at h
    · split at h
      · next ws hws =>
        cases h
        obtain ⟨xs, hxs⟩ := push_strings_ok _ _ _ _ hws
        refine ⟨fun hf => ?_, hs.2⟩
        have := hs.1 hf
        show ws ≠ []
        rw [hxs]
        simp [this]
      · cases h
    · split at h
      · split at h
        · cases h
          exact ⟨fun _ => by simp, hs.2⟩
        · cases h
      · cases h

theorem read_array_flags (s s2 : JSONConfigBase) (m_json : List (String × JValue))
    (hs : flags_in_bounds s) (h : read_array s m_json = .ok s2) : flags_in_bounds s2 := by
  unfold read_array at h
  split at h
  · cases h; exact hs
  · split at h
    · split at h
      · next ns hns =>
        cases h
        obtain ⟨xs, hxs⟩ := push_strings_ok _ _ _ _ hns
        refine ⟨hs.1, fun hf => ?_⟩
        have := hs.2 hf
        show ns ≠ []
        rw [hxs]
        simp [this]
      · cases h
    · split at h
      · split at h
        · cases h
          exact ⟨hs.1, fun _ => by simp⟩
        · cases h
      · cases h

theorem read_partition_flags (count : Nat) (wstr astr : String) (idx : Nat) (v : JValue)
    (s s2 : JSONConfigBase) (m m2 : BeginToIdx) (hs : flags_in_bounds s)
    (h : read_partition count wstr astr idx v s m = .ok (s2, m2)) : flags_in_bounds s2 := by
  unfold read_partition at h
  split at h
  · next info =>
    split at h
    · split at h
      · cases h
      · next range _ =>
        simp only at h
        split at h
        · cases h
        · next sa hsa =>
          split at h
          · cases h
          · next sb hsb =>
            cases h
            have ha : flags_in_bounds sa := by
              unfold override_workspace at hsa
              split at hsa
              · cases hsa; exact hs
              · simp only at hsa
                split at hsa
                · cases hsa
                · cases hsa
                  exact ⟨fun hf => (by cases hf), hs.2⟩
            have hb : flags_in_bounds sb := by
              unfold override_array at hsb
              split at hsb
              · cases hsb; exact ha
              · simp only at hsb
                split at hsb
                · cases hsb
                · cases hsb
                  exact ⟨ha.1, fun hf => (by cases hf)⟩
            exact hb
    · cases h
  · cases h

theorem read_partitions_flags (count : Nat) (wstr astr : String) :
    ∀ (parts : List (String × JValue)) (k : Nat) (s s2 : JSONConfigBase) (m m2 : BeginToIdx),
      flags_in_bounds s → read_partitions count wstr astr parts k s m = .ok (s2, m2) →
      flags_in_bounds s2 := by
  intro parts
  induction parts with
  | nil =>
    intro k s s2 m m2 hs h
    simp only [read_partitions] at h
    cases h
    exact hs
  | cons p parts ih =>
    intro k s s2 m m2 hs h
    simp only [read_partitions] at h
    split at h
    · cases h
    · next sa ma hstep =>
      exact ih _ _ _ _ _ (read_partition_flags _ _ _ _ _ _ _ _ _ hs hstep) h

theorem read_column_partitions_flags (s s2 : JSONConfigBase) (dict : JValue)
    (hs : flags_in_bounds s) (h : read_column_partitions s dict = .ok s2) :
    flags_in_bounds s2 := by
  unfold read_column_partitions at h
  simp only at h
  split at h
  · next members =>
    split at h
    · cases h
    · cases h
    · split at h
      · cases h
      · next sa ma hloop =>
        split at h
        · cases h
        · cases h
          have key := fun hflag => read_partitions_flags _ _ _ _ _ _ _ _ _ hflag hloop
          exact key hs
  · cases h

/-- Without `clear` the invariant is kept: a successful `read_from_file` on a state in which
the single-value flags come with non-empty vectors ends in such a state. -/
theorem read_from_file_flags (s s2 : JSONConfigBase) (m_json : JValue)
    (hs : flags_in_bounds s) (hok : JSONConfigBase.read_from_file s m_json = .ok s2) :
    flags_in_bounds s2 := by
  obtain ⟨members, s1, sa, s3, s4, hm, h1, h2, h3, h4, h5⟩ := read_from_file_ok _ _ _ hok
  have f1 := read_workspace_flags _ _ _ hs h1
  have f2 := read_array_flags _ _ _ f1 h2
  have f3 : flags_in_bounds s3 := by
    rcases read_column_selection_ok _ _ _ h3 with ⟨_, e⟩ | ⟨_, q1, _, hq⟩ | ⟨_, _, dict, _, hp⟩
    · rw [e]; exact f2
    · obtain ⟨_, _, _, _, e⟩ := read_query_column_ranges_ok _ _ _ hq
      rw [e]; exact f2
    · exact read_column_partitions_flags _ _ _ f2 hp
  obtain ⟨e1, e2, e3, e4, _⟩ := read_rows_attributes_frame _ _ _ _ h4 h5
  exact ⟨fun hf => by rw [e1]; exact f3.1 (by rw [← e2]; exact hf),
    fun hf => by rw [e3]; exact f3.2 (by rw [← e4]; exact hf)⟩

/-- C19, the code at the failing input: after a load of `single_values_document` and a `clear`
the object is in a reachable state whose single-value flags are set and whose `m_workspaces` and
`m_array_names` are empty, so the accesses `m_workspaces[0]` and `m_array_names[0]` of
`get_workspace`, `get_array_name` and of line 123 of the next load are outside the vectors. -/
theorem clear_keeps_single_value_flags :
    JSONConfigBase.read_from_file JSONConfigBase.fresh (.obj single_values_document)
      = .ok single_values_loaded ∧
    Reachable single_values_loaded.clear ∧
    ¬ flags_in_bounds single_values_loaded.clear ∧
    single_values_loaded.clear.m_single_workspace_path = true ∧
    single_values_loaded.clear.m_workspaces = [] ∧
    single_values_loaded.clear.get_workspace 0 = .error .out_of_bounds ∧
    single_values_loaded.clear.get_array_name 0 = .error .out_of_bounds ∧
    JSONConfigBase.read_from_file single_values_loaded.clear (.obj scenario_a_document)
      = .error .out_of_bounds :=
  ⟨rfl,
   Reachable.clear _ (Reachable.read_from_file JSONConfigBase.fresh single_values_loaded
     (.obj single_values_document) Reachable.fresh rfl),
   fun h => h.1 rfl rfl, rfl, rfl, rfl, rfl, rfl⟩

/-! ## C20: the row expansion at the ends of the int64 range -/

theorem wrap64_le_max (x : Int) : wrap64 x ≤ INT64_MAX := by
  unfold wrap64 INT64_MAX
  omega

/-- For an interval that ends at `INT64_MAX` the loop of line 289 never leaves through its
condition `i <= range.second`: the model only ever ends in a write outside the vector. -/
theorem fill_rows_never_returns :
    ∀ (fuel : Nat) (i : Int) (j : Nat) (row_idxs r : List Int), i ≤ INT64_MAX →
      fill_rows INT64_MAX fuel i j row_idxs ≠ .ok r := by
  intro fuel
  induction fuel with
  | zero =>
    intro i j row_idxs r hi h
    simp only [fill_rows, hi, if_true] at h
    split at h <;> cases h
  | succ fuel ih =>
    intro i j row_idxs r hi h
    rw [fill_rows, if_pos hi] at h
    split at h
    · exact ih _ _ _ _ (wrap64_le_max _) h
    · cases h

theorem expand_range_last_two (alloc : Allocator) :
    expand_range alloc [] (INT64_MAX - 1, INT64_MAX)
      = .error (if alloc 2 = true then .out_of_bounds else .bad_alloc) := by
  have hn : wrap_size_t (([] : List Int).length
      + to_size_t (wrap64 (wrap64 (INT64_MAX - (INT64_MAX - 1)) + 1))) = 2 := by decide
  unfold expand_range
  simp only [hn]
  cases h : alloc 2 with
  | false => simp [vector_max_size]
  | true =>
    have hfill : fill_rows INT64_MAX (vector_resize ([] : List Int) 2 0).length
        (INT64_MAX - 1) 0 (vector_resize [] 2 0) = .error .out_of_bounds := rfl
    simp [vector_max_size, hfill]

/-- C20, the code at the failing inputs: for the normalised interval `[INT64_MIN, INT64_MAX]`
the int64 computation `range.second - range.first + 1` overflows and yields 0 instead of 2^64, the
vector is not grown, and the first write `row_idxs[0]` is outside it; for `[0, INT64_MAX]` the
same computation yields `INT64_MIN`; for `[INT64_MAX - 1, INT64_MAX]` the size is right (2) and,
when the `resize` gets its memory, the loop writes a third element, outside the vector. The
assembler fails there without calling `set_rows_to_query`, whatever memory there is. -/
theorem row_expansion_overflows :
    wrap64 (wrap64 (INT64_MAX - INT64_MIN) + 1) = 0 ∧
    INT64_MAX - INT64_MIN + 1 = 18446744073709551616 ∧
    (∀ alloc : Allocator,
      expand_range alloc [] (INT64_MIN, INT64_MAX) = .error .out_of_bounds) ∧
    wrap64 (wrap64 (INT64_MAX - 0) + 1) = INT64_MIN ∧
    wrap64 (wrap64 (INT64_MAX - (INT64_MAX - 1)) + 1) = 2 ∧
    (∀ alloc : Allocator, expand_range alloc [] (INT64_MAX - 1, INT64_MAX)
      = .error (if alloc 2 = true then .out_of_bounds else .bad_alloc)) ∧
    (∀ alloc : Allocator, JSONBasicQueryConfig.read_from_file alloc JSONConfigBase.fresh
        (.obj all_rows_document) [] 0 = (.error .out_of_bounds, [])) :=
  ⟨by decide, by decide, fun _ => rfl, by decide, by decide, expand_range_last_two,
   fun _ => rfl⟩

/-! ## C12: overrides and the default fill -/

theorem resize_gt_eq_padded (v : List String) (count : Nat) (fill : String) :
    (if count > v.length then vector_resize v count fill else v) = padded v count fill := by
  unfold padded vector_resize
  split
  · rw [List.take_of_length_le (by omega)]
  · rw [Nat.sub_eq_zero_of_le (by omega)]; simp

theorem resize_ge_eq_padded (v : List String) (count : Nat) (fill : String) :
    (if count ≥ v.length then vector_resize v count fill else v) = padded v count fill := by
  unfold padded vector_resize
  split
  · rw [List.take_of_length_le (by omega)]
  · rw [Nat.sub_eq_zero_of_le (by omega)]; simp

theorem override_workspace_effect (count : Nat) (wstr : String) (idx : Nat)
    (info : List (String × JValue)) (s s2 : JSONConfigBase) (o : Option String)
    (ho : FindMember info "workspace" = o.map JValue.str)
    (h : override_workspace count wstr idx info s = .ok s2) :
    (s2.m_workspaces, s2.m_single_workspace_path)
      = apply_overrides count wstr [o] idx (s.m_workspaces, s.m_single_workspace_path) ∧
    s2.m_array_names = s.m_array_names ∧ s2.m_single_array_name = s.m_single_array_name := by
  unfold override_workspace at h
  cases o with
  | none =>
    simp only [Option.map_none'] at ho
    rw [ho] at h
    cases h
    exact ⟨rfl, rfl, rfl⟩
  | some x =>
    simp only [Option.map_some'] at ho
    rw [ho] at h
    simp only [JValue.GetString, resize_gt_eq_padded] at h
    cases h
    exact ⟨rfl, rfl, rfl⟩

theorem override_array_effect (count : Nat) (astr : String) (idx : Nat)
    (info : List (String × JValue)) (s s2 : JSONConfigBase) (o : Option String)
    (ho : FindMember info "array" = o.map JValue.str)
    (h : override_array count astr idx info s = .ok s2) :
    (s2.m_array_names, s2.m_single_array_name)
      = apply_overrides count astr [o] idx (s.m_array_names, s.m_single_array_name) ∧
    s2.m_workspaces = s.m_workspaces ∧
    s2.m_single_workspace_path = s.m_single_workspace_path := by
  unfold override_array at h
  cases o with
  | none =>
    simp only [Option.map_none'] at ho
    rw [ho] at h
    cases h
    exact ⟨rfl, rfl, rfl⟩
  | some x =>
    simp only [Option.map_some'] at ho
    rw [ho] at h
    simp only [JValue.GetString, resize_ge_eq_padded] at h
    cases h
    exact ⟨rfl, rfl, rfl⟩

theorem read_partition_workspace_effect (count : Nat) (wstr astr : String) (idx : Nat)
    (p : String × JValue) (s s2 : JSONConfigBase) (m m2 : BeginToIdx) (o : Option String)
    (ho : DeclaresOverride "workspace" p o)
    (h : read_partition count wstr astr idx p.2 s m = .ok (s2, m2)) :
    (s2.m_workspaces, s2.m_single_workspace_path)
      = apply_overrides count wstr [o] idx (s.m_workspaces, s.m_single_workspace_path) := by
  obtain ⟨info, hp, hfind⟩ := ho
  rw [hp] at h
  simp only [read_partition] at h
  split at h
  · split at h
    · cases h
    · next range _ =>
      split at h
      · cases h
      · next sa hsa =>
        split at h
        · cases h
        · next sb hsb =>
          cases h
          obtain ⟨e1, _, _⟩ := override_workspace_effect _ _ _ _ _ _ o hfind hsa
          obtain ⟨⟨ns, g, eb⟩, _⟩ := override_array_frame _ _ _ _ _ _ hsb
          show (sb.m_workspaces, sb.m_single_workspace_path) = _
          rw [eb]
          exact e1
  · cases h

theorem read_partition_array_effect (count : Nat) (wstr astr : String) (idx : Nat)
    (p : String × JValue) (s s2 : JSONConfigBase) (m m2 : BeginToIdx) (o : Option String)
    (ho : DeclaresOverride "array" p o)
    (h : read_partition count wstr astr idx p.2 s m = .ok (s2, m2)) :
    (s2.m_array_names, s2.m_single_array_name)
      = apply_overrides count astr [o] idx (s.m_array_names, s.m_single_array_name) := by
  obtain ⟨info, hp, hfind⟩ := ho
  rw [hp] at h
  simp only [read_partition] at h
  split at h
  · split at h
    · cases h
    · next range _ =>
      split at h
      · cases h
      · next sa hsa =>
        split at h
        · cases h
        · next sb hsb =>
          cases h
          obtain ⟨⟨ws, f, ea⟩, _⟩ := override_workspace_frame _ _ _ _ _ _ hsa
          obtain ⟨e1, _, _⟩ := override_array_effect _ _ _ _ _ _ o hfind hsb
          show (sb.m_array_names, sb.m_single_array_name) = _
          rw [e1, ea]
  · cases h

theorem apply_overrides_cons (count : Nat) (fill : String) (o : Option String)
    (ovs : List (Option String)) (k : Nat) (st : List String × Bool) :
    apply_overrides count fill (o :: ovs) k st
      = apply_overrides count fill ovs (k + 1) (apply_overrides count fill [o] k st) := by
  cases o <;> simp [apply_overrides]

theorem read_partitions_workspace_effect (count : Nat) (wstr astr : String) :
    ∀ (parts : List (String × JValue)) (ovs : List (Option String)) (k : Nat)
      (s s2 : JSONConfigBase) (m m2 : BeginToIdx),
      List.Forall₂ (DeclaresOverride "workspace") parts ovs →
      read_partitions count wstr astr parts k s m = .ok (s2, m2) →
      (s2.m_workspaces, s2.m_single_workspace_path)
        = apply_overrides count wstr ovs k (s.m_workspaces, s.m_single_workspace_path) := by
  intro parts
  induction parts with
  | nil =>
    intro ovs k s s2 m m2 ho h
    cases ho
    simp only [read_partitions] at h
    cases h
    rfl
  | cons p parts ih =>
    intro ovs k s s2 m m2 ho h
    cases ho with
    | cons hp hrest =>
      rename_i o os
      simp only [read_partitions] at h
      split at h
      · cases h
      · next sa ma hstep =>
        rw [apply_overrides_cons,
          ← read_partition_workspace_effect count wstr astr k p s sa m ma o hp hstep]
        exact ih os (k + 1) sa s2 ma m2 hrest h

theorem read_partitions_array_effect (count : Nat) (wstr astr : String) :
    ∀ (parts : List (String × JValue)) (ovs : List (Option String)) (k : Nat)
      (s s2 : JSONConfigBase) (m m2 : BeginToIdx),
      List.Forall₂ (DeclaresOverride "array") parts ovs →
      read_partitions count wstr astr parts k s m = .ok (s2, m2) →
      (s2.m_array_names, s2.m_single_array_name)
        = apply_overrides count astr ovs k (s.m_array_names, s.m_single_array_name) := by
  intro parts
  induction parts with
  | nil =>
    intro ovs k s s2 m m2 ho h
    cases ho
    simp only [read_partitions] at h
    cases h
    rfl
  | cons p parts ih =>
    intro ovs k s s2 m m2 ho h
    cases ho with
    | cons hp hrest =>
      rename_i o os
      simp only [read_partitions] at h
      split at h
      · cases h
      · next sa ma hstep =>
        rw [apply_overrides_cons,
          ← read_partition_array_effect count wstr astr k p s sa m ma o hp hstep]
        exact ih os (k + 1) sa s2 ma m2 hrest h

theorem padded_of_length (v : List String) (count : Nat) (fill : String)
    (h : v.length = count) : padded v count fill = v := by
  unfold padded
  rw [h, Nat.sub_self]
  simp

theorem apply_overrides_per_rank (n : Nat) (fill : String) :
    ∀ (ovs : List (Option String)) (k : Nat) (pre suf : List String) (f : Bool),
      pre.length = k → suf.length = ovs.length → n = k + ovs.length →
      apply_overrides n fill ovs k (pre ++ suf, f)
        = (pre ++ List.zipWith (fun o w => o.getD w) ovs suf,
           f && ovs.all Option.isNone) := by
  intro ovs
  induction ovs with
  | nil =>
    intro k pre suf f _ hs _
    have : suf = [] := List.length_eq_zero.mp hs
    subst this
    simp [apply_overrides]
  | cons o ovs ih =>
    intro k pre suf f hp hs hn
    cases suf with
    | nil => simp at hs
    | cons w suf =>
      simp only [List.length_cons, Nat.add_right_cancel_iff] at hs hn
      cases o with
      | none =>
        simp only [apply_overrides]
        have e : pre ++ w :: suf = (pre ++ [w]) ++ suf := by simp
        rw [e, ih (k + 1) (pre ++ [w]) suf f (by simp [hp]) hs (by omega)]
        simp
      | some x =>
        simp only [apply_overrides]
        have hlen : (pre ++ w :: suf).length = n := by
          simp only [List.length_append, List.length_cons]; omega
        rw [padded_of_length _ _ _ hlen, ← hp, set_length_append_cons]
        have e : pre ++ x :: suf = (pre ++ [x]) ++ suf := by simp
        rw [e, ih (pre.length + 1) (pre ++ [x]) suf false (by simp) hs (by omega)]
        simp

theorem zipWith_getD_replicate (fill : String) :
    ∀ ovs : List (Option String),
      List.zipWith (fun (o : Option String) w => o.getD w) ovs
          (List.replicate ovs.length fill)
        = ovs.map (fun o => o.getD fill) := by
  intro ovs
  induction ovs with
  | nil => rfl
  | cons o ovs ih => simp [List.replicate_succ, ih]

theorem apply_overrides_single (n : Nat) (fill : String) :
    ∀ (ovs : List (Option String)) (k : Nat), n = k + ovs.length → (∃ x, some x ∈ ovs) →
      apply_overrides n fill ovs k ([fill], true)
        = (List.replicate k fill ++ ovs.map (fun o => o.getD fill), false) := by
  intro ovs
  induction ovs with
  | nil => intro k _ ⟨x, hx⟩; cases hx
  | cons o ovs ih =>
    intro k hn hex
    simp only [List.length_cons] at hn
    cases o with
    | none =>
      have hex2 : ∃ x, some x ∈ ovs := by
        obtain ⟨x, hx⟩ := hex
        rcases List.mem_cons.mp hx with h | h
        · cases h
        · exact ⟨x, h⟩
      simp only [apply_overrides]
      rw [ih (k + 1) (by omega) hex2, List.replicate_succ']
      simp
    | some x =>
      simp only [apply_overrides]
      have hpad : padded [fill] n fill = List.replicate k fill ++ fill ::
          List.replicate ovs.length fill := by
        unfold padded
        have e1 : n - [fill].length = k + ovs.length := by simp; omega
        rw [e1]
        have e2 : [fill] ++ List.replicate (k + ovs.length) fill
            = List.replicate (k + ovs.length + 1) fill := by
          rw [List.replicate_succ]; rfl
        rw [e2]
        have e3 : k + ovs.length + 1 = k + (ovs.length + 1) := by omega
        rw [e3, List.replicate_add, List.replicate_succ]
      have hk : (List.replicate k fill).length = k := by simp
      rw [hpad]
      conv_lhs => rw [show ((List.replicate k fill ++ fill :: List.replicate ovs.length fill).set
          k x) = (List.replicate k fill ++ [x]) ++ List.replicate ovs.length fill from by
        have := set_length_append_cons (List.replicate k fill) fill x
          (List.replicate ovs.length fill)
        rw [hk] at this
        rw [this]; simp]
      rw [apply_overrides_per_rank n fill ovs (k + 1) (List.replicate k fill ++ [x])
        (List.replicate ovs.length fill) false (by simp) (by simp) (by omega),
        zipWith_getD_replicate]
      simp

theorem read_column_partitions_ok (s s2 : JSONConfigBase) (parts : List (String × JValue))
    (h : read_column_partitions s (.obj parts) = .ok s2) :
    ∃ wstr astr sa ma sorted cr,
      first_or_empty s.m_single_workspace_path s.m_workspaces = .ok wstr ∧
      first_or_empty s.m_single_array_name s.m_array_names = .ok astr ∧
      read_partitions parts.length wstr astr parts 0
        { s with
          m_column_partitions_specified := true
          m_sorted_column_partitions :=
            vector_resize s.m_sorted_column_partitions parts.length (0, 0)
          m_column_ranges := vector_resize s.m_column_ranges parts.length [] } []
        = .ok (sa, ma) ∧
      s2 = { sa with m_sorted_column_partitions := sorted, m_column_ranges := cr } := by
  unfold read_column_partitions at h
  simp only at h
  cases hw : first_or_empty s.m_single_workspace_path s.m_workspaces with
  | error x =>
    rw [hw] at h
    simp only at h
    cases h
  | ok wstr =>
    cases ha : first_or_empty s.m_single_array_name s.m_array_names with
    | error x =>
      rw [hw, ha] at h
      simp only at h
      cases h
    | ok astr =>
      rw [hw, ha] at h
      simp only at h
      split at h
      · cases h
      · next sa ma hloop =>
        split at h
        · cases h
        · next sorted cr _ =>
          cases h
          exact ⟨wstr, astr, sa, ma, sorted, cr, rfl, rfl, hloop, rfl⟩

/-- C12. Override default-fill: after a successful load into a fresh object of a document whose
column selector is `column_partitions` with `n` partitions, whose `workspace` (resp. `array`) is
a single string `W` (resp. `A`), and in which at least one partition declares a `workspace`
(resp. `array`) override, `get_workspace(i)` (resp. `get_array_name(i)`) returns for every
declaration position `i < n` the override of partition `i` when it has one and `W` (resp. `A`)
otherwise, and fails for every rank `r >= n` and every negative rank. -/
theorem override_default_fill (m_json parts : List (String × JValue)) (s : JSONConfigBase)
    (hok : JSONConfigBase.read_from_file JSONConfigBase.fresh (.obj m_json) = .ok s)
    (hscan : HasMember m_json "scan_full" = false)
    (hq : FindMember m_json "query_column_ranges" = none)
    (hparts : FindMember m_json "column_partitions" = some (JValue.obj parts))
    (ovs : List (Option String)) (hsome : ∃ x, some x ∈ ovs)
    (hlen : (parts.length : Int) ≤ INT64_MAX) :
    (∀ W : String, FindMember m_json "workspace" = some (JValue.str W) →
      List.Forall₂ (DeclaresOverride "workspace") parts ovs →
      (∀ (i : Nat) (o : Option String), ovs.get? i = some o →
        s.get_workspace (i : Int) = .ok (o.getD W)) ∧
      (∀ r : Int, is_int r → (r < 0 ∨ (parts.length : Int) ≤ r) →
        s.get_workspace r = .error .workspace_rank)) ∧
    (∀ A : String, FindMember m_json "array" = some (JValue.str A) →
      List.Forall₂ (DeclaresOverride "array") parts ovs →
      (∀ (i : Nat) (o : Option String), ovs.get? i = some o →
        s.get_array_name (i : Int) = .ok (o.getD A)) ∧
      (∀ r : Int, is_int r → (r < 0 ∨ (parts.length : Int) ≤ r) →
        s.get_array_name r = .error .array_rank)) := by
  obtain ⟨members, s1, s2, s3, s4, hm, h1, h2, h3, h4, h5⟩ := read_from_file_ok _ _ _ hok
  cases hm
  have hq2 : HasMember m_json "query_column_ranges" = false := by simp [HasMember, hq]
  rw [read_column_selection_partitions s2 m_json _ hscan hq2 hparts] at h3
  obtain ⟨wstr, astr, sa, ma, sorted, cr, hw, ha, hloop, e3⟩ :=
    read_column_partitions_ok _ _ _ h3
  obtain ⟨f1, f2, f3, f4, _⟩ := read_rows_attributes_frame _ _ _ _ h4 h5
  constructor
  · intro W hfind hovs
    have hn := forall₂_length_eq hovs
    have e1 : s1 = { JSONConfigBase.fresh with
        m_workspaces := [W], m_single_workspace_path := true } := by
      simp [read_workspace, hfind, JValue.IsString, JValue.GetString] at h1
      rw [← h1]; rfl
    obtain ⟨ns, g, e2⟩ := read_array_frame _ _ _ h2
    have hwstr : wstr = W := by
      rw [e2, e1] at hw
      simp [first_or_empty] at hw
      exact hw.symm
    have heff := read_partitions_workspace_effect _ _ _ _ ovs _ _ _ _ _ hovs hloop
    rw [hwstr] at heff
    have hinit : ({ s2 with
          m_column_partitions_specified := true
          m_sorted_column_partitions :=
            vector_resize s2.m_sorted_column_partitions parts.length (0, 0)
          m_column_ranges := vector_resize s2.m_column_ranges parts.length [] }
        : JSONConfigBase).m_workspaces = [W] := by
      show s2.m_workspaces = [W]
      rw [e2, e1]
    have hinitf : ({ s2 with
          m_column_partitions_specified := true
          m_sorted_column_partitions :=
            vector_resize s2.m_sorted_column_partitions parts.length (0, 0)
          m_column_ranges := vector_resize s2.m_column_ranges parts.length [] }
        : JSONConfigBase).m_single_workspace_path = true := by
      show s2.m_single_workspace_path = true
      rw [e2, e1]
    rw [hinit, hinitf, apply_overrides_single parts.length W ovs 0 (by omega) hsome] at heff
    simp only [List.replicate_zero, List.nil_append, Prod.mk.injEq] at heff
    have hws : s.m_workspaces = ovs.map (fun o => o.getD W) := by
      rw [f1, e3]; exact heff.1
    have hfl : s.m_single_workspace_path = false := by
      rw [f2, e3]; exact heff.2
    have hmaplen : ((ovs.map (fun o => o.getD W)).length : Int) ≤ INT64_MAX := by
      rw [List.length_map, ← hn]; exact hlen
    obtain ⟨hfail, hget⟩ := get_workspace_per_rank s _ hws hfl hmaplen
    constructor
    · intro i o hi
      exact hget i (o.getD W) (get?_map_some _ ovs i o hi)
    · intro r hr hout
      apply hfail r hr
      rw [List.length_map, ← hn]
      exact hout
  · intro A hfind hovs
    have hn := forall₂_length_eq hovs
    obtain ⟨ws, f, e1⟩ := read_workspace_frame _ _ _ h1
    have e2 : s2 = { s1 with
        m_array_names := s1.m_array_names ++ [A], m_single_array_name := true } := by
      simp [read_array, hfind, JValue.IsString, JValue.GetString] at h2
      rw [← h2]
    have hastr : astr = A := by
      rw [e2, e1] at ha
      simp [first_or_empty, JSONConfigBase.fresh] at ha
      exact ha.symm
    have heff := read_partitions_array_effect _ _ _ _ ovs _ _ _ _ _ hovs hloop
    rw [hastr] at heff
    have hinit : ({ s2 with
          m_column_partitions_specified := true
          m_sorted_column_partitions :=
            vector_resize s2.m_sorted_column_partitions parts.length (0, 0)
          m_column_ranges := vector_resize s2.m_column_ranges parts.length [] }
        : JSONConfigBase).m_array_names = [A] := by
      show s2.m_array_names = [A]
      rw [e2, e1]; rfl
    have hinitf : ({ s2 with
          m_column_partitions_specified := true
          m_sorted_column_partitions :=
            vector_resize s2.m_sorted_column_partitions parts.length (0, 0)
          m_column_ranges := vector_resize s2.m_column_ranges parts.length [] }
        : JSONConfigBase).m_single_array_name = true := by
      show s2.m_single_array_name = true
      rw [e2]
    rw [hinit, hinitf, apply_overrides_single parts.length A ovs 0 (by omega) hsome] at heff
    simp only [List.replicate_zero, List.nil_append, Prod.mk.injEq] at heff
    have hws : s.m_array_names = ovs.map (fun o => o.getD A) := by
      rw [f3, e3]; exact heff.1
    have hfl : s.m_single_array_name = false := by
      rw [f4, e3]; exact heff.2
    have hmaplen : ((ovs.map (fun o => o.getD A)).length : Int) ≤ INT64_MAX := by
      rw [List.length_map, ← hn]; exact hlen
    obtain ⟨hfail, hget⟩ := get_array_name_per_rank s _ hws hfl hmaplen
    constructor
    · intro i o hi
      exact hget i (o.getD A) (get?_map_some _ ovs i o hi)
    · intro r hr hout
      apply hfail r hr
      rw [List.length_map, ← hn]
      exact hout

/-- Witness of C12: in `default_fill_document` only partition 1 overrides the workspace `"W"`,
with `"X"`; ranks 0 and 2 get `"W"`, rank 1 gets `"X"`, rank 3 fails. -/
theorem override_default_fill_witness :
    JSONConfigBase.read_from_file JSONConfigBase.fresh (.obj default_fill_document)
      = .ok default_fill_loaded ∧
    default_fill_loaded.get_workspace 0 = .ok "W" ∧
    default_fill_loaded.get_workspace 1 = .ok "X" ∧
    default_fill_loaded.get_workspace 2 = .ok "W" ∧
    default_fill_loaded.get_workspace 3 = .error .workspace_rank :=
  have hd : List.Forall₂ (DeclaresOverride "workspace") default_fill_parts
      [none, some "X", none] :=
    List.Forall₂.cons ⟨_, rfl, rfl⟩ (List.Forall₂.cons ⟨_, rfl, rfl⟩
      (List.Forall₂.cons ⟨_, rfl, rfl⟩ List.Forall₂.nil))
  have hw := (override_default_fill default_fill_document default_fill_parts
    default_fill_loaded rfl rfl rfl rfl [none, some "X", none]
    ⟨"X", by simp⟩ (by decide)).1 "W" rfl hd
  ⟨rfl, hw.1 0 none rfl, hw.1 1 (some "X") rfl, hw.1 2 none rfl,
   hw.2 3 (by decide) (Or.inr (by decide))⟩

/-! ## C11: required fields and rank bounds at assembly -/

end GenomicsDB
